import Mathlib

/-!
# DevPlaza: hybrid feed merge, like/favorite counters, permissions, follow graph

A shallow embedding of `models/post.go`, `models/user.go`, `utils/tool.go`,
`middlewares/jwt.go` and the follow handlers of `controllers/user.go`.

* `QueryPosts` is embedded with the results of its SQL sub-queries taken as parameters
  (the rows each query matches, in query order, before the `Limit` clause); page-size
  defaulting, the follow limit, the `Limit(50)` truncation and the merge loop are
  transliterated from the source.  The merge loop is a Go `for` loop, embedded as a
  fuel-indexed function that yields `none` when the fuel is used up.
* `LikePost`, `UnlikePost`, `FavoritePost`, `UnfavoritePost` are embedded over an explicit
  store state; each SQL statement is a function on that state and may be made to fail
  through an `Env` record, so that every `if err != nil` branch of the source is present.
* `GetUserWithPermissions` takes the preloaded user record and the iteration order of its
  Go map as parameters; `StringSlicesEqual`, `ToSet` and the `JWT` middleware are
  transliterated, with `ParseToken` a parameter.
* The follow handlers run over the tables `users` and `follows`.
-/

namespace DevPlaza

/-! ## Data model -/

/-- Row of table `posts` (`Post` with the embedded `gorm.Model`); times are abstract
instants, `DeletedAt = some t` is a valid `gorm.DeletedAt`.  The counters are the
database columns (`bigint`), hence integers. -/
structure Post where
  ID : Nat
  CreatedAt : Nat
  DeletedAt : Option Nat
  Title : String
  Description : String
  ViewCount : Nat
  UserId : Nat
  LikeCount : Int
  FavoriteCount : Int
deriving DecidableEq, Repr

/-- The `PostFilter` struct. -/
structure PostFilter where
  Keyword : String
  UserId : Nat
  StartDate : Option Nat
  EndDate : Option Nat
  Page : Int
  PageSize : Int
  OrderDesc : Bool
  Hybrid : Bool
  FollowingOf : Nat
deriving DecidableEq, Repr

/-! ## The follow limit: `int(float64(pageSize) * 0.7)` -/

/-- Significand of the `float64` nearest to `0.7`: that number is
`0x16666666666666 / 2^53`. -/
def sevenTenthsSig : Nat := 6305039478318694

/-- Number of low bits to drop so that `m` fits in 53 bits: the least `s` with
`m / 2 ^ s < 2 ^ 53` (searched for at most `fuel` steps). -/
def excessBits : Nat → Nat → Nat
  | 0, _ => 0
  | fuel + 1, m => if m < 2 ^ 53 then 0 else excessBits fuel (m / 2) + 1

/-- Round a natural number to 53 significant bits, ties to even (the rounding of
`float64`); the result is the rounded value itself. -/
def roundSig53 (m : Nat) : Nat :=
  let s := excessBits m m
  if s = 0 then m
  else
    let q := m / 2 ^ s
    let r := m % 2 ^ s
    let half := 2 ^ (s - 1)
    (if half < r ∨ (r = half ∧ q % 2 = 1) then q + 1 else q) * 2 ^ s

/-- The value `followLimit := int(float64(pageSize) * 0.7)` for a positive `pageSize`:
conversion to `float64`, one rounded multiplication, truncation. -/
def followLimitOf (pageSize : Int) : Int :=
  ((roundSig53 (roundSig53 pageSize.toNat * sevenTenthsSig) / 2 ^ 53 : Nat) : Int)

/-! ## QueryPosts -/

/-- The page size after defaulting: `if pageSize <= 0 { pageSize = 10 }`. -/
def effectivePageSize (pageSize : Int) : Int :=
  if pageSize ≤ 0 then 10 else pageSize

/-- The page number after defaulting: `if page < 1 { page = 1 }`. -/
def effectivePage (page : Int) : Int :=
  if page < 1 then 1 else page

/-- The value that 64-bit `int` arithmetic leaves of an integer result: it wraps around
in two's complement. -/
def wrapInt64 (i : Int) : Int :=
  (i + 2 ^ 63) % 2 ^ 64 - 2 ^ 63

/-- Local variables of the merge loop: `posts`, `fIdx`, `gIdx`. -/
structure MergeState where
  posts : List Post
  fIdx : Nat
  gIdx : Nat
deriving DecidableEq, Repr

/-- First `if` of the loop body: take one following candidate. -/
def takeFollow (followPosts : List Post) (followLimit : Int) (st : MergeState) : MergeState :=
  if h : st.fIdx < followPosts.length ∧ (st.posts.length : Int) < followLimit then
    { st with posts := st.posts ++ [followPosts[st.fIdx]], fIdx := st.fIdx + 1 }
  else st

/-- Second `if` of the loop body: take one global candidate. -/
def takeGlobal (globalPosts : List Post) (pageSize : Int) (st : MergeState) : MergeState :=
  if h : st.gIdx < globalPosts.length ∧ (st.posts.length : Int) < pageSize then
    { st with posts := st.posts ++ [globalPosts[st.gIdx]], gIdx := st.gIdx + 1 }
  else st

/-- The two appending statements of one loop iteration. -/
def mergeBody (followPosts globalPosts : List Post) (pageSize followLimit : Int)
    (st : MergeState) : MergeState :=
  takeGlobal globalPosts pageSize (takeFollow followPosts followLimit st)

/-- The `break` test at the end of the loop body. -/
def bothExhausted (followPosts globalPosts : List Post) (st : MergeState) : Bool :=
  decide (followPosts.length ≤ st.fIdx) && decide (globalPosts.length ≤ st.gIdx)

/-- The loop `for len(posts) < pageSize { ... }`; `none` when `fuel` iterations did not
reach an exit. -/
def mergeLoop (followPosts globalPosts : List Post) (pageSize followLimit : Int) :
    Nat → MergeState → Option MergeState
  | 0, _ => none
  | fuel + 1, st =>
    if (st.posts.length : Int) < pageSize then
      let st2 := mergeBody followPosts globalPosts pageSize followLimit st
      if bothExhausted followPosts globalPosts st2 then some st2
      else mergeLoop followPosts globalPosts pageSize followLimit fuel st2
    else some st

/-- State of the loop after at most `k` iterations: the state at the exit when the loop
exits within `k` iterations, the state reached after `k` iterations otherwise. -/
def mergeIter (followPosts globalPosts : List Post) (pageSize followLimit : Int) :
    Nat → MergeState → MergeState
  | 0, st => st
  | k + 1, st =>
    if (st.posts.length : Int) < pageSize then
      let st2 := mergeBody followPosts globalPosts pageSize followLimit st
      if bothExhausted followPosts globalPosts st2 then st2
      else mergeIter followPosts globalPosts pageSize followLimit k st2
    else st

/-- What `QueryPosts` returns: `([]Post, int64, error)`. -/
structure QueryResult where
  posts : List Post
  total : Int
  err : Option String
deriving DecidableEq, Repr

/-- Results of the SQL queries issued by `QueryPosts`, as functions of nothing but the
store: the rows matched by the following query and by the global query, in query order
and before `Limit(50)`, or the error of `Find`; the row count and the rows of the
non-hybrid query for a given offset and limit. -/
structure PostQueries where
  follow : Except String (List Post)
  global : Except String (List Post)
  count : Int
  plain : Bool → Int → Int → Except String (List Post)

/-- The function `QueryPosts`.  `fuel` bounds the iterations of the merge loop;
`none` means the loop did not exit within `fuel` iterations. -/
def QueryPosts (fuel : Nat) (q : PostQueries) (filter : PostFilter) : Option QueryResult :=
  let pageSize := effectivePageSize filter.PageSize
  let page := effectivePage filter.Page
  if filter.Hybrid && filter.FollowingOf != 0 then
    let followLimit := followLimitOf pageSize
    match q.follow with
    | .error e => some { posts := [], total := 0, err := some e }
    | .ok followRows =>
      let followPosts := followRows.take 50
      match q.global with
      | .error e => some { posts := [], total := 0, err := some e }
      | .ok globalRows =>
        let globalPosts := globalRows.take 50
        match mergeLoop followPosts globalPosts pageSize followLimit fuel
            { posts := [], fIdx := 0, gIdx := 0 } with
        | none => none
        | some st => some { posts := st.posts, total := st.posts.length, err := none }
  else
    let offset := wrapInt64 ((page - 1) * pageSize)
    match q.plain filter.OrderDesc offset pageSize with
    | .error e => some { posts := [], total := q.count, err := some e }
    | .ok rows => some { posts := rows, total := q.count, err := none }

/-! ## Concrete inputs -/

/-- A post row with the given id and author, everything else zero. -/
def mkPost (id author : Nat) : Post :=
  { ID := id, CreatedAt := 0, DeletedAt := none, Title := "", Description := "",
    ViewCount := 0, UserId := author, LikeCount := 0, FavoriteCount := 0 }

/-- Posts with ids `base+1 .. base+n` by `author`. -/
def mkPosts (base author n : Nat) : List Post :=
  (List.range n).map (fun i => mkPost (base + i + 1) author)

/-- A hybrid filter for viewer `1` with the given page size. -/
def hybridFilter (pageSize : Int) : PostFilter :=
  { Keyword := "", UserId := 0, StartDate := none, EndDate := none, Page := 1,
    PageSize := pageSize, OrderDesc := true, Hybrid := true, FollowingOf := 1 }

/-- Query results with `nf` following rows (ids `101..`, author `2`) and `ng` global rows
(ids `201..`, author `3`). -/
def sampleQueries (nf ng : Nat) : PostQueries :=
  { follow := .ok (mkPosts 100 2 nf), global := .ok (mkPosts 200 3 ng),
    count := 0, plain := fun _ _ _ => .ok [] }

/-- The page the code returns for 5 following and 20 global rows at page size 10. -/
def samplePage : QueryResult :=
  { posts := [mkPost 101 2, mkPost 201 3, mkPost 102 2, mkPost 202 3, mkPost 103 2,
      mkPost 203 3, mkPost 104 2, mkPost 204 3, mkPost 205 3, mkPost 206 3],
    total := 10, err := none }

/-- The ids of the posts of a result. -/
def postIDs (r : Option QueryResult) : Option (List Nat) :=
  r.map (fun x => x.posts.map (fun p => p.ID))

/-! ## The like / favorite store -/

/-- Row of table `post_likes` (`PostLike` with the embedded `gorm.Model`).
`DeletedAt = some t` is a valid `gorm.DeletedAt`: the row is soft-deleted. -/
structure PostLike where
  ID : Nat
  PostID : Nat
  UserID : Nat
  DeletedAt : Option Nat
deriving DecidableEq, Repr

/-- Row of table `post_favorites`: `PostFavorite` has the fields of `PostLike`. -/
abbrev PostFavorite := PostLike

/-- The store: the three tables touched by the like / favorite operations. -/
structure DB where
  posts : List Post
  post_likes : List PostLike
  post_favorites : List PostFavorite
deriving DecidableEq, Repr

/-- A Go `error` value coming out of the store operations. -/
inductive Err where
  | recordNotFound
  | driver
  | duplicateKey
  | outOfRange
  | foreignKey
  | message (s : String)
deriving DecidableEq, Repr

/-- What the outside world decides during one call: the clock, the id the database
assigns to an inserted row, and which statements fail in the driver. -/
structure Env where
  now : Nat
  newID : Nat
  beginErr : Bool
  firstErr : Bool
  updateErr : Bool
  createErr : Bool
  counterErr : Bool
  commitErr : Bool
  deleteErr : Bool
deriving DecidableEq, Repr

/-- An environment in which no statement fails. -/
def Env.ok (now newID : Nat) : Env :=
  { now := now, newID := newID, beginErr := false, firstErr := false, updateErr := false,
    createErr := false, counterErr := false, commitErr := false, deleteErr := false }

/-- The two denormalised counter columns of `posts`. -/
inductive Counter where
  | like_count
  | favorite_count
deriving DecidableEq, Repr

/-- Read a counter column. -/
def Post.counter (p : Post) : Counter → Int
  | .like_count => p.LikeCount
  | .favorite_count => p.FavoriteCount

/-- Write a counter column. -/
def Post.setCounter (p : Post) (c : Counter) (v : Int) : Post :=
  match c with
  | .like_count => { p with LikeCount := v }
  | .favorite_count => { p with FavoriteCount := v }

/-- Range of a `bigint` column. -/
def inBigint (v : Int) : Bool :=
  decide (-(2 : Int) ^ 63 ≤ v) && decide (v < (2 : Int) ^ 63)

/-- The row with the least id (the earliest such row of the list): `ORDER BY id LIMIT 1`. -/
def firstByID : List PostLike → Option PostLike
  | [] => none
  | r :: rs =>
    match firstByID rs with
    | none => some r
    | some m => if m.ID < r.ID then some m else some r

/-- Condition `post_id = ? AND user_id = ?`. -/
def isPair (postID userID : Nat) (r : PostLike) : Bool :=
  decide (r.PostID = postID) && decide (r.UserID = userID)

/-- Statement `Unscoped().Where("post_id = ? AND user_id = ?", ..).First(&row)`:
soft-deleted rows included. -/
def firstUnscoped (failed : Bool) (rows : List PostLike) (postID userID : Nat) :
    Except Err PostLike :=
  if failed then .error .driver
  else
    match firstByID (rows.filter (isPair postID userID)) with
    | none => .error .recordNotFound
    | some r => .ok r

/-- Effect of `UPDATE .. SET deleted_at = NULL WHERE id = ?`. -/
def undeleteRows (id : Nat) (rows : List PostLike) : List PostLike :=
  rows.map (fun r => if r.ID = id then { r with DeletedAt := none } else r)

/-- Statement `Unscoped().Model(..).Update("deleted_at", nil)` on the row with primary
key `id`. -/
def undelete (failed : Bool) (rows : List PostLike) (id : Nat) : Except Err (List PostLike) :=
  if failed then .error .driver
  else .ok (undeleteRows id rows)

/-- Statement `Create(&row)` with `PostID`, `UserID` set: the database assigns `newID`;
the primary key and the unique index on `(post_id, user_id)` are checked over all rows,
soft-deleted ones included. -/
def create (failed : Bool) (newID : Nat) (rows : List PostLike) (postID userID : Nat) :
    Except Err (List PostLike) :=
  if failed then .error .driver
  else if rows.any (fun r => decide (r.ID = newID) || isPair postID userID r) then
    .error .duplicateKey
  else .ok (rows ++ [{ ID := newID, PostID := postID, UserID := userID, DeletedAt := none }])

/-- Condition of a soft delete: `post_id = ? AND user_id = ? AND deleted_at IS NULL`. -/
def isActivePair (postID userID : Nat) (r : PostLike) : Bool :=
  isPair postID userID r && r.DeletedAt.isNone

/-- Effect of `UPDATE .. SET deleted_at = now WHERE post_id = ? AND user_id = ? AND
deleted_at IS NULL`. -/
def softDeleteRows (now postID userID : Nat) (rows : List PostLike) : List PostLike :=
  rows.map (fun r => if isActivePair postID userID r then { r with DeletedAt := some now } else r)

/-- Statement `Where("post_id = ? AND user_id = ?", ..).Delete(&PostLike{})`: a soft
delete of the rows that are not yet soft-deleted; also yields `RowsAffected`. -/
def softDelete (failed : Bool) (now : Nat) (rows : List PostLike) (postID userID : Nat) :
    Except Err (List PostLike × Nat) :=
  if failed then .error .driver
  else .ok (softDeleteRows now postID userID rows, rows.countP (isActivePair postID userID))

/-- Condition `id = ? AND deleted_at IS NULL` on `posts`. -/
def isLivePost (postID : Nat) (p : Post) : Bool :=
  decide (p.ID = postID) && p.DeletedAt.isNone

/-- Effect of `UPDATE posts SET col = col + delta WHERE id = ? AND deleted_at IS NULL`. -/
def bumpPosts (c : Counter) (delta : Int) (postID : Nat) (posts : List Post) : List Post :=
  posts.map (fun p => if isLivePost postID p then p.setCounter c (p.counter c + delta) else p)

/-- Statement `Model(&Post{}).Where("id = ?", postID).UpdateColumn(col, col + delta)`:
`Post` is soft-deletable, so only rows with `deleted_at IS NULL` are updated; a value
outside the column type is an error. -/
def updateCounter (failed : Bool) (c : Counter) (delta : Int) (postID : Nat)
    (posts : List Post) : Except Err (List Post) :=
  if failed then .error .driver
  else if posts.any (fun p => isLivePost postID p && !inBigint (p.counter c + delta)) then
    .error .outOfRange
  else .ok (bumpPosts c delta postID posts)

/-- The function `LikePost`; the result is the store after the call and the returned
error (`none` is `nil`).  A rolled-back or failed transaction leaves the store as it was. -/
def LikePost (env : Env) (db : DB) (postID userID : Nat) : DB × Option Err :=
  if env.beginErr then (db, some .driver)
  else
    match firstUnscoped env.firstErr db.post_likes postID userID with
    | .ok like =>
      if like.DeletedAt.isSome then
        match undelete env.updateErr db.post_likes like.ID with
        | .error e => (db, some e)
        | .ok likes =>
          match updateCounter env.counterErr .like_count 1 postID db.posts with
          | .error e => (db, some e)
          | .ok posts =>
            if env.commitErr then (db, some .driver)
            else ({ db with posts := posts, post_likes := likes }, none)
      else (db, some (.message "already liked"))
    | .error e =>
      if e ≠ .recordNotFound then (db, some e)
      else
        match create env.createErr env.newID db.post_likes postID userID with
        | .error e => (db, some e)
        | .ok likes =>
          match updateCounter env.counterErr .like_count 1 postID db.posts with
          | .error e => (db, some e)
          | .ok posts =>
            if env.commitErr then (db, some .driver)
            else ({ db with posts := posts, post_likes := likes }, none)

/-- The function `UnlikePost`: two statements outside any transaction. -/
def UnlikePost (env : Env) (db : DB) (postID userID : Nat) : DB × Option Err :=
  match softDelete env.deleteErr env.now db.post_likes postID userID with
  | .error e => (db, some e)
  | .ok (likes, rowsAffected) =>
    if rowsAffected > 0 then
      match updateCounter env.counterErr .like_count (-1) postID db.posts with
      | .error e => ({ db with post_likes := likes }, some e)
      | .ok posts => ({ db with posts := posts, post_likes := likes }, none)
    else ({ db with post_likes := likes }, none)

/-- The function `FavoritePost`. -/
def FavoritePost (env : Env) (db : DB) (postID userID : Nat) : DB × Option Err :=
  if env.beginErr then (db, some .driver)
  else
    match firstUnscoped env.firstErr db.post_favorites postID userID with
    | .ok fav =>
      if fav.DeletedAt.isSome then
        match undelete env.updateErr db.post_favorites fav.ID with
        | .error e => (db, some e)
        | .ok favs =>
          match updateCounter env.counterErr .favorite_count 1 postID db.posts with
          | .error e => (db, some e)
          | .ok posts =>
            if env.commitErr then (db, some .driver)
            else ({ db with posts := posts, post_favorites := favs }, none)
      else (db, some (.message "already favorited"))
    | .error e =>
      if e ≠ .recordNotFound then (db, some e)
      else
        match create env.createErr env.newID db.post_favorites postID userID with
        | .error e => (db, some e)
        | .ok favs =>
          match updateCounter env.counterErr .favorite_count 1 postID db.posts with
          | .error e => (db, some e)
          | .ok posts =>
            if env.commitErr then (db, some .driver)
            else ({ db with posts := posts, post_favorites := favs }, none)

/-- The function `UnfavoritePost`. -/
def UnfavoritePost (env : Env) (db : DB) (postID userID : Nat) : DB × Option Err :=
  match softDelete env.deleteErr env.now db.post_favorites postID userID with
  | .error e => (db, some e)
  | .ok (favs, rowsAffected) =>
    if rowsAffected > 0 then
      match updateCounter env.counterErr .favorite_count (-1) postID db.posts with
      | .error e => ({ db with post_favorites := favs }, some e)
      | .ok posts => ({ db with posts := posts, post_favorites := favs }, none)
    else ({ db with post_favorites := favs }, none)

/-- The struct `PostStatus` of package `models`. -/
structure PostStatus where
  Liked : List Nat
  Favorited : List Nat
deriving DecidableEq, Repr

/-- Statement `Model(&PostLike{}).Where("user_id = ? AND post_id IN ?", ..).Pluck("post_id", ..)`:
the soft-delete scope keeps the rows with `deleted_at IS NULL`. -/
def pluckPostIDs (rows : List PostLike) (userID : Nat) (postIDs : List Nat) : List Nat :=
  (rows.filter (fun r =>
    decide (r.UserID = userID) && decide (r.PostID ∈ postIDs) && r.DeletedAt.isNone)).map
    (fun r => r.PostID)

/-- The function `GetUserPostStatuses`; `likesErr`, `favoritesErr` tell whether the first
and the second query fail. -/
def GetUserPostStatuses (likesErr favoritesErr : Bool) (db : DB) (userID : Nat)
    (postIDs : List Nat) : Except Err PostStatus :=
  if likesErr then .error .driver
  else if favoritesErr then .error .driver
  else .ok { Liked := pluckPostIDs db.post_likes userID postIDs,
             Favorited := pluckPostIDs db.post_favorites userID postIDs }

/-! ### Specification vocabulary for the store -/

/-- The physical like records of a pair, soft-deleted ones included. -/
def likeRecords (db : DB) (postID userID : Nat) : List PostLike :=
  db.post_likes.filter (isPair postID userID)

/-- Number of active (not soft-deleted) rows for a post. -/
def activeCount (rows : List PostLike) (postID : Nat) : Nat :=
  rows.countP (fun r => decide (r.PostID = postID) && r.DeletedAt.isNone)

/-- The post row `First(&post, id)` finds: the row with that id that is not soft-deleted. -/
def getPost (db : DB) (postID : Nat) : Option Post :=
  db.posts.find? (isLivePost postID)

/-- Key constraints of one like / favorite table: the primary key `id` and the unique
index on `(post_id, user_id)`, both over all rows. -/
def KeysOK (rows : List PostLike) : Prop :=
  (rows.map (fun r => r.ID)).Nodup ∧ (rows.map (fun r => (r.PostID, r.UserID))).Nodup

/-- Key constraints of the store. -/
def Constraints (db : DB) : Prop :=
  (db.posts.map (fun p => p.ID)).Nodup ∧ KeysOK db.post_likes ∧ KeysOK db.post_favorites

/-- Counter consistency: every post row carries the number of active like rows and of
active favorite rows for its id. -/
def Consistent (db : DB) : Prop :=
  ∀ p ∈ db.posts, p.LikeCount = (activeCount db.post_likes p.ID : Int) ∧
    p.FavoriteCount = (activeCount db.post_favorites p.ID : Int)

/-- What a successful like (favorite) does to its table: either the earliest record of
the pair was soft-deleted and is reactivated, or the pair had no record and a fresh
active one is appended. -/
def MarkStep (postID userID newID : Nat) (rows rows2 : List PostLike) : Prop :=
  (∃ like, firstByID (rows.filter (isPair postID userID)) = some like ∧
      like.DeletedAt.isSome = true ∧ rows2 = undeleteRows like.ID rows) ∨
  (rows.filter (isPair postID userID) = [] ∧ (∀ r ∈ rows, r.ID ≠ newID) ∧
      rows2 = rows ++ [{ ID := newID, PostID := postID, UserID := userID, DeletedAt := none }])

/-- One call of the counter store. -/
inductive Call where
  | like (postID userID : Nat)
  | unlike (postID userID : Nat)
  | favorite (postID userID : Nat)
  | unfavorite (postID userID : Nat)
deriving DecidableEq, Repr

/-- The post a call is about. -/
def Call.postID : Call → Nat
  | .like p _ => p
  | .unlike p _ => p
  | .favorite p _ => p
  | .unfavorite p _ => p

/-- Run one call. -/
def Call.run (env : Env) (db : DB) : Call → DB × Option Err
  | .like p u => LikePost env db p u
  | .unlike p u => UnlikePost env db p u
  | .favorite p u => FavoritePost env db p u
  | .unfavorite p u => UnfavoritePost env db p u

/-- Run calls one after the other, whatever each returns. -/
def runCalls : List (Env × Call) → DB → DB
  | [], db => db
  | (env, c) :: rest, db => runCalls rest (c.run env db).1

/-- Run calls one after the other as long as each is about an existing post and returns
`nil`; `none` as soon as one is not. -/
def runSuccessful : List (Env × Call) → DB → Option DB
  | [], db => some db
  | (env, c) :: rest, db =>
    if (getPost db c.postID).isSome && (c.run env db).2.isNone then
      runSuccessful rest (c.run env db).1
    else none

/-- A store with one post (id `1`, author `2`) and no like or favorite. -/
def sampleDB : DB :=
  { posts := [mkPost 1 2], post_likes := [], post_favorites := [] }

/-- The store `sampleDB` after user `7` liked post `1` (record id `1`). -/
def sampleLiked : DB :=
  { posts := [{ mkPost 1 2 with LikeCount := 1 }],
    post_likes := [{ ID := 1, PostID := 1, UserID := 7, DeletedAt := none }],
    post_favorites := [] }

/-- The store `sampleLiked` after user `7` retracted the like at time `6`. -/
def sampleUnliked : DB :=
  { posts := [mkPost 1 2],
    post_likes := [{ ID := 1, PostID := 1, UserID := 7, DeletedAt := some 6 }],
    post_favorites := [] }

/-- A run of calls on post `1`: user `7` likes, favorites, retracts the like, likes
again; user `8` likes; user `7` retracts a like twice. -/
def sampleCalls : List (Env × Call) :=
  [(Env.ok 5 1, .like 1 7), (Env.ok 6 1, .favorite 1 7), (Env.ok 7 2, .unlike 1 7),
   (Env.ok 8 2, .like 1 7), (Env.ok 9 2, .like 1 8), (Env.ok 10 3, .unlike 1 7),
   (Env.ok 11 3, .unlike 1 7)]

/-! ### Exchanging likes with favorites, and sample failures -/

/-- Exchange the two counters of a post row. -/
def Post.swapCounters (p : Post) : Post :=
  { p with LikeCount := p.FavoriteCount, FavoriteCount := p.LikeCount }

/-- Exchange likes with favorites in the store: the two tables and the two counters. -/
def DB.swap (db : DB) : DB :=
  { posts := db.posts.map Post.swapCounters,
    post_likes := db.post_favorites,
    post_favorites := db.post_likes }

/-- An error with the text of an `errors.New` message left out. -/
def Err.eraseText : Err → Err
  | .message _ => .message ""
  | e => e

/-- An environment in which only the counter update fails in the driver. -/
def Env.counterFails (now newID : Nat) : Env :=
  { Env.ok now newID with counterErr := true }

/-- The store `sampleDB` after user `7` made post `1` a favorite (record id `1`). -/
def sampleFavorited : DB :=
  { posts := [{ mkPost 1 2 with FavoriteCount := 1 }],
    post_likes := [],
    post_favorites := [{ ID := 1, PostID := 1, UserID := 7, DeletedAt := none }] }

/-! ## Roles, permissions and the credential check -/

/-- The `Permission` struct (`gorm.Model` reduced to the id). -/
structure Permission where
  ID : Nat
  Name : String
  Description : String
deriving DecidableEq, Repr

/-- The `PermissionGroup` struct with its preloaded permissions. -/
structure PermissionGroup where
  ID : Nat
  Name : String
  Description : String
  Permissions : List Permission
deriving DecidableEq, Repr

/-- The `Role` struct with its preloaded permissions and permission groups. -/
structure Role where
  ID : Nat
  Name : String
  Description : String
  Permissions : List Permission
  PermissionGroups : List PermissionGroup
deriving DecidableEq, Repr

/-- The `User` struct; `Role` is the preloaded pointer, `none` when it is `nil`. -/
structure User where
  ID : Nat
  DeletedAt : Option Nat
  Email : String
  Username : String
  Avatar : String
  Github : String
  Uid : Nat
  RoleID : Nat
  Role : Option Role
deriving DecidableEq, Repr

/-- Outcome of a Go call that may also panic. -/
inductive Outcome (α : Type) where
  | ok (v : α)
  | error (e : Err)
  | panic
deriving DecidableEq, Repr

/-- Statement `m[k] = struct{}{}` on a `map[string]struct{}`; the map is kept as the list
of its keys, each once. -/
def mapInsert (m : List String) (k : String) : List String :=
  if k ∈ m then m else m ++ [k]

/-- The order in which a `range` over a map visits its keys.  Go leaves the order open,
so it is a parameter of every function that ranges over a map; it visits each key once. -/
structure RangeOrder where
  visit : List String → List String
  perm : ∀ keys, (visit keys).Perm keys

/-- The range order that visits the keys in the order of their first insertion. -/
def insertionOrder : RangeOrder :=
  { visit := fun keys => keys, perm := fun keys => List.Perm.refl keys }

/-- The range order that visits the keys in the reverse of that order. -/
def reverseOrder : RangeOrder :=
  { visit := fun keys => keys.reverse, perm := fun keys => List.reverse_perm keys }

/-- The two loops of `GetUserWithPermissions` that fill `permSet`. -/
def collectPermSet (role : Role) : List String :=
  let permSet := role.Permissions.foldl (fun m p => mapInsert m p.Name) []
  role.PermissionGroups.foldl
    (fun m pg => pg.Permissions.foldl (fun m2 p => mapInsert m2 p.Name) m) permSet

/-- The function `GetUserWithPermissions`.  `load uid` is the outcome of
`db.Preload("Role").Preload("Role.Permissions").Preload("Role.PermissionGroups.Permissions").First(&user, uid)`;
a user whose `Role` pointer is `nil` makes `user.Role.Permissions` panic. -/
def GetUserWithPermissions (ro : RangeOrder) (load : Nat → Except Err User) (uid : Nat) :
    Outcome (List String) :=
  match load uid with
  | .error e => .error e
  | .ok user =>
    match user.Role with
    | none => .panic
    | some role => .ok (ro.visit (collectPermSet role))

/-- The function `ToSet`: the map as the list of its keys. -/
def ToSet (arr : List String) : List String :=
  arr.foldl mapInsert []

/-- Lexicographic comparison of two character sequences, `a <= b`. -/
def charsLe : List Char → List Char → Bool
  | [], _ => true
  | _ :: _, [] => false
  | a :: as, b :: bs =>
    if a < b then true else if b < a then false else charsLe as bs

/-- The comparison `a <= b` of Go strings: byte by byte, which on UTF-8 text is the
lexicographic order by code points. -/
def strLe (a b : String) : Bool :=
  charsLe a.data b.data

/-- The call `sort.Strings`: the strings in ascending order. -/
def sortStrings (l : List String) : List String :=
  l.insertionSort (fun a b => strLe a b = true)

/-- The loop `for i := range aCopy { if aCopy[i] != bCopy[i] { return false } }` followed
by `return true`, for two slices of the same length. -/
def slicesAgree : List String → List String → Bool
  | x :: xs, y :: ys => if x != y then false else slicesAgree xs ys
  | _, _ => true

/-- The function `StringSlicesEqual`. -/
def StringSlicesEqual (a b : List String) : Bool :=
  if a.length != b.length then false
  else
    let aCopy := sortStrings a
    let bCopy := sortStrings b
    slicesAgree aCopy bCopy

/-- The struct `Claims`; of `jwt.RegisteredClaims` the two dates that are set. -/
structure Claims where
  Uid : Nat
  Email : String
  Avatar : String
  Username : String
  Github : String
  Permissions : List String
  ExpiresAt : Nat
  IssuedAt : Nat
deriving DecidableEq, Repr

/-- A call of `utils.ErrorResponse` or `utils.SuccessResponse` with its status and
message (the data argument is left out). -/
inductive Reply where
  | error (status : Nat) (msg : String)
  | success (status : Nat) (msg : String)
deriving DecidableEq, Repr

/-- What the JWT middleware does to the `gin.Context`: the response written, whether the
chain was aborted, the keys `uid` and `permissions` set, whether `c.Next()` ran, and
whether the handler panicked. -/
structure Context where
  reply : Option Reply
  aborted : Bool
  uid : Option Nat
  permissions : Option (List String)
  nextRan : Bool
  panicked : Bool
deriving DecidableEq, Repr

/-- The context after `utils.ErrorResponse(c, status, msg, nil); c.Abort(); return`. -/
def Context.abort (status : Nat) (msg : String) : Context :=
  { reply := some (.error status msg), aborted := true, uid := none, permissions := none,
    nextRan := false, panicked := false }

/-- Split a list of characters at every space, as `strings.Split(s, " ")` does; `cur` is
the piece being read, reversed. -/
def splitSpaceAux : List Char → List Char → List String
  | [], cur => [String.mk cur.reverse]
  | c :: cs, cur =>
    if c = ' ' then String.mk cur.reverse :: splitSpaceAux cs []
    else splitSpaceAux cs (c :: cur)

/-- The call `strings.Split(s, " ")`. -/
def splitSpace (s : String) : List String :=
  splitSpaceAux s.data []

/-- The handler returned by `JWT(permission)`, run on a request whose `Authorization`
header is `tokenString` (empty when absent).  `ParseToken` is `utils.ParseToken`, whose
outcome depends on the signing key and the clock. -/
def JWT (permission : String) (ro : RangeOrder) (ParseToken : String → Except Err Claims)
    (load : Nat → Except Err User) (tokenString : String) : Context :=
  if tokenString = "" then Context.abort 401 "Please log in to continue!"
  else
    match splitSpace tokenString with
    | [scheme, token] =>
      if scheme ≠ "Bearer" then Context.abort 401 "Authentication failed, please try again."
      else
        match ParseToken token with
        | .error _ => Context.abort 401 "Authentication failed, please try again."
        | .ok claims =>
          match GetUserWithPermissions ro load claims.Uid with
          | .panic =>
            { reply := none, aborted := false, uid := none, permissions := none,
              nextRan := false, panicked := true }
          | .error _ => Context.abort 401 "Unauthorized action"
          | .ok perms =>
            if !StringSlicesEqual perms claims.Permissions then
              Context.abort 403 " permission change"
            else if permission ≠ "" ∧ permission ∉ ToSet claims.Permissions then
              Context.abort 403 "Unauthorized permission"
            else
              { reply := none, aborted := false, uid := some claims.Uid,
                permissions := some claims.Permissions, nextRan := true, panicked := false }
    | _ => Context.abort 401 "Authentication failed, please try again."

/-- The function `GenerateToken`: the claims are filled in and handed to the signer
(`jwt.NewWithClaims(..).SignedString(..)`), here `sign`; `now` is `time.Now()` in seconds
(the two readings of the clock are taken as one). -/
def GenerateToken (now : Nat) (sign : Claims → Except Err String) (uid : Nat)
    (email avatar username github : String) (permissions : List String) :
    Except Err String :=
  sign { Uid := uid, Email := email, Avatar := avatar, Username := username,
         Github := github, Permissions := permissions,
         ExpiresAt := now + 24 * 3600 * 7, IssuedAt := now }

/-- What `HandleLogin` leaves behind: the response, the permission list sent in the body
of a successful response, and the claims that were handed to the signer (if it got that
far). -/
structure LoginOutcome where
  reply : Option Reply
  permissions : Option (List String)
  issued : Option Claims
  panicked : Bool
deriving DecidableEq, Repr

/-- The function `HandleLogin` from the point where the user record has been looked up
and saved: `stored` is the outcome of `GetUserByUid` followed by `UpdateUser` or
`CreateUser` (the OAuth exchange before it is not embedded). -/
def HandleLogin (ro : RangeOrder) (load : Nat → Except Err User) (now : Nat)
    (sign : Claims → Except Err String) (stored : Except Err User) : LoginOutcome :=
  match stored with
  | .error _ =>
    { reply := some (.error 500 "Network error, please try again later."),
      permissions := none, issued := none, panicked := false }
  | .ok user =>
    match GetUserWithPermissions ro load user.ID with
    | .panic => { reply := none, permissions := none, issued := none, panicked := true }
    | .error _ =>
      { reply := some (.error 500 "get permissions error"), permissions := none,
        issued := none, panicked := false }
    | .ok perms =>
      let claims : Claims :=
        { Uid := user.ID, Email := user.Email, Avatar := user.Avatar,
          Username := user.Username, Github := user.Github, Permissions := perms,
          ExpiresAt := now + 24 * 3600 * 7, IssuedAt := now }
      match GenerateToken now sign user.ID user.Email user.Avatar user.Username user.Github
          perms with
      | .error _ =>
        { reply := some (.error 500 "generate token error"), permissions := none,
          issued := some claims, panicked := false }
      | .ok _ =>
        { reply := some (.success 200 "success"), permissions := some perms,
          issued := some claims, panicked := false }

/-! ### Concrete roles, users and tokens -/

/-- The spec's example role: direct permission `blog:write`, one group holding
`blog:review`. -/
def sampleRole : Role :=
  { ID := 1, Name := "R", Description := "",
    Permissions := [{ ID := 1, Name := "blog:write", Description := "" }],
    PermissionGroups :=
      [{ ID := 1, Name := "G", Description := "",
         Permissions := [{ ID := 2, Name := "blog:review", Description := "" }] }] }

/-- A user (id `1`) holding `sampleRole`. -/
def sampleUser : User :=
  { ID := 1, DeletedAt := none, Email := "u@example.org", Username := "u", Avatar := "",
    Github := "", Uid := 11, RoleID := 1, Role := some sampleRole }

/-- A store in which only user `1` exists. -/
def sampleLoad (uid : Nat) : Except Err User :=
  if uid = 1 then .ok sampleUser else .error .recordNotFound

/-- Claims for user `1` with the given embedded permission list. -/
def sampleClaims (perms : List String) : Claims :=
  { Uid := 1, Email := "u@example.org", Avatar := "", Username := "u", Github := "",
    Permissions := perms, ExpiresAt := 700000, IssuedAt := 100 }

/-- A token parser that accepts the token `t1` (old list: `blog:write` only) and the token
`t2` (list `blog:review`, `blog:write`). -/
def sampleParse (token : String) : Except Err Claims :=
  if token = "t1" then .ok (sampleClaims ["blog:write"])
  else if token = "t2" then .ok (sampleClaims ["blog:review", "blog:write"])
  else .error (.message "token is malformed")

/-- A signer that always succeeds. -/
def sampleSign (_ : Claims) : Except Err String := .ok "signed"

/-! ## The follow graph -/

/-- Row of table `follows` (`Follow` with the embedded `gorm.Model`; the two preloadable
`User` fields are not columns). -/
structure Follow where
  ID : Nat
  FollowerID : Nat
  FollowingID : Nat
  DeletedAt : Option Nat
deriving DecidableEq, Repr

/-- The tables behind the follow graph: `users` and `follows`. -/
structure FollowDB where
  users : List User
  follows : List Follow
deriving DecidableEq, Repr

/-- Condition `id = ? AND deleted_at IS NULL` on `users`. -/
def isLiveUser (id : Nat) (u : User) : Bool :=
  decide (u.ID = id) && u.DeletedAt.isNone

/-- Condition `follower_id = ? AND following_id = ? AND deleted_at IS NULL` on `follows`. -/
def isActiveEdge (followerID followingID : Nat) (f : Follow) : Bool :=
  decide (f.FollowerID = followerID) && decide (f.FollowingID = followingID)
    && f.DeletedAt.isNone

/-- The function `GetUserById`; `failed` tells whether the query fails in the driver. -/
def GetUserById (failed : Bool) (fdb : FollowDB) (id : Nat) : Except Err User :=
  if failed then .error .driver
  else
    match fdb.users.find? (isLiveUser id) with
    | none => .error .recordNotFound
    | some u => .ok u

/-- Statement `Where("follower_id = ? AND following_id = ?", ..).First(&follow)`. -/
def firstFollow (failed : Bool) (rows : List Follow) (followerID followingID : Nat) :
    Except Err Follow :=
  if failed then .error .driver
  else
    match rows.find? (isActiveEdge followerID followingID) with
    | none => .error .recordNotFound
    | some f => .ok f

/-- The function `IsFollowing`. -/
def IsFollowing (failed : Bool) (fdb : FollowDB) (followerID followingID : Nat) :
    Except Err Bool :=
  match firstFollow failed fdb.follows followerID followingID with
  | .error e => if e = .recordNotFound then .ok false else .error e
  | .ok _ => .ok true

/-- The function `FollowUser` of package `models`: one `Create`.  The database assigns
`newID`; the primary key is checked, and so are the two foreign keys that the `Follower`
and `Following` relations declare (both ids must be ids of rows of `users`). -/
def FollowUser (failed : Bool) (newID : Nat) (fdb : FollowDB) (followerID followingID : Nat) :
    FollowDB × Option Err :=
  if failed then (fdb, some .driver)
  else if fdb.follows.any (fun f => decide (f.ID = newID)) then (fdb, some .duplicateKey)
  else if !(fdb.users.any (fun u => decide (u.ID = followerID))
      && fdb.users.any (fun u => decide (u.ID = followingID))) then (fdb, some .foreignKey)
  else
    ({ fdb with follows := fdb.follows ++
        [{ ID := newID, FollowerID := followerID, FollowingID := followingID,
           DeletedAt := none }] }, none)

/-- The function `UnfollowUser` of package `models`: one soft delete of the rows of the
pair that are not yet soft-deleted. -/
def UnfollowUser (failed : Bool) (now : Nat) (fdb : FollowDB) (followerID followingID : Nat) :
    FollowDB × Option Err :=
  if failed then (fdb, some .driver)
  else
    ({ fdb with follows := fdb.follows.map (fun f =>
        if isActiveEdge followerID followingID f then { f with DeletedAt := some now }
        else f) }, none)

/-- What the outside world decides during one follow or unfollow request: the clock, the
id assigned to an inserted row, and which of the three statements fail in the driver. -/
structure FollowEnv where
  now : Nat
  newID : Nat
  userErr : Bool
  followingErr : Bool
  writeErr : Bool
deriving DecidableEq, Repr

/-- An environment in which no statement fails. -/
def FollowEnv.ok (now newID : Nat) : FollowEnv :=
  { now := now, newID := newID, userErr := false, followingErr := false, writeErr := false }

/-- The conversion `uint(id)` of an `int` on a 64-bit platform. -/
def uintOfInt (i : Int) : Nat :=
  (i % 2 ^ 64).toNat

/-- The handler `FollowUser` of package `controllers`.  `idParam` is the outcome of
`strconv.Atoi(c.Param("id"))` (`none` when it fails), `uid` the value of the context key
`uid` (`none` when it is not set). -/
def controllers.FollowUser (env : FollowEnv) (fdb : FollowDB) (idParam : Option Int)
    (uid : Option Nat) : FollowDB × Reply :=
  match idParam with
  | none => (fdb, .error 400 "invalid user id")
  | some id =>
    let followingID := uintOfInt id
    match uid with
    | none => (fdb, .error 401 "unauthorized")
    | some followerID =>
      if followerID = followingID then (fdb, .error 400 "cannot follow yourself")
      else
        match GetUserById env.userErr fdb followingID with
        | .error _ => (fdb, .error 400 "target user not found")
        | .ok _ =>
          match IsFollowing env.followingErr fdb followerID followingID with
          | .error _ => (fdb, .error 500 "internal error")
          | .ok isFollowing =>
            if isFollowing then (fdb, .error 400 "already following")
            else
              match DevPlaza.FollowUser env.writeErr env.newID fdb followerID followingID with
              | (fdb2, some _) => (fdb2, .error 500 "failed to follow")
              | (fdb2, none) => (fdb2, .success 200 "follow success")

/-- The handler `UnfollowUser` of package `controllers`. -/
def controllers.UnfollowUser (env : FollowEnv) (fdb : FollowDB) (idParam : Option Int)
    (uid : Option Nat) : FollowDB × Reply :=
  match idParam with
  | none => (fdb, .error 400 "invalid user id")
  | some id =>
    let followingID := uintOfInt id
    match uid with
    | none => (fdb, .error 401 "unauthorized")
    | some followerID =>
      if followerID = followingID then (fdb, .error 400 "cannot unfollow yourself")
      else
        match GetUserById env.userErr fdb followingID with
        | .error _ => (fdb, .error 400 "target user not found")
        | .ok _ =>
          match IsFollowing env.followingErr fdb followerID followingID with
          | .error _ => (fdb, .error 500 "internal error")
          | .ok isFollowing =>
            if !isFollowing then (fdb, .error 400 "not following")
            else
              match DevPlaza.UnfollowUser env.writeErr env.now fdb followerID followingID with
              | (fdb2, some _) => (fdb2, .error 500 "failed to unfollow")
              | (fdb2, none) => (fdb2, .success 200 "unfollow success")

/-- A user row with the given id and nothing else. -/
def mkUser (id : Nat) : User :=
  { ID := id, DeletedAt := none, Email := "", Username := "", Avatar := "", Github := "",
    Uid := 0, RoleID := 0, Role := none }

/-- A graph with users `1`, `2`, `3` and no edge. -/
def sampleGraph : FollowDB :=
  { users := [mkUser 1, mkUser 2, mkUser 3], follows := [] }

/-- The graph `sampleGraph` after user `1` followed user `2` (row id `1`). -/
def sampleFollowing : FollowDB :=
  { users := [mkUser 1, mkUser 2, mkUser 3],
    follows := [{ ID := 1, FollowerID := 1, FollowingID := 2, DeletedAt := none }] }

/-- The graph `sampleFollowing` after user `1` unfollowed user `2` at time `8`. -/
def sampleUnfollowed : FollowDB :=
  { users := [mkUser 1, mkUser 2, mkUser 3],
    follows := [{ ID := 1, FollowerID := 1, FollowingID := 2, DeletedAt := some 8 }] }

/-! ## Daily statistics -/

/-- Row of table `daily_stats` (`DailyStats`, `gorm.Model` reduced to the id); `Date` is
an instant. -/
structure DailyStats where
  ID : Nat
  Date : Nat
  Users : Int
  Blogs : Int
  Tutorials : Int
  Events : Int
  Posts : Int
deriving DecidableEq, Repr

/-- The loop `for i := len(stats) - 1; i >= 0; i--` of `findClosest`, run on the rows
still to be visited, last one first: the first visited row whose date is not before
`target`. -/
def findClosestLoop (target : Nat) : List DailyStats → Option DailyStats
  | [] => none
  | s :: rest => if ¬ (s.Date < target) then some s else findClosestLoop target rest

/-- The function `findClosest`; indexing `stats[0]` of an empty slice panics. -/
def findClosest (stats : List DailyStats) (target : Nat) : Outcome DailyStats :=
  match findClosestLoop target stats.reverse with
  | some s => .ok s
  | none =>
    match stats with
    | [] => .panic
    | s0 :: _ => .ok s0

/-- A stats row with the given id, date and user count. -/
def mkStats (id date : Nat) (users : Int) : DailyStats :=
  { ID := id, Date := date, Users := users, Blogs := 0, Tutorials := 0, Events := 0,
    Posts := 0 }

/-- Three daily rows, dates `10`, `20`, `30`. -/
def sampleStats : List DailyStats :=
  [mkStats 1 10 100, mkStats 2 20 110, mkStats 3 30 125]

/-! ## Interleavings -/

/-- The list `l` is an interleaving of `a` and `b`: every element of `l` is taken from
the front of `a` or from the front of `b`, each position of `a` and `b` used once and in
order. -/
inductive Interleaving : List Post → List Post → List Post → Prop where
  | nil : Interleaving [] [] []
  | left (x : Post) {l a b : List Post} : Interleaving l a b →
      Interleaving (x :: l) (x :: a) b
  | right (x : Post) {l a b : List Post} : Interleaving l a b →
      Interleaving (x :: l) a (x :: b)

/-! ## Batch follow states -/

/-- The `FollowState` struct. -/
structure FollowState where
  UserID : Nat
  IsFollowing : Bool
deriving DecidableEq, Repr

/-- Statement `m[k] = v` on a `map[uint]bool`, kept as the list of its assignments, the
latest first. -/
def stateSet (m : List (Nat × Bool)) (k : Nat) (v : Bool) : List (Nat × Bool) :=
  (k, v) :: m

/-- Expression `m[k]` on a `map[uint]bool`: the latest assignment to `k`, and `false`
(the zero value) when there is none. -/
def stateGet (m : List (Nat × Bool)) (k : Nat) : Bool :=
  match m.find? (fun e => e.1 == k) with
  | some e => e.2
  | none => false

/-- Statement `db.Where("follower_id = ? AND following_id IN ?", followerID, userIDs).Find(&follows)`:
the soft-delete scope keeps the rows with `deleted_at IS NULL`. -/
def findFollows (follows : List Follow) (followerID : Nat) (userIDs : List Nat) : List Follow :=
  follows.filter (fun f =>
    decide (f.FollowerID = followerID) && decide (f.FollowingID ∈ userIDs) && f.DeletedAt.isNone)

/-- The function `GetFollowingStates`; `failed` tells whether the query fails in the
driver. -/
def GetFollowingStates (failed : Bool) (fdb : FollowDB) (followerID : Nat)
    (userIDs : List Nat) : Except Err (List FollowState) :=
  let stateMap := userIDs.foldl (fun m id => stateSet m id false) []
  if failed then .error .driver
  else
    let follows := findFollows fdb.follows followerID userIDs
    let stateMap := follows.foldl (fun m f => stateSet m f.FollowingID true) stateMap
    .ok (userIDs.map (fun id => { UserID := id, IsFollowing := stateGet stateMap id }))

/-! ## The queries of `QueryPosts` on a store -/

/-- What the queries of `QueryPosts` leave to the libraries and to the database:
`strings.ToLower`, the test `LOWER(text) LIKE pattern`, whether the generated SQL puts the
three-way `OR` of the keyword condition in parentheses, the order in which the table is
scanned (it decides the order of rows that tie on the `ORDER BY` keys), and which
statements fail in the driver. -/
structure QueryEnv where
  ToLower : String → String
  like : String → String → Bool
  grouped : Bool
  scan : List Post → List Post
  scan_perm : ∀ rows, (scan rows).Perm rows
  followErr : Option String
  globalErr : Option String
  countErr : Bool
  plainErr : Option String

/-- Column `users.username` of the row joined by `LEFT JOIN users ON users.id = posts.user_id`;
`none` when no row joins. -/
def usernameOf (users : List User) (id : Nat) : Option String :=
  (users.find? (fun u => u.ID == id)).map (fun u => u.Username)

/-- Condition `user_id = ?`, added when `filter.UserId != 0`. -/
def userCond (filter : PostFilter) (p : Post) : Bool :=
  if filter.UserId ≠ 0 then decide (p.UserId = filter.UserId) else true

/-- Condition `posts.created_at BETWEEN ? AND ?`, added when `filter.StartDate != nil`;
`BETWEEN` includes both ends, and a null end makes it fail. -/
def dateCond (filter : PostFilter) (p : Post) : Bool :=
  match filter.StartDate with
  | none => true
  | some s =>
    match filter.EndDate with
    | none => false
    | some e => decide (s ≤ p.CreatedAt) && decide (p.CreatedAt ≤ e)

/-- The three queries of `QueryPosts`. -/
inductive Stream where
  | follow
  | global
  | plain
deriving DecidableEq, Repr

/-- Condition `posts.user_id IN (?)` resp. `NOT IN (?)` on the sub-query
`SELECT following_id FROM follows WHERE follower_id = ?` (scoped to live rows); the plain
query has none. -/
def streamCond (follows : List Follow) (filter : PostFilter) : Stream → Post → Bool
  | .follow, p => follows.any (isActiveEdge filter.FollowingOf p.UserId)
  | .global, p => !(follows.any (isActiveEdge filter.FollowingOf p.UserId))
  | .plain, _ => true

/-- The `WHERE` clause of a query of `QueryPosts` on a joined row: the keyword condition
when `filter.Keyword != ""`, then the other conditions and the soft-delete scope, joined by
`AND`.  Without parentheses `AND` binds tighter than `OR`. -/
def whereHolds (env : QueryEnv) (users : List User) (follows : List Follow)
    (filter : PostFilter) (stream : Stream) (p : Post) : Bool :=
  let rest := userCond filter p && dateCond filter p && streamCond follows filter stream p
    && p.DeletedAt.isNone
  if filter.Keyword = "" then rest
  else
    let likePattern := "%" ++ env.ToLower filter.Keyword ++ "%"
    let t := env.like likePattern p.Title
    let d := env.like likePattern p.Description
    let u := match usernameOf users p.UserId with
      | some n => env.like likePattern n
      | none => false
    if env.grouped then (t || d || u) && rest else t || d || (u && rest)

/-- The rows a query selects, in scan order. -/
def selectPosts (env : QueryEnv) (db : DB) (fdb : FollowDB) (filter : PostFilter)
    (stream : Stream) : List Post :=
  (env.scan db.posts).filter (whereHolds env fdb.users fdb.follows filter stream)

/-- Order `created_at desc, view_count desc` as a test on two rows. -/
def rankDesc (a b : Post) : Bool :=
  decide (b.CreatedAt < a.CreatedAt) ||
    (decide (a.CreatedAt = b.CreatedAt) && decide (b.ViewCount ≤ a.ViewCount))

/-- Order `created_at asc, view_count desc` as a test on two rows. -/
def rankAsc (a b : Post) : Bool :=
  decide (a.CreatedAt < b.CreatedAt) ||
    (decide (a.CreatedAt = b.CreatedAt) && decide (b.ViewCount ≤ a.ViewCount))

/-- Clause `ORDER BY created_at desc|asc, view_count desc`: rows that tie keep their scan
order. -/
def orderBy (desc : Bool) (rows : List Post) : List Post :=
  rows.insertionSort (fun a b => (if desc then rankDesc a b else rankAsc a b) = true)

/-- The queries of `QueryPosts` run on a store.  An offset that is not positive adds no
`OFFSET` clause, so the plain query then starts at the first row. -/
def postQueries (env : QueryEnv) (db : DB) (fdb : FollowDB) (filter : PostFilter) :
    PostQueries :=
  { follow := match env.followErr with
      | some e => .error e
      | none => .ok (orderBy true (selectPosts env db fdb filter .follow))
    global := match env.globalErr with
      | some e => .error e
      | none => .ok (orderBy true (selectPosts env db fdb filter .global))
    count := if env.countErr then 0 else ((selectPosts env db fdb filter .plain).length : Int)
    plain := fun desc offset limit =>
      match env.plainErr with
      | some e => .error e
      | none =>
        .ok (((orderBy desc (selectPosts env db fdb filter .plain)).drop offset.toNat).take
          limit.toNat) }

/-- The function `QueryPosts` run on a store. -/
def QueryPostsOn (fuel : Nat) (env : QueryEnv) (db : DB) (fdb : FollowDB)
    (filter : PostFilter) : Option QueryResult :=
  QueryPosts fuel (postQueries env db fdb filter) filter

/-- The filter that the handler `QueryPosts` of package `controllers` builds.  `userId`,
`page`, `pageSize` are the outcomes of `strconv.Atoi` (zero on failure), `uid` the value of
the context key `uid` (`none` when it is not set), `start` and `stop` the outcomes of
`time.Parse("2006-01-02", ..)` in seconds since the zero time (zero on failure);
`AddDate(0, 0, 1)` adds one day of 86400 seconds to a UTC instant. -/
def controllers.postFilter (keyword : String) (userId : Int) (order : String)
    (page pageSize : Int) (uid : Option Nat) (start stop : Nat) : PostFilter :=
  let filter : PostFilter :=
    { Keyword := keyword, UserId := uintOfInt userId, StartDate := none, EndDate := none,
      Page := page, PageSize := pageSize, OrderDesc := decide (order = "desc"),
      Hybrid := false, FollowingOf := 0 }
  let filter := match uid with
    | some userId => { filter with FollowingOf := userId, Hybrid := true }
    | none => filter
  if start ≠ 0 ∧ stop ≠ 0 then
    { filter with StartDate := some start, EndDate := some (stop + 86400) }
  else filter

/-- An environment in which no statement fails, the table is scanned in storage order,
and no text matches a keyword pattern. -/
def QueryEnv.sample : QueryEnv :=
  { ToLower := fun s => s, like := fun _ _ => false, grouped := true,
    scan := fun rows => rows, scan_perm := fun rows => List.Perm.refl rows,
    followErr := none, globalErr := none, countErr := false, plainErr := none }

/-- A post row with the given id, author, creation time and view count. -/
def mkPostAt (id author created views : Nat) : Post :=
  { mkPost id author with CreatedAt := created, ViewCount := views }

/-- A store with four posts: two by author `2` and two by author `3`, created on the
days `1`, `2` (at its first instant), `2` and `3`. -/
def sampleFeed : DB :=
  { posts := [mkPostAt 1 2 86400 5, mkPostAt 2 3 172800 1, mkPostAt 3 2 180000 7,
      mkPostAt 4 3 259200 2],
    post_likes := [], post_favorites := [] }

/-! ## The rank in a statistics card: `GetGitRank` -/

/-- The part `(.*?)</title>` of the title expression, tried at the start of the given
text: the group takes as few characters as possible, none of them a newline; `acc` is
the text taken so far, reversed. -/
def lazyUntilClose : List Char → List Char → Option (List Char)
  | [], _ => none
  | c :: cs, acc =>
    if "</title>".data.isPrefixOf (c :: cs) then some acc.reverse
    else if c = '\n' then none
    else lazyUntilClose cs (c :: acc)

/-- The part `.*?>(.*?)</title>` of the title expression, tried at the start of the
given text: `.*?` stops at a `>` when the rest matches from there, and otherwise takes
one more character that is not a newline. -/
def afterOpen : List Char → Option (List Char)
  | [] => none
  | c :: cs =>
    match (if c = '>' then lazyUntilClose cs [] else none) with
    | some title => some title
    | none => if c = '\n' then none else afterOpen cs

/-- The call `reTitle.FindStringSubmatch(content)` for `<title.*?>(.*?)</title>`: the
group of the leftmost match, `none` when nothing matches. -/
def findTitle : List Char → Option (List Char)
  | [] => none
  | c :: cs =>
    match (if "<title".data.isPrefixOf (c :: cs) then afterOpen ((c :: cs).drop 6)
      else none) with
    | some title => some title
    | none => findTitle cs

/-- The class `\s` of Go regular expressions: tab, newline, form feed, carriage return,
space. -/
def isSpaceRe (c : Char) : Bool :=
  c = '\t' || c = '\n' || c = '\x0c' || c = '\r' || c = ' '

/-- The class `\w` of Go regular expressions: ASCII digits, letters and the underscore. -/
def isWordRe (c : Char) : Bool :=
  (decide (48 ≤ c.toNat) && decide (c.toNat ≤ 57)) ||
    (decide (65 ≤ c.toNat) && decide (c.toNat ≤ 90)) || c = '_' ||
    (decide (97 ≤ c.toNat) && decide (c.toNat ≤ 122))

/-- The part `\s*(\w)` of the rank expression, tried at the start of the given text:
`\s*` takes as many characters as possible and gives them back one at a time. -/
def afterRank : List Char → Option Char
  | [] => none
  | c :: cs =>
    match (if isSpaceRe c then afterRank cs else none) with
    | some w => some w
    | none => if isWordRe c then some c else none

/-- The call `reRank.FindStringSubmatch(title)` for `Rank:\s*(\w)`: the group of the
leftmost match, `none` when nothing matches. -/
def findRank : List Char → Option Char
  | [] => none
  | c :: cs =>
    match (if "Rank:".data.isPrefixOf (c :: cs) then afterRank ((c :: cs).drop 5)
      else none) with
    | some w => some w
    | none => findRank cs

/-- The function `GetGitRank`: the string returned and the error, if any. -/
def GetGitRank (content : String) : String × Option String :=
  match findTitle content.data with
  | none => ("", some "failed to find <title> tag in content")
  | some title =>
    match findRank title with
    | none => ("", some "failed to find rank in title")
    | some w => (String.mk [w], none)

/-- The lines of the statistics card of `TestGetGitRank` before its title line. -/
def svgHead : String :=
  "<svg\n        width=\"450\"\n        height=\"195\"\n        viewBox=\"0 0 450 195\"\n        fill=\"none\"\n        xmlns=\"http://www.w3.org/2000/svg\"\n        role=\"img\"\n        aria-labelledby=\"descId\"\n      >\n"

/-- The lines of the statistics card of `TestGetGitRank` after its title line. -/
def svgTail : String :=
  "        <desc id=\"descId\">Total Stars Earned: 75647, Total Commits in 2025 : 76, Total PRs: 802, Total Issues: 180, Contributed to (last year): 3</desc>\n        <style>\n          /* Styles omitted for brevity */\n        </style>\n      </svg>"

/-- The three inputs of `TestGetGitRank`: with rank `B+`, without a title, with a title
that has no rank. -/
def svgRanked : String :=
  svgHead ++ "        <title id=\"titleId\">Anurag Hazra's GitHub Stats, Rank: B+</title>\n"
    ++ svgTail

/-- The input of `TestGetGitRank` without a title. -/
def svgUntitled : String :=
  svgHead ++ svgTail

/-- The input of `TestGetGitRank` whose title has no rank. -/
def svgUnranked : String :=
  svgHead ++ "        <title id=\"titleId\">Anurag Hazra's GitHub Stats</title>\n" ++ svgTail

/-- A text that is a title element for the title expression: `<title`, then text
without a newline up to a `>`, then the title text without a newline, then `</title>`. -/
def TitleElement (s : List Char) : Prop :=
  ∃ pre a t post, s = pre ++ "<title".data ++ a ++ '>' :: t ++ "</title>".data ++ post ∧
    '\n' ∉ a ∧ '\n' ∉ t

/-- A text with a rank `w`: `Rank:`, then whitespace, then the word character `w`. -/
def HasRank (t : List Char) (w : Char) : Prop :=
  ∃ pre ws post, t = pre ++ "Rank:".data ++ ws ++ w :: post ∧
    (∀ c ∈ ws, isSpaceRe c = true) ∧ isWordRe w = true

/-- The group `t` of the first match of the title expression in `s`, as the expression
defines it: the match starts at the leftmost place where a title element starts (no
title element starts within `pre`), `.*?` takes the text `a` up to the first `>`, and the
group takes the text `t` up to the first `</title>` after that. -/
def FirstTitle (s t : List Char) : Prop :=
  ∃ pre a post, s = pre ++ "<title".data ++ a ++ '>' :: t ++ "</title>".data ++ post ∧
    '\n' ∉ a ∧ '\n' ∉ t ∧ '>' ∉ a ∧
    (∀ t2 post2, t ++ "</title>".data ++ post = t2 ++ "</title>".data ++ post2 →
      t.length ≤ t2.length) ∧
    (∀ pre2 a2 t2 post2,
      s = pre2 ++ "<title".data ++ a2 ++ '>' :: t2 ++ "</title>".data ++ post2 →
      '\n' ∉ a2 → '\n' ∉ t2 → pre.length ≤ pre2.length)

/-- The group `w` of the first match of the rank expression in `t`: the match starts at
the leftmost `Rank:` that is followed by whitespace and a word character. -/
def FirstRank (t : List Char) (w : Char) : Prop :=
  ∃ pre ws post, t = pre ++ "Rank:".data ++ ws ++ w :: post ∧
    (∀ c ∈ ws, isSpaceRe c = true) ∧ isWordRe w = true ∧
    (∀ pre2 ws2 w2 post2, t = pre2 ++ "Rank:".data ++ ws2 ++ w2 :: post2 →
      (∀ c ∈ ws2, isSpaceRe c = true) → isWordRe w2 = true → pre.length ≤ pre2.length)

/-! ## The status of a list of posts for a viewer: `GetPostStatus` -/

/-- Statement `m[k] = struct{}{}` on a `map[uint]struct{}`; the map is kept as the list
of its keys, each once. -/
def keyInsert (m : List Nat) (k : Nat) : List Nat :=
  if k ∈ m then m else m ++ [k]

/-- The order in which a `range` over a map with `uint` keys visits its keys; it visits
each key once. -/
structure KeyOrder where
  visit : List Nat → List Nat
  perm : ∀ keys, (visit keys).Perm keys

/-- The key order that visits the keys in the order of their first insertion. -/
def KeyOrder.insertion : KeyOrder :=
  { visit := fun keys => keys, perm := fun keys => List.Perm.refl keys }

/-- The key order that visits the keys in the reverse of that order. -/
def KeyOrder.reversed : KeyOrder :=
  { visit := fun keys => keys.reverse, perm := fun keys => List.reverse_perm keys }

/-- Statement `Model(&Post{}).Where("id IN ?", postIDs).Pluck("user_id", &authorIDs)`: the
soft-delete scope keeps the rows with `deleted_at IS NULL`. -/
def pluckAuthors (posts : List Post) (postIDs : List Nat) : List Nat :=
  (posts.filter (fun p => decide (p.ID ∈ postIDs) && p.DeletedAt.isNone)).map
    (fun p => p.UserId)

/-- The function `GetUserFollowStatusForPosts`; `authorsErr`, `followsErr` tell whether
the first and the second query fail in the driver. -/
def GetUserFollowStatusForPosts (authorsErr followsErr : Bool) (ko : KeyOrder) (db : DB)
    (fdb : FollowDB) (userID : Nat) (postIDs : List Nat) : Except Err (List Nat) :=
  if authorsErr then .error .driver
  else
    let authorIDs := pluckAuthors db.posts postIDs
    let authorMap := authorIDs.foldl keyInsert []
    let uniqueAuthors := ko.visit authorMap
    if uniqueAuthors.length > 0 then
      if followsErr then .error .driver
      else .ok ((findFollows fdb.follows userID uniqueAuthors).map (fun f => f.FollowingID))
    else .ok []

/-- Split a list of characters at every comma, as `strings.Split(s, ",")` does; `cur` is
the piece being read, reversed. -/
def splitCommaAux : List Char → List Char → List String
  | [], cur => [String.mk cur.reverse]
  | c :: cs, cur =>
    if c = ',' then String.mk cur.reverse :: splitCommaAux cs []
    else splitCommaAux cs (c :: cur)

/-- The call `strings.Split(s, ",")`. -/
def splitComma (s : String) : List String :=
  splitCommaAux s.data []

/-- The test `unicode.IsSpace`. -/
def isSpaceGo (c : Char) : Bool :=
  decide (9 ≤ c.toNat ∧ c.toNat ≤ 13) || decide (c.toNat = 32) || decide (c.toNat = 0x85)
    || decide (c.toNat = 0xA0) || decide (c.toNat = 0x1680)
    || decide (0x2000 ≤ c.toNat ∧ c.toNat ≤ 0x200a) || decide (c.toNat = 0x2028)
    || decide (c.toNat = 0x2029) || decide (c.toNat = 0x202f) || decide (c.toNat = 0x205f)
    || decide (c.toNat = 0x3000)

/-- The call `strings.TrimSpace(s)`. -/
def TrimSpace (s : String) : String :=
  String.mk ((s.data.dropWhile isSpaceGo).reverse.dropWhile isSpaceGo).reverse

/-- Read decimal digits onto `acc`; `none` at a character that is not a digit. -/
def parseDigits : List Char → Nat → Option Nat
  | [], acc => some acc
  | c :: cs, acc =>
    if 48 ≤ c.toNat ∧ c.toNat ≤ 57 then parseDigits cs (acc * 10 + (c.toNat - 48))
    else none

/-- The call `strconv.ParseUint(s, 10, 64)`; `none` when it returns an error (empty text,
a character that is not a digit, or a value beyond 64 bits). -/
def ParseUint (s : String) : Option Nat :=
  if s.data = [] then none
  else
    match parseDigits s.data 0 with
    | none => none
    | some n => if n < 2 ^ 64 then some n else none

/-- The loop of `GetPostStatus` over the pieces of `ids`: the ids read, or the first
piece that is not an id. -/
def parseIDs : List String → List Nat → Except String (List Nat)
  | [], postIDs => .ok postIDs
  | s :: rest, postIDs =>
    match ParseUint (TrimSpace s) with
    | none => .error s
    | some id64 => parseIDs rest (postIDs ++ [id64])

/-- The struct `PostStatus` of package `controllers`. -/
structure controllers.PostStatus where
  PostID : Nat
  Liked : Bool
  Favorited : Bool
deriving DecidableEq, Repr

/-- The struct `PostStatusResponse`. -/
structure PostStatusResponse where
  Status : List controllers.PostStatus
  Followed : List Nat
deriving DecidableEq, Repr

/-- What the outside world decides during one status request: which of the four queries
fail in the driver, the text of an error, and the order of the `range` over the authors. -/
structure StatusEnv where
  likesErr : Bool
  favoritesErr : Bool
  authorsErr : Bool
  followsErr : Bool
  errorText : Err → String
  order : KeyOrder

/-- An environment in which no query fails. -/
def StatusEnv.ok (ko : KeyOrder) : StatusEnv :=
  { likesErr := false, favoritesErr := false, authorsErr := false, followsErr := false,
    errorText := fun _ => "", order := ko }

/-- The handler `GetPostStatus`: the response call and, on success, its data.  `idsStr` is
the query parameter `ids`, `userID` the value of `c.GetUint("uid")`. -/
def controllers.GetPostStatus (env : StatusEnv) (db : DB) (fdb : FollowDB) (idsStr : String)
    (userID : Nat) : Reply × Option PostStatusResponse :=
  if idsStr = "" then (.error 400 "ids parameter required", none)
  else
    match parseIDs (splitComma idsStr) [] with
    | .error s => (.error 400 ("invalid id: " ++ s), none)
    | .ok postIDs =>
      match GetUserPostStatuses env.likesErr env.favoritesErr db userID postIDs with
      | .error err => (.error 500 (env.errorText err), none)
      | .ok status =>
        let likedSet := status.Liked.foldl (fun m id => stateSet m id true) []
        let favoritedSet := status.Favorited.foldl (fun m id => stateSet m id true) []
        match GetUserFollowStatusForPosts env.authorsErr env.followsErr env.order db fdb
            userID postIDs with
        | .error _ => (.error 500 "failed to get follow status", none)
        | .ok following =>
          let respStatus := postIDs.map (fun pid =>
            ({ PostID := pid, Liked := stateGet likedSet pid,
               Favorited := stateGet favoritedSet pid } : controllers.PostStatus))
          (.success 200 "get success", some { Status := respStatus, Followed := following })

/-- At most one follow row of each pair is live. -/
def ActiveEdgesUnique (fdb : FollowDB) : Prop :=
  ∀ a b, fdb.follows.countP (isActiveEdge a b) ≤ 1

/-- The store of the example: post `1` by author `2`, post `2` by author `3`, and a like
of viewer `1` on post `1`. -/
def sampleStatusDB : DB :=
  { posts := [mkPost 1 2, mkPost 2 3],
    post_likes := [{ ID := 1, PostID := 1, UserID := 1, DeletedAt := none }],
    post_favorites := [] }

/-! ## Theorems: the hybrid merge -/

theorem takeFollow_length_le (F : List Post) (fl ps : Int) (st : MergeState)
    (h : (st.posts.length : Int) < ps) :
    ((takeFollow F fl st).posts.length : Int) ≤ ps := by
  unfold takeFollow
  split
  · simp only [List.length_append, List.length_singleton]; push_cast; omega
  · omega

theorem takeGlobal_length_le (G : List Post) (ps : Int) (st : MergeState)
    (h : (st.posts.length : Int) ≤ ps) :
    ((takeGlobal G ps st).posts.length : Int) ≤ ps := by
  unfold takeGlobal
  split
  · rename_i hc
    simp only [List.length_append, List.length_singleton]; push_cast; omega
  · omega

theorem mergeBody_length_le (F G : List Post) (ps fl : Int) (st : MergeState)
    (h : (st.posts.length : Int) < ps) :
    ((mergeBody F G ps fl st).posts.length : Int) ≤ ps :=
  takeGlobal_length_le G ps _ (takeFollow_length_le F fl ps st h)

theorem mergeIter_length_le (F G : List Post) (ps fl : Int) :
    ∀ (k : Nat) (st : MergeState), (st.posts.length : Int) ≤ ps →
      ((mergeIter F G ps fl k st).posts.length : Int) ≤ ps := by
  intro k
  induction k with
  | zero => intro st h; simpa [mergeIter] using h
  | succ k ih =>
    intro st h
    simp only [mergeIter]
    split
    · rename_i hlt
      split
      · exact mergeBody_length_le F G ps fl st hlt
      · exact ih _ (mergeBody_length_le F G ps fl st hlt)
    · exact h

theorem mergeLoop_eq_mergeIter (F G : List Post) (ps fl : Int) :
    ∀ (fuel : Nat) (st st2 : MergeState), mergeLoop F G ps fl fuel st = some st2 →
      st2 = mergeIter F G ps fl fuel st := by
  intro fuel
  induction fuel with
  | zero => intro st st2 h; simp [mergeLoop] at h
  | succ k ih =>
    intro st st2 h
    simp only [mergeLoop] at h
    simp only [mergeIter]
    split
    · rename_i hlt
      rw [if_pos hlt] at h
      split
      · rename_i hb
        simp only [hb, if_true] at h
        exact (Option.some.inj h).symm
      · rename_i hb
        simp only [hb] at h
        exact ih _ _ h
    · rename_i hlt
      rw [if_neg hlt] at h
      exact (Option.some.inj h).symm
theorem mergeLoop_stuck (F G : List Post) (ps fl : Int) (st : MergeState)
    (h1 : (st.posts.length : Int) < ps) (h2 : fl ≤ (st.posts.length : Int))
    (h3 : G.length ≤ st.gIdx) (h4 : st.fIdx < F.length) :
    ∀ fuel : Nat, mergeLoop F G ps fl fuel st = none := by
  have hb : mergeBody F G ps fl st = st := by
    have hf : takeFollow F fl st = st := by
      unfold takeFollow
      rw [dif_neg]
      omega
    unfold mergeBody
    rw [hf]
    unfold takeGlobal
    rw [dif_neg]
    omega
  have he : bothExhausted F G st = false := by
    simp [bothExhausted]
    intro h; omega
  intro fuel
  induction fuel with
  | zero => rfl
  | succ k ih =>
    simp only [mergeLoop, if_pos h1, hb, he]
    simpa using ih

theorem mergeLoop_fuel_add (F G : List Post) (ps fl : Int) (k : Nat) :
    ∀ (fuel : Nat) (st st2 : MergeState), mergeLoop F G ps fl fuel st = some st2 →
      mergeLoop F G ps fl (fuel + k) st = some st2 := by
  intro fuel
  induction fuel with
  | zero => intro st st2 h; simp [mergeLoop] at h
  | succ n ih =>
    intro st st2 h
    rw [Nat.add_right_comm]
    simp only [mergeLoop] at h ⊢
    split
    · rename_i hlt
      rw [if_pos hlt] at h
      split
      · rename_i hb
        simpa only [hb, if_true] using h
      · rename_i hb
        simp only [hb] at h
        exact ih _ _ h
    · rename_i hlt
      simpa only [if_neg hlt] using h

theorem QueryPosts_fuel_add (q : PostQueries) (filter : PostFilter) (fuel k : Nat)
    (r : QueryResult) (h : QueryPosts fuel q filter = some r) :
    QueryPosts (fuel + k) q filter = some r := by
  unfold QueryPosts at h ⊢
  split
  · rename_i hh
    rw [if_pos hh] at h
    split
    · rename_i e he
      simpa only [he] using h
    · rename_i F hF
      simp only [hF] at h
      split
      · rename_i e he
        simpa only [he] using h
      · rename_i G hG
        simp only [hG] at h
        cases hm : mergeLoop (List.take 50 F) (List.take 50 G) (effectivePageSize filter.PageSize)
            (followLimitOf (effectivePageSize filter.PageSize)) fuel
            { posts := [], fIdx := 0, gIdx := 0 } with
        | none => simp [hm] at h
        | some st =>
          have hk := mergeLoop_fuel_add _ _ _ _ k fuel _ _ hm
          simp only [hk]
          simpa only [hm] using h
  · rename_i hh
    simpa only [if_neg hh] using h


theorem mergeLoop_eight_following_no_global (fuel : Nat) :
    mergeLoop ((mkPosts 100 2 8).take 50) ((mkPosts 200 3 0).take 50) 10 7 fuel
      { posts := [], fIdx := 0, gIdx := 0 } = none := by
  rcases fuel with _ | _ | _ | _ | _ | _ | _ | k
  · rfl
  · rfl
  · rfl
  · rfl
  · rfl
  · rfl
  · rfl
  · show mergeLoop ((mkPosts 100 2 8).take 50) ((mkPosts 200 3 0).take 50) 10 7 k
      { posts := mkPosts 100 2 7, fIdx := 7, gIdx := 0 } = none
    exact mergeLoop_stuck _ _ _ _ _ (by decide) (by decide) (by decide) (by decide) k

theorem postIDs_fuel_add (q : PostQueries) (filter : PostFilter) (fuel k : Nat)
    (ids : List Nat) (h : postIDs (QueryPosts fuel q filter) = some ids) :
    postIDs (QueryPosts (fuel + k) q filter) = some ids := by
  cases hr : QueryPosts fuel q filter with
  | none => rw [hr] at h; simp [postIDs] at h
  | some r =>
    rw [QueryPosts_fuel_add q filter fuel k r hr]
    rw [hr] at h
    exact h

/-! ### Claims C1 to C5 -/

set_option maxRecDepth 100000 in
/-- C1, the code at the spec's example: page size 10 gives follow limit 7, and with 5
following candidates (ids 101 to 105) and 20 global candidates (ids 201 to 220) the
hybrid `QueryPosts` returns, for every sufficient fuel, ten posts of which only four are
following candidates and six are global candidates; the fifth following candidate (105)
is not in the page. -/
theorem QueryPosts_five_following_twenty_global :
    followLimitOf (effectivePageSize 10) = 7 ∧
    ∀ k : Nat, postIDs (QueryPosts (7 + k) (sampleQueries 5 20) (hybridFilter 10))
      = some [101, 201, 102, 202, 103, 203, 104, 204, 205, 206] := by
  refine ⟨by decide, fun k => ?_⟩
  exact postIDs_fuel_add _ _ 7 k _ (by decide)

/-- C2, the code at a failing input: with page size 10, eight following candidates and no
global candidate, the merge loop of `QueryPosts` exits for no number of iterations: after
seven following posts neither branch appends and the `break` test is false. -/
theorem QueryPosts_merge_loop_diverges :
    ∀ fuel : Nat, QueryPosts fuel (sampleQueries 8 0) (hybridFilter 10) = none := by
  intro fuel
  have key := mergeLoop_eight_following_no_global fuel
  have hl : followLimitOf 10 = 7 := by decide
  have hp : effectivePageSize 10 = 10 := by decide
  simp only [QueryPosts, hybridFilter, sampleQueries, hp, hl, key]
  rfl

/-- C3: in hybrid mode the merged list never holds more posts than the page size after
defaulting (10 when the requested size is zero or negative), at every iteration of the
merge loop, and so does the page of every call of `QueryPosts` that returns. -/
theorem QueryPosts_hybrid_length_le_pageSize (q : PostQueries) (filter : PostFilter)
    (hh : filter.Hybrid = true) (hv : filter.FollowingOf ≠ 0) :
    (∀ (F G : List Post) (k : Nat),
      ((mergeIter (F.take 50) (G.take 50) (effectivePageSize filter.PageSize)
        (followLimitOf (effectivePageSize filter.PageSize)) k
        { posts := [], fIdx := 0, gIdx := 0 }).posts.length : Int)
        ≤ (if filter.PageSize ≤ 0 then 10 else filter.PageSize)) ∧
    (∀ (fuel : Nat) (r : QueryResult), QueryPosts fuel q filter = some r →
      (r.posts.length : Int) ≤ (if filter.PageSize ≤ 0 then 10 else filter.PageSize)) := by
  have hpos : (0 : Int) ≤ effectivePageSize filter.PageSize := by
    unfold effectivePageSize; split <;> omega
  have hinv : ∀ (F G : List Post) (k : Nat),
      ((mergeIter (F.take 50) (G.take 50) (effectivePageSize filter.PageSize)
        (followLimitOf (effectivePageSize filter.PageSize)) k
        { posts := [], fIdx := 0, gIdx := 0 }).posts.length : Int)
        ≤ effectivePageSize filter.PageSize := by
    intro F G k
    exact mergeIter_length_le _ _ _ _ k _ (by simpa using hpos)
  refine ⟨hinv, ?_⟩
  intro fuel r h
  have hcond : (filter.Hybrid && filter.FollowingOf != 0) = true := by
    simp [hh, hv]
  show (r.posts.length : Int) ≤ effectivePageSize filter.PageSize
  unfold QueryPosts at h
  rw [if_pos hcond] at h
  cases hF : q.follow with
  | error e =>
    simp only [hF] at h
    rw [← Option.some.inj h]
    simpa using hpos
  | ok F =>
    cases hG : q.global with
    | error e =>
      simp only [hF, hG] at h
      rw [← Option.some.inj h]
      simpa using hpos
    | ok G =>
      simp only [hF, hG] at h
      cases hm : mergeLoop (List.take 50 F) (List.take 50 G) (effectivePageSize filter.PageSize)
          (followLimitOf (effectivePageSize filter.PageSize)) fuel
          { posts := [], fIdx := 0, gIdx := 0 } with
      | none => simp [hm] at h
      | some st =>
        simp only [hm] at h
        rw [← Option.some.inj h]
        rw [mergeLoop_eq_mergeIter _ _ _ _ fuel _ _ hm]
        exact hinv F G fuel

set_option maxRecDepth 100000 in
/-- Witness for C3: a hybrid query of page size 0 (defaulted to 10) over 5 following and
20 global rows returns the ten posts of `samplePage`. -/
theorem QueryPosts_hybrid_length_le_pageSize_witness :
    (hybridFilter 0).Hybrid = true ∧ (hybridFilter 0).FollowingOf ≠ 0 ∧
    QueryPosts 7 (sampleQueries 5 20) (hybridFilter 0) = some samplePage ∧
    (samplePage.posts.length : Int)
      ≤ (if (hybridFilter 0).PageSize ≤ 0 then 10 else (hybridFilter 0).PageSize) :=
  ⟨rfl, by decide, by decide,
    (QueryPosts_hybrid_length_le_pageSize (sampleQueries 5 20) (hybridFilter 0) rfl
      (by decide)).2 7 samplePage (by decide)⟩

set_option maxRecDepth 100000 in
/-- C4, the code at a failing input: page size 10 (follow limit 7) with ten following
candidates (ids 101 to 110) and ten global candidates (ids 201 to 210): the page holds
four following posts and six global posts, not seven and three. -/
theorem QueryPosts_full_streams_four_following :
    followLimitOf (effectivePageSize 10) = 7 ∧
    ∀ k : Nat, postIDs (QueryPosts (7 + k) (sampleQueries 10 10) (hybridFilter 10))
      = some [101, 201, 102, 202, 103, 203, 104, 204, 205, 206] := by
  refine ⟨by decide, fun k => ?_⟩
  exact postIDs_fuel_add _ _ 7 k _ (by decide)

/-- With no following candidate the loop takes global candidates one by one and stops at
the page size or when they run out, whichever comes first. -/
theorem mergeLoop_no_following (G : List Post) (ps fl : Int) (m : Nat)
    (hm : m = min ps.toNat G.length) :
    ∀ (fuel g : Nat), g ≤ m → m - g < fuel →
      mergeLoop [] G ps fl fuel { posts := G.take g, fIdx := 0, gIdx := g }
        = some { posts := G.take m, fIdx := 0, gIdx := m } := by
  intro fuel
  induction fuel with
  | zero => intro g _ h; omega
  | succ k ih =>
    intro g hg hfuel
    have hlen : (G.take g).length = g := by
      rw [List.length_take]; omega
    simp only [mergeLoop, hlen]
    by_cases hlt : (g : Int) < ps
    · rw [if_pos hlt]
      have hf : takeFollow [] fl { posts := G.take g, fIdx := 0, gIdx := g }
          = { posts := G.take g, fIdx := 0, gIdx := g } := by
        unfold takeFollow
        rw [dif_neg]
        simp
      by_cases hgl : g < G.length
      · have hg2 : takeGlobal G ps { posts := G.take g, fIdx := 0, gIdx := g }
            = { posts := G.take (g + 1), fIdx := 0, gIdx := g + 1 } := by
          unfold takeGlobal
          rw [dif_pos]
          · simp only [MergeState.mk.injEq, and_true, true_and]
            rw [List.take_succ]
            simp [List.getElem?_eq_getElem hgl]
          · simp only [hlen]
            exact ⟨hgl, hlt⟩
        have hb : mergeBody [] G ps fl { posts := G.take g, fIdx := 0, gIdx := g }
            = { posts := G.take (g + 1), fIdx := 0, gIdx := g + 1 } := by
          unfold mergeBody
          rw [hf, hg2]
        rw [hb]
        by_cases hex : G.length ≤ g + 1
        · have hn1 : m = g + 1 := by omega
          simp [bothExhausted, hex, hn1]
        · have hbe : bothExhausted [] G { posts := G.take (g + 1), fIdx := 0, gIdx := g + 1 }
              = false := by
            simp [bothExhausted]
            omega
          simp only [hbe]
          exact ih (g + 1) (by omega) (by omega)
      · have hg2 : takeGlobal G ps { posts := G.take g, fIdx := 0, gIdx := g }
            = { posts := G.take g, fIdx := 0, gIdx := g } := by
          unfold takeGlobal
          rw [dif_neg]
          simp only [not_and]
          intro h
          exact absurd h hgl
        have hb : mergeBody [] G ps fl { posts := G.take g, fIdx := 0, gIdx := g }
            = { posts := G.take g, fIdx := 0, gIdx := g } := by
          unfold mergeBody
          rw [hf, hg2]
        rw [hb]
        have hgm : g = m := by omega
        have hex : G.length ≤ g := by omega
        have hbe : bothExhausted [] G { posts := G.take g, fIdx := 0, gIdx := g } = true := by
          simp [bothExhausted, hex]
        rw [hbe, if_pos rfl, hgm]
    · rw [if_neg hlt]
      have hgm : g = m := by omega
      rw [hgm]

/-- C5: in hybrid mode, when the following query yields no row, `QueryPosts` returns, for
every fuel above 50, the first `min pageSize 50` rows of the global query in query order,
without error and with the total equal to their number, where `pageSize` is
`filter.PageSize`, or 10 when that is not positive.  Hence with at least `filter.PageSize`
global candidates (rows within the query limit of 50) the page holds exactly
`filter.PageSize` posts, the first global candidates in query order, and no other post;
with a page size that is not positive and at least 10 candidates it holds the first 10;
and with a page size above 50 it holds the at most 50 candidates. -/
theorem QueryPosts_no_following_returns_global_prefix (q : PostQueries) (filter : PostFilter)
    (G : List Post) (fuel : Nat)
    (hh : filter.Hybrid = true) (hv : filter.FollowingOf ≠ 0)
    (hf : q.follow = .ok []) (hg : q.global = .ok G) (hfuel : 50 < fuel) :
    ∃ r, QueryPosts fuel q filter = some r ∧ r.err = none ∧
      r.total = (r.posts.length : Int) ∧
      r.posts =
        G.take (min (if filter.PageSize ≤ 0 then 10 else filter.PageSize).toNat 50) ∧
      (∀ p ∈ r.posts, p ∈ G) ∧
      (0 < filter.PageSize → filter.PageSize ≤ ((G.take 50).length : Int) →
        (r.posts.length : Int) = filter.PageSize ∧ r.total = filter.PageSize ∧
        r.posts = G.take filter.PageSize.toNat) ∧
      (filter.PageSize ≤ 0 → 10 ≤ (G.take 50).length →
        r.posts.length = 10 ∧ r.posts = G.take 10) ∧
      (50 < filter.PageSize → r.posts = G.take 50) := by
  have hcond : (filter.Hybrid && filter.FollowingOf != 0) = true := by
    simp [hh, hv]
  have heff : effectivePageSize filter.PageSize =
      (if filter.PageSize ≤ 0 then 10 else filter.PageSize) := rfl
  have hlen50 : (G.take 50).length = min 50 G.length := List.length_take 50 G
  have hloop := mergeLoop_no_following (G.take 50) (effectivePageSize filter.PageSize)
    (followLimitOf (effectivePageSize filter.PageSize))
    (min (effectivePageSize filter.PageSize).toNat (G.take 50).length) rfl fuel 0
    (Nat.zero_le _) (by omega)
  have htake : List.take (min (effectivePageSize filter.PageSize).toNat (G.take 50).length)
      (G.take 50) =
      G.take (min (if filter.PageSize ≤ 0 then 10 else filter.PageSize).toNat 50) := by
    rw [heff, List.take_take, hlen50]
    by_cases hG : G.length ≤ min (if filter.PageSize ≤ 0 then 10 else filter.PageSize).toNat 50
    · rw [List.take_of_length_le hG, List.take_of_length_le (by omega)]
    · congr 1
      omega
  rw [List.take_zero, htake] at hloop
  refine ⟨⟨G.take (min (if filter.PageSize ≤ 0 then 10 else filter.PageSize).toNat 50),
    ((G.take (min (if filter.PageSize ≤ 0 then 10
      else filter.PageSize).toNat 50)).length : Int), none⟩, ?_, rfl, rfl, rfl,
    fun p hp => List.mem_of_mem_take hp, ?_, ?_, ?_⟩
  · unfold QueryPosts
    rw [if_pos hcond]
    simp only [hf, hg, List.take_nil]
    rw [hloop]
  · intro hpos hle
    have hne : ¬ filter.PageSize ≤ 0 := by omega
    simp only [if_neg hne]
    have hmin : min filter.PageSize.toNat 50 = filter.PageSize.toNat := by omega
    rw [hmin]
    have hl : (G.take filter.PageSize.toNat).length = filter.PageSize.toNat := by
      rw [List.length_take]; omega
    refine ⟨?_, ?_, rfl⟩
    · rw [hl]; omega
    · rw [hl]; omega
  · intro hle h10
    simp only [if_pos hle]
    have hmin : min (10 : Int).toNat 50 = 10 := by decide
    rw [hmin]
    refine ⟨?_, rfl⟩
    rw [List.length_take]; omega
  · intro h50
    have hne : ¬ filter.PageSize ≤ 0 := by omega
    simp only [if_neg hne]
    have hmin : min filter.PageSize.toNat 50 = 50 := by omega
    rw [hmin]

set_option maxRecDepth 100000 in
/-- Witness for C5: page size 20, no following row, 25 global rows, fuel 51: the page is
the first 20 global rows.  With page size 60 and 60 global rows the page is the 50
candidates. -/
theorem QueryPosts_no_following_returns_global_prefix_witness :
    QueryPosts 51 (sampleQueries 0 25) (hybridFilter 20)
      = some { posts := mkPosts 200 3 20, total := 20, err := none } ∧
    QueryPosts 51 (sampleQueries 0 60) (hybridFilter 60)
      = some { posts := mkPosts 200 3 50, total := 50, err := none } ∧
    ∃ r, QueryPosts 51 (sampleQueries 0 25) (hybridFilter 20) = some r ∧ r.err = none ∧
      r.total = (r.posts.length : Int) ∧
      r.posts = (mkPosts 200 3 25).take
        (min (if (hybridFilter 20).PageSize ≤ 0 then 10
          else (hybridFilter 20).PageSize).toNat 50) ∧
      (∀ p ∈ r.posts, p ∈ mkPosts 200 3 25) ∧
      (0 < (hybridFilter 20).PageSize →
        (hybridFilter 20).PageSize ≤ (((mkPosts 200 3 25).take 50).length : Int) →
        (r.posts.length : Int) = (hybridFilter 20).PageSize ∧
        r.total = (hybridFilter 20).PageSize ∧
        r.posts = (mkPosts 200 3 25).take (hybridFilter 20).PageSize.toNat) ∧
      ((hybridFilter 20).PageSize ≤ 0 → 10 ≤ ((mkPosts 200 3 25).take 50).length →
        r.posts.length = 10 ∧ r.posts = (mkPosts 200 3 25).take 10) ∧
      (50 < (hybridFilter 20).PageSize → r.posts = (mkPosts 200 3 25).take 50) :=
  ⟨by decide, by decide,
    QueryPosts_no_following_returns_global_prefix (sampleQueries 0 25) (hybridFilter 20)
      (mkPosts 200 3 25) 51 rfl (by decide) rfl rfl (by decide)⟩

/-! ## Theorems: the like / favorite store -/

theorem firstByID_mem : ∀ (rows : List PostLike) (r : PostLike),
    firstByID rows = some r → r ∈ rows := by
  intro rows
  induction rows with
  | nil => intro r h; simp [firstByID] at h
  | cons a rs ih =>
    intro r h
    simp only [firstByID] at h
    cases hm : firstByID rs with
    | none =>
      simp only [hm] at h
      rw [← Option.some.inj h]
      exact List.mem_cons_self _ _
    | some m =>
      simp only [hm] at h
      split at h
      · rw [← Option.some.inj h]
        exact List.mem_cons_of_mem _ (ih m hm)
      · rw [← Option.some.inj h]
        exact List.mem_cons_self _ _

theorem firstByID_eq_none : ∀ (rows : List PostLike), firstByID rows = none → rows = [] := by
  intro rows
  cases rows with
  | nil => intro _; rfl
  | cons a rs =>
    intro h
    simp only [firstByID] at h
    cases hm : firstByID rs with
    | none => simp [hm] at h
    | some m =>
      simp only [hm] at h
      split at h <;> simp at h

theorem firstByID_map (f : PostLike → PostLike) (hf : ∀ r, (f r).ID = r.ID) :
    ∀ rows : List PostLike, firstByID (rows.map f) = (firstByID rows).map f := by
  intro rows
  induction rows with
  | nil => rfl
  | cons a rs ih =>
    simp only [List.map_cons, firstByID, ih]
    cases hm : firstByID rs with
    | none => rfl
    | some m =>
      simp only [Option.map_some', hf]
      split <;> rfl

theorem filter_isPair_map (f : PostLike → PostLike)
    (hp : ∀ r, (f r).PostID = r.PostID) (hu : ∀ r, (f r).UserID = r.UserID)
    (p u : Nat) (rows : List PostLike) :
    (rows.map f).filter (isPair p u) = (rows.filter (isPair p u)).map f := by
  induction rows with
  | nil => rfl
  | cons a rs ih =>
    have : isPair p u (f a) = isPair p u a := by simp [isPair, hp, hu]
    simp only [List.map_cons, List.filter_cons, this, ih]
    split <;> simp

theorem mem_filter_isPair {p u : Nat} {rows : List PostLike} {r : PostLike} :
    r ∈ rows.filter (isPair p u) ↔ r ∈ rows ∧ r.PostID = p ∧ r.UserID = u := by
  simp [List.mem_filter, isPair]

theorem updateCounter_ok {failed : Bool} {c : Counter} {d : Int} {p : Nat}
    {posts posts2 : List Post} (h : updateCounter failed c d p posts = .ok posts2) :
    posts2 = bumpPosts c d p posts := by
  unfold updateCounter at h
  split at h
  · cases h
  · split at h
    · cases h
    · cases h; rfl

theorem isLivePost_setCounter (q : Nat) (p : Post) (c : Counter) (v : Int) :
    isLivePost q (p.setCounter c v) = isLivePost q p := by
  cases c <;> rfl

theorem counter_setCounter (p : Post) (c : Counter) (v : Int) :
    (p.setCounter c v).counter c = v := by
  cases c <;> rfl

theorem setCounter_setCounter (p : Post) (c : Counter) (v w : Int) :
    (p.setCounter c v).setCounter c w = p.setCounter c w := by
  cases c <;> rfl

theorem setCounter_counter (p : Post) (c : Counter) : p.setCounter c (p.counter c) = p := by
  cases c <;> rfl

theorem bumpPosts_bumpPosts (c : Counter) (d e : Int) (q : Nat) (posts : List Post) :
    bumpPosts c e q (bumpPosts c d q posts) = bumpPosts c (d + e) q posts := by
  unfold bumpPosts
  rw [List.map_map]
  apply List.map_congr_left
  intro p _
  simp only [Function.comp]
  by_cases h : isLivePost q p = true
  · simp only [h, if_true, isLivePost_setCounter, counter_setCounter, setCounter_setCounter]
    rw [Int.add_assoc]
  · have h2 : isLivePost q p = false := by simpa using h
    simp [h2]

theorem bumpPosts_zero (c : Counter) (q : Nat) (posts : List Post) :
    bumpPosts c 0 q posts = posts := by
  unfold bumpPosts
  conv => rhs; rw [← List.map_id posts]
  apply List.map_congr_left
  intro p _
  simp [setCounter_counter]

theorem find_isLivePost_bumpPosts (c : Counter) (d : Int) (q : Nat) (posts : List Post) :
    (bumpPosts c d q posts).find? (isLivePost q)
      = (posts.find? (isLivePost q)).map (fun p => p.setCounter c (p.counter c + d)) := by
  induction posts with
  | nil => rfl
  | cons a rs ih =>
    unfold bumpPosts at ih ⊢
    simp only [List.map_cons, List.find?_cons]
    by_cases h : isLivePost q a = true
    · simp [h, isLivePost_setCounter]
    · have h2 : isLivePost q a = false := by simpa using h
      simp only [h2, Bool.false_eq_true, if_false]
      exact ih

theorem create_ok {failed : Bool} {newID p u : Nat} {rows rows2 : List PostLike}
    (h : create failed newID rows p u = .ok rows2) :
    (∀ r ∈ rows, r.ID ≠ newID) ∧ (∀ r ∈ rows, isPair p u r = false) ∧
      rows2 = rows ++ [{ ID := newID, PostID := p, UserID := u, DeletedAt := none }] := by
  unfold create at h
  split at h
  · cases h
  · split at h
    · cases h
    · rename_i hany
      cases h
      simp only [Bool.not_eq_true, List.any_eq_false, Bool.or_eq_true, decide_eq_true_eq,
        not_or] at hany
      refine ⟨fun r hr => (hany r hr).1, fun r hr => ?_, rfl⟩
      simpa using (hany r hr).2

theorem LikePost_ok_inv {env : Env} {db db1 : DB} {p u : Nat}
    (h : LikePost env db p u = (db1, none)) :
    env.beginErr = false ∧ env.firstErr = false ∧
    ∃ rows2, MarkStep p u env.newID db.post_likes rows2 ∧
      db1 = { db with posts := bumpPosts .like_count 1 p db.posts, post_likes := rows2 } := by
  unfold LikePost at h
  cases hb : env.beginErr
  case true => simp [hb] at h
  cases hf : env.firstErr
  case true => simp [hb, hf, firstUnscoped] at h
  refine ⟨rfl, rfl, ?_⟩
  simp only [hb, hf, firstUnscoped, Bool.false_eq_true, if_false] at h
  cases hfirst : firstByID (db.post_likes.filter (isPair p u)) with
  | some like =>
    simp only [hfirst] at h
    cases hdel : like.DeletedAt.isSome
    case false => simp [hdel] at h
    cases hu : env.updateErr
    case true => simp [hdel, undelete, hu] at h
    simp only [hdel, if_true, undelete, hu, Bool.false_eq_true, if_false] at h
    · cases hc : updateCounter env.counterErr Counter.like_count 1 p db.posts with
      | error e => simp [hc] at h
      | ok posts =>
        simp only [hc] at h
        split at h
        · simp at h
        · have hp := updateCounter_ok hc
          refine ⟨undeleteRows like.ID db.post_likes, Or.inl ⟨like, hfirst, hdel, rfl⟩, ?_⟩
          rw [← hp]
          exact (Prod.mk.inj h).1.symm
  | none =>
    simp only [hfirst] at h
    simp only [ne_eq, not_true_eq_false, if_false] at h
    cases hcr : create env.createErr env.newID db.post_likes p u with
    | error e => simp [hcr] at h
    | ok likes =>
      simp only [hcr] at h
      cases hc : updateCounter env.counterErr Counter.like_count 1 p db.posts with
      | error e => simp [hc] at h
      | ok posts =>
        simp only [hc] at h
        split at h
        · simp at h
        · have hp := updateCounter_ok hc
          obtain ⟨h1, _, h3⟩ := create_ok hcr
          refine ⟨likes, Or.inr ⟨firstByID_eq_none _ hfirst, h1, h3⟩, ?_⟩
          rw [← hp]
          exact (Prod.mk.inj h).1.symm

theorem FavoritePost_ok_inv {env : Env} {db db1 : DB} {p u : Nat}
    (h : FavoritePost env db p u = (db1, none)) :
    env.beginErr = false ∧ env.firstErr = false ∧
    ∃ rows2, MarkStep p u env.newID db.post_favorites rows2 ∧
      db1 = { db with posts := bumpPosts .favorite_count 1 p db.posts,
                      post_favorites := rows2 } := by
  unfold FavoritePost at h
  cases hb : env.beginErr
  case true => simp [hb] at h
  cases hf : env.firstErr
  case true => simp [hb, hf, firstUnscoped] at h
  refine ⟨rfl, rfl, ?_⟩
  simp only [hb, hf, firstUnscoped, Bool.false_eq_true, if_false] at h
  cases hfirst : firstByID (db.post_favorites.filter (isPair p u)) with
  | some fav =>
    simp only [hfirst] at h
    cases hdel : fav.DeletedAt.isSome
    case false => simp [hdel] at h
    cases hu : env.updateErr
    case true => simp [hdel, undelete, hu] at h
    simp only [hdel, if_true, undelete, hu, Bool.false_eq_true, if_false] at h
    · cases hc : updateCounter env.counterErr Counter.favorite_count 1 p db.posts with
      | error e => simp [hc] at h
      | ok posts =>
        simp only [hc] at h
        split at h
        · simp at h
        · have hp := updateCounter_ok hc
          refine ⟨undeleteRows fav.ID db.post_favorites, Or.inl ⟨fav, hfirst, hdel, rfl⟩, ?_⟩
          rw [← hp]
          exact (Prod.mk.inj h).1.symm
  | none =>
    simp only [hfirst] at h
    simp only [ne_eq, not_true_eq_false, if_false] at h
    cases hcr : create env.createErr env.newID db.post_favorites p u with
    | error e => simp [hcr] at h
    | ok favs =>
      simp only [hcr] at h
      cases hc : updateCounter env.counterErr Counter.favorite_count 1 p db.posts with
      | error e => simp [hc] at h
      | ok posts =>
        simp only [hc] at h
        split at h
        · simp at h
        · have hp := updateCounter_ok hc
          obtain ⟨h1, _, h3⟩ := create_ok hcr
          refine ⟨favs, Or.inr ⟨firstByID_eq_none _ hfirst, h1, h3⟩, ?_⟩
          rw [← hp]
          exact (Prod.mk.inj h).1.symm

theorem UnlikePost_ok_inv {env : Env} {db db1 : DB} {p u : Nat}
    (h : UnlikePost env db p u = (db1, none)) :
    env.deleteErr = false ∧
    db1 = { db with
      posts := if 0 < db.post_likes.countP (isActivePair p u)
        then bumpPosts .like_count (-1) p db.posts else db.posts,
      post_likes := softDeleteRows env.now p u db.post_likes } := by
  unfold UnlikePost softDelete at h
  cases hd : env.deleteErr
  case true => simp [hd] at h
  refine ⟨rfl, ?_⟩
  simp only [hd, Bool.false_eq_true, if_false, gt_iff_lt] at h
  by_cases hk : 0 < db.post_likes.countP (isActivePair p u)
  · simp only [hk, if_true] at h ⊢
    cases hc : updateCounter env.counterErr Counter.like_count (-1) p db.posts with
    | error e => simp [hc] at h
    | ok posts =>
      simp only [hc] at h
      rw [← updateCounter_ok hc]
      exact (Prod.mk.inj h).1.symm
  · simp only [hk, if_false] at h ⊢
    exact (Prod.mk.inj h).1.symm

theorem UnfavoritePost_ok_inv {env : Env} {db db1 : DB} {p u : Nat}
    (h : UnfavoritePost env db p u = (db1, none)) :
    env.deleteErr = false ∧
    db1 = { db with
      posts := if 0 < db.post_favorites.countP (isActivePair p u)
        then bumpPosts .favorite_count (-1) p db.posts else db.posts,
      post_favorites := softDeleteRows env.now p u db.post_favorites } := by
  unfold UnfavoritePost softDelete at h
  cases hd : env.deleteErr
  case true => simp [hd] at h
  refine ⟨rfl, ?_⟩
  simp only [hd, Bool.false_eq_true, if_false, gt_iff_lt] at h
  by_cases hk : 0 < db.post_favorites.countP (isActivePair p u)
  · simp only [hk, if_true] at h ⊢
    cases hc : updateCounter env.counterErr Counter.favorite_count (-1) p db.posts with
    | error e => simp [hc] at h
    | ok posts =>
      simp only [hc] at h
      rw [← updateCounter_ok hc]
      exact (Prod.mk.inj h).1.symm
  · simp only [hk, if_false] at h ⊢
    exact (Prod.mk.inj h).1.symm

/-! ### Tables: keys and active counts -/

theorem map_eq_self {α : Type} (f : α → α) (l : List α) (h : ∀ x ∈ l, f x = x) :
    l.map f = l := by
  induction l with
  | nil => rfl
  | cons a rs ih =>
    simp only [List.map_cons]
    rw [h a (List.mem_cons_self _ _), ih (fun x hx => h x (List.mem_cons_of_mem _ hx))]

theorem undeleteRows_map_ID (id : Nat) (rows : List PostLike) :
    (undeleteRows id rows).map (fun r => r.ID) = rows.map (fun r => r.ID) := by
  unfold undeleteRows
  rw [List.map_map]
  apply List.map_congr_left
  intro r _
  simp only [Function.comp]
  split <;> rfl

theorem undeleteRows_map_pair (id : Nat) (rows : List PostLike) :
    (undeleteRows id rows).map (fun r => (r.PostID, r.UserID))
      = rows.map (fun r => (r.PostID, r.UserID)) := by
  unfold undeleteRows
  rw [List.map_map]
  apply List.map_congr_left
  intro r _
  simp only [Function.comp]
  split <;> rfl

theorem softDeleteRows_map_ID (now p u : Nat) (rows : List PostLike) :
    (softDeleteRows now p u rows).map (fun r => r.ID) = rows.map (fun r => r.ID) := by
  unfold softDeleteRows
  rw [List.map_map]
  apply List.map_congr_left
  intro r _
  simp only [Function.comp]
  split <;> rfl

theorem softDeleteRows_map_pair (now p u : Nat) (rows : List PostLike) :
    (softDeleteRows now p u rows).map (fun r => (r.PostID, r.UserID))
      = rows.map (fun r => (r.PostID, r.UserID)) := by
  unfold softDeleteRows
  rw [List.map_map]
  apply List.map_congr_left
  intro r _
  simp only [Function.comp]
  split <;> rfl

theorem undeleteRows_split (rows : List PostLike) (like : PostLike)
    (hn : (rows.map (fun r => r.ID)).Nodup) (hm : like ∈ rows) :
    ∃ l1 l2, rows = l1 ++ like :: l2 ∧
      undeleteRows like.ID rows = l1 ++ { like with DeletedAt := none } :: l2 := by
  obtain ⟨l1, l2, rfl⟩ := List.append_of_mem hm
  refine ⟨l1, l2, rfl, ?_⟩
  simp only [List.map_append, List.map_cons] at hn
  have hn' := List.nodup_append.mp hn
  have h1 : ∀ x ∈ l1, x.ID ≠ like.ID := by
    intro x hx heq
    exact hn'.2.2 (List.mem_map_of_mem (fun r => r.ID) hx)
      (by simp only [List.mem_cons]; exact Or.inl heq)
  have h2 : ∀ x ∈ l2, x.ID ≠ like.ID := by
    intro x hx heq
    have := (List.nodup_cons.mp hn'.2.1).1
    apply this
    rw [← heq]
    exact List.mem_map_of_mem (fun r => r.ID) hx
  unfold undeleteRows
  simp only [List.map_append, List.map_cons, if_true]
  rw [map_eq_self _ l1 (fun x hx => by simp [h1 x hx]),
    map_eq_self _ l2 (fun x hx => by simp [h2 x hx])]

theorem activeCount_undeleteRows (rows : List PostLike) (like : PostLike) (q : Nat)
    (hn : (rows.map (fun r => r.ID)).Nodup) (hm : like ∈ rows)
    (hd : like.DeletedAt.isSome = true) :
    activeCount (undeleteRows like.ID rows) q
      = activeCount rows q + (if like.PostID = q then 1 else 0) := by
  obtain ⟨l1, l2, h1, h2⟩ := undeleteRows_split rows like hn hm
  rw [h2, h1]
  unfold activeCount
  have hnone : like.DeletedAt.isNone = false := by
    cases hx : like.DeletedAt with
    | none => simp [hx] at hd
    | some t => rfl
  simp only [List.countP_append, List.countP_cons, hnone, Bool.and_false, Bool.false_eq_true,
    if_false, Option.isNone_none, Bool.and_true, decide_eq_true_eq]
  omega

theorem activeCount_append_new (rows : List PostLike) (id p u q : Nat) :
    activeCount (rows ++ [{ ID := id, PostID := p, UserID := u, DeletedAt := none }]) q
      = activeCount rows q + (if p = q then 1 else 0) := by
  unfold activeCount
  simp [List.countP_append, List.countP_cons]

theorem MarkStep_activeCount {p u newID : Nat} {rows rows2 : List PostLike} (q : Nat)
    (hk : KeysOK rows) (h : MarkStep p u newID rows rows2) :
    activeCount rows2 q = activeCount rows q + (if p = q then 1 else 0) := by
  rcases h with ⟨like, hf, hd, rfl⟩ | ⟨_, _, rfl⟩
  · have hmem := mem_filter_isPair.mp (firstByID_mem _ _ hf)
    rw [activeCount_undeleteRows rows like q hk.1 hmem.1 hd, hmem.2.1]
  · exact activeCount_append_new rows newID p u q

theorem MarkStep_keysOK {p u newID : Nat} {rows rows2 : List PostLike}
    (hk : KeysOK rows) (h : MarkStep p u newID rows rows2) : KeysOK rows2 := by
  rcases h with ⟨like, _, _, rfl⟩ | ⟨he, hid, rfl⟩
  · exact ⟨by rw [undeleteRows_map_ID]; exact hk.1, by rw [undeleteRows_map_pair]; exact hk.2⟩
  · constructor
    · simp only [List.map_append, List.map_cons, List.map_nil]
      refine List.Nodup.append hk.1 (List.nodup_singleton _) ?_
      intro x hx1 hx2
      simp only [List.mem_singleton] at hx2
      obtain ⟨r, hr, hrx⟩ := List.mem_map.mp hx1
      exact hid r hr (hrx.trans hx2)
    · simp only [List.map_append, List.map_cons, List.map_nil]
      refine List.Nodup.append hk.2 (List.nodup_singleton _) ?_
      intro x hx1 hx2
      simp only [List.mem_singleton] at hx2
      obtain ⟨r, hr, hrx⟩ := List.mem_map.mp hx1
      have hpair : r ∈ rows.filter (isPair p u) := by
        rw [mem_filter_isPair]
        rw [hx2] at hrx
        exact ⟨hr, (Prod.mk.inj hrx).1, (Prod.mk.inj hrx).2⟩
      rw [he] at hpair
      exact List.not_mem_nil _ hpair

theorem filter_isPair_length_le_one (p u : Nat) :
    ∀ rows : List PostLike, (rows.map (fun r => (r.PostID, r.UserID))).Nodup →
      (rows.filter (isPair p u)).length ≤ 1 := by
  intro rows
  induction rows with
  | nil => intro _; simp
  | cons a rs ih =>
    intro hn
    simp only [List.map_cons, List.nodup_cons] at hn
    simp only [List.filter_cons]
    split
    · rename_i ha
      have hempty : rs.filter (isPair p u) = [] := by
        rw [List.filter_eq_nil_iff]
        intro x hx hpx
        apply hn.1
        simp only [isPair, Bool.and_eq_true, decide_eq_true_eq] at ha hpx
        rw [List.mem_map]
        exact ⟨x, hx, by rw [hpx.1, hpx.2, ha.1, ha.2]⟩
      simp [hempty]
    · exact ih hn.2

theorem countP_isActivePair_le_one (p u : Nat) (rows : List PostLike)
    (hn : (rows.map (fun r => (r.PostID, r.UserID))).Nodup) :
    rows.countP (isActivePair p u) ≤ 1 := by
  have h1 : rows.countP (isActivePair p u) ≤ rows.countP (isPair p u) := by
    apply List.countP_mono_left
    intro x _ hx
    simp only [isActivePair, Bool.and_eq_true] at hx
    exact hx.1
  have h2 : rows.countP (isPair p u) = (rows.filter (isPair p u)).length :=
    List.countP_eq_length_filter _ _
  rw [h2] at h1
  exact le_trans h1 (filter_isPair_length_le_one p u rows hn)

theorem activeCount_softDeleteRows (now p u q : Nat) :
    ∀ rows : List PostLike,
      activeCount (softDeleteRows now p u rows) q
        + (if p = q then rows.countP (isActivePair p u) else 0) = activeCount rows q := by
  intro rows
  induction rows with
  | nil => simp [activeCount, softDeleteRows]
  | cons a rs ih =>
    unfold activeCount softDeleteRows at ih ⊢
    simp only [List.map_cons, List.countP_cons]
    by_cases ha : isActivePair p u a = true
    · have ha2 := ha
      simp only [isActivePair, isPair, Bool.and_eq_true, decide_eq_true_eq] at ha2
      simp only [ha, if_true, Option.isNone_some, Bool.and_false, Bool.false_eq_true, if_false,
        ha2.1.1, ha2.2, Bool.and_true, decide_eq_true_eq]
      by_cases hq : p = q
      · simp only [hq, if_true] at ih ⊢
        omega
      · simp only [hq, if_false] at ih ⊢
        omega
    · have ha3 : isActivePair p u a = false := by simpa using ha
      simp only [ha3, Bool.false_eq_true, if_false]
      by_cases hq : p = q
      · simp only [hq, if_true] at ih ⊢
        omega
      · simp only [hq, if_false] at ih ⊢
        omega

theorem softDeleteRows_keysOK (now p u : Nat) (rows : List PostLike) (hk : KeysOK rows) :
    KeysOK (softDeleteRows now p u rows) :=
  ⟨by rw [softDeleteRows_map_ID]; exact hk.1, by rw [softDeleteRows_map_pair]; exact hk.2⟩

/-! ### Posts: the counter update -/

theorem bumpPosts_map_ID (c : Counter) (d : Int) (q : Nat) (posts : List Post) :
    (bumpPosts c d q posts).map (fun p => p.ID) = posts.map (fun p => p.ID) := by
  unfold bumpPosts
  rw [List.map_map]
  apply List.map_congr_left
  intro p _
  simp only [Function.comp]
  split
  · cases c <;> rfl
  · rfl

theorem live_of_ID_eq {posts : List Post} {q : Nat}
    (hn : (posts.map (fun p => p.ID)).Nodup) (hlive : ∃ p0 ∈ posts, isLivePost q p0 = true)
    {x : Post} (hx : x ∈ posts) (hid : x.ID = q) : isLivePost q x = true := by
  obtain ⟨p0, hp0, hl⟩ := hlive
  have hid0 : p0.ID = q := by
    simp only [isLivePost, Bool.and_eq_true, decide_eq_true_eq] at hl
    exact hl.1
  have : x = p0 := List.inj_on_of_nodup_map hn hx hp0 (hid.trans hid0.symm)
  rw [this]
  exact hl

theorem ID_of_live {q : Nat} {x : Post} (h : isLivePost q x = true) : x.ID = q := by
  simp only [isLivePost, Bool.and_eq_true, decide_eq_true_eq] at h
  exact h.1

theorem setCounter_ID (p : Post) (c : Counter) (v : Int) : (p.setCounter c v).ID = p.ID := by
  cases c <;> rfl

theorem counter_setCounter_ne (p : Post) (c c2 : Counter) (v : Int) (h : c2 ≠ c) :
    (p.setCounter c v).counter c2 = p.counter c2 := by
  cases c <;> cases c2 <;> first | rfl | exact absurd rfl h

theorem counter_after_bump (c : Counter) (d : Int) (q : Nat) (posts : List Post)
    (rows rows2 : List PostLike)
    (hn : (posts.map (fun p => p.ID)).Nodup) (hlive : ∃ p0 ∈ posts, isLivePost q p0 = true)
    (hcount : ∀ k, (activeCount rows2 k : Int)
      = (activeCount rows k : Int) + (if q = k then d else 0))
    (hcons : ∀ x ∈ posts, x.counter c = (activeCount rows x.ID : Int)) :
    ∀ x ∈ bumpPosts c d q posts, x.counter c = (activeCount rows2 x.ID : Int) := by
  intro x hx
  unfold bumpPosts at hx
  obtain ⟨x0, hx0, rfl⟩ := List.mem_map.mp hx
  by_cases hl : isLivePost q x0 = true
  · simp only [hl, if_true, counter_setCounter, setCounter_ID]
    rw [hcount, hcons x0 hx0, if_pos (ID_of_live hl).symm]
  · have hne : ¬ q = x0.ID := fun h => hl (live_of_ID_eq hn hlive hx0 h.symm)
    have hl2 : isLivePost q x0 = false := by simpa using hl
    simp only [hl2, Bool.false_eq_true, if_false]
    rw [hcount, hcons x0 hx0, if_neg hne, Int.add_zero]

theorem other_counter_after_bump (c c2 : Counter) (hc : c2 ≠ c) (d : Int) (q : Nat)
    (posts : List Post) (rows : List PostLike)
    (hcons : ∀ x ∈ posts, x.counter c2 = (activeCount rows x.ID : Int)) :
    ∀ x ∈ bumpPosts c d q posts, x.counter c2 = (activeCount rows x.ID : Int) := by
  intro x hx
  unfold bumpPosts at hx
  obtain ⟨x0, hx0, rfl⟩ := List.mem_map.mp hx
  by_cases hl : isLivePost q x0 = true
  · simp only [hl, if_true, setCounter_ID, counter_setCounter_ne _ _ _ _ hc]
    exact hcons x0 hx0
  · have hl2 : isLivePost q x0 = false := by simpa using hl
    simp only [hl2, Bool.false_eq_true, if_false]
    exact hcons x0 hx0

theorem getPost_live {db : DB} {q : Nat} (h : (getPost db q).isSome = true) :
    ∃ p0 ∈ db.posts, isLivePost q p0 = true := by
  unfold getPost at h
  cases hf : db.posts.find? (isLivePost q) with
  | none => simp [hf] at h
  | some p0 => exact ⟨p0, List.mem_of_find?_eq_some hf, List.find?_some hf⟩

/-! ### Each successful call keeps the constraints and the counters consistent -/

theorem LikePost_preserves {env : Env} {db db1 : DB} {p u : Nat}
    (hK : Constraints db) (hC : Consistent db) (hex : (getPost db p).isSome = true)
    (h : LikePost env db p u = (db1, none)) : Constraints db1 ∧ Consistent db1 := by
  obtain ⟨_, _, rows2, hstep, rfl⟩ := LikePost_ok_inv h
  obtain ⟨hKp, hKl, hKf⟩ := hK
  refine ⟨⟨?_, MarkStep_keysOK hKl hstep, hKf⟩, ?_⟩
  · show ((bumpPosts Counter.like_count 1 p db.posts).map (fun p => p.ID)).Nodup
    rw [bumpPosts_map_ID]; exact hKp
  · intro x hx
    constructor
    · exact counter_after_bump .like_count 1 p db.posts db.post_likes rows2 hKp
        (getPost_live hex)
        (fun k => by
          rw [MarkStep_activeCount k hKl hstep]
          split <;> simp)
        (fun y hy => (hC y hy).1) x hx
    · exact other_counter_after_bump .like_count .favorite_count (by decide) 1 p db.posts
        db.post_favorites (fun y hy => (hC y hy).2) x hx

theorem FavoritePost_preserves {env : Env} {db db1 : DB} {p u : Nat}
    (hK : Constraints db) (hC : Consistent db) (hex : (getPost db p).isSome = true)
    (h : FavoritePost env db p u = (db1, none)) : Constraints db1 ∧ Consistent db1 := by
  obtain ⟨_, _, rows2, hstep, rfl⟩ := FavoritePost_ok_inv h
  obtain ⟨hKp, hKl, hKf⟩ := hK
  refine ⟨⟨?_, hKl, MarkStep_keysOK hKf hstep⟩, ?_⟩
  · show ((bumpPosts Counter.favorite_count 1 p db.posts).map (fun p => p.ID)).Nodup
    rw [bumpPosts_map_ID]; exact hKp
  · intro x hx
    constructor
    · exact other_counter_after_bump .favorite_count .like_count (by decide) 1 p db.posts
        db.post_likes (fun y hy => (hC y hy).1) x hx
    · exact counter_after_bump .favorite_count 1 p db.posts db.post_favorites rows2 hKp
        (getPost_live hex)
        (fun k => by
          rw [MarkStep_activeCount k hKf hstep]
          split <;> simp)
        (fun y hy => (hC y hy).2) x hx

theorem softDelete_count (now p u : Nat) (rows : List PostLike) (hk : KeysOK rows)
    (hpos : 0 < rows.countP (isActivePair p u)) (k : Nat) :
    (activeCount (softDeleteRows now p u rows) k : Int)
      = (activeCount rows k : Int) + (if p = k then -1 else 0) := by
  have h1 := countP_isActivePair_le_one p u rows hk.2
  have h2 := activeCount_softDeleteRows now p u k rows
  split
  · rename_i hpk
    rw [if_pos hpk] at h2
    omega
  · rename_i hpk
    rw [if_neg hpk] at h2
    omega

theorem softDelete_count_zero (now p u : Nat) (rows : List PostLike)
    (hzero : ¬ 0 < rows.countP (isActivePair p u)) (k : Nat) :
    activeCount (softDeleteRows now p u rows) k = activeCount rows k := by
  have h2 := activeCount_softDeleteRows now p u k rows
  split at h2 <;> omega

theorem UnlikePost_preserves {env : Env} {db db1 : DB} {p u : Nat}
    (hK : Constraints db) (hC : Consistent db) (hex : (getPost db p).isSome = true)
    (h : UnlikePost env db p u = (db1, none)) : Constraints db1 ∧ Consistent db1 := by
  obtain ⟨_, rfl⟩ := UnlikePost_ok_inv h
  obtain ⟨hKp, hKl, hKf⟩ := hK
  by_cases hpos : 0 < db.post_likes.countP (isActivePair p u)
  · simp only [hpos, if_true]
    refine ⟨⟨?_, softDeleteRows_keysOK _ _ _ _ hKl, hKf⟩, ?_⟩
    · show ((bumpPosts Counter.like_count (-1) p db.posts).map (fun p => p.ID)).Nodup
      rw [bumpPosts_map_ID]; exact hKp
    · intro x hx
      constructor
      · exact counter_after_bump .like_count (-1) p db.posts db.post_likes _ hKp
          (getPost_live hex) (softDelete_count env.now p u db.post_likes hKl hpos)
          (fun y hy => (hC y hy).1) x hx
      · exact other_counter_after_bump .like_count .favorite_count (by decide) (-1) p db.posts
          db.post_favorites (fun y hy => (hC y hy).2) x hx
  · simp only [hpos, if_false]
    refine ⟨⟨hKp, softDeleteRows_keysOK _ _ _ _ hKl, hKf⟩, ?_⟩
    intro x hx
    refine ⟨?_, (hC x hx).2⟩
    show x.LikeCount = (activeCount (softDeleteRows env.now p u db.post_likes) x.ID : Int)
    rw [softDelete_count_zero env.now p u db.post_likes hpos]
    exact (hC x hx).1

theorem UnfavoritePost_preserves {env : Env} {db db1 : DB} {p u : Nat}
    (hK : Constraints db) (hC : Consistent db) (hex : (getPost db p).isSome = true)
    (h : UnfavoritePost env db p u = (db1, none)) : Constraints db1 ∧ Consistent db1 := by
  obtain ⟨_, rfl⟩ := UnfavoritePost_ok_inv h
  obtain ⟨hKp, hKl, hKf⟩ := hK
  by_cases hpos : 0 < db.post_favorites.countP (isActivePair p u)
  · simp only [hpos, if_true]
    refine ⟨⟨?_, hKl, softDeleteRows_keysOK _ _ _ _ hKf⟩, ?_⟩
    · show ((bumpPosts Counter.favorite_count (-1) p db.posts).map (fun p => p.ID)).Nodup
      rw [bumpPosts_map_ID]; exact hKp
    · intro x hx
      constructor
      · exact other_counter_after_bump .favorite_count .like_count (by decide) (-1) p db.posts
          db.post_likes (fun y hy => (hC y hy).1) x hx
      · exact counter_after_bump .favorite_count (-1) p db.posts db.post_favorites _ hKp
          (getPost_live hex) (softDelete_count env.now p u db.post_favorites hKf hpos)
          (fun y hy => (hC y hy).2) x hx
  · simp only [hpos, if_false]
    refine ⟨⟨hKp, hKl, softDeleteRows_keysOK _ _ _ _ hKf⟩, ?_⟩
    intro x hx
    refine ⟨(hC x hx).1, ?_⟩
    show x.FavoriteCount = (activeCount (softDeleteRows env.now p u db.post_favorites) x.ID : Int)
    rw [softDelete_count_zero env.now p u db.post_favorites hpos]
    exact (hC x hx).2

/-! ### Failed calls, and the shape of the like table after any call -/

theorem LikePost_error_unchanged {env : Env} {db db1 : DB} {p u : Nat} {e : Err}
    (h : LikePost env db p u = (db1, some e)) : db1 = db := by
  unfold LikePost at h
  repeat' split at h
  all_goals first
    | exact (Prod.mk.inj h).1.symm
    | (exfalso; simpa using (Prod.mk.inj h).2)

theorem FavoritePost_error_unchanged {env : Env} {db db1 : DB} {p u : Nat} {e : Err}
    (h : FavoritePost env db p u = (db1, some e)) : db1 = db := by
  unfold FavoritePost at h
  repeat' split at h
  all_goals first
    | exact (Prod.mk.inj h).1.symm
    | (exfalso; simpa using (Prod.mk.inj h).2)

theorem MarkStep_pairs_nodup {p u newID : Nat} {rows rows2 : List PostLike}
    (hk : (rows.map (fun r => (r.PostID, r.UserID))).Nodup)
    (h : MarkStep p u newID rows rows2) :
    (rows2.map (fun r => (r.PostID, r.UserID))).Nodup := by
  rcases h with ⟨like, _, _, rfl⟩ | ⟨he, _, rfl⟩
  · rw [undeleteRows_map_pair]; exact hk
  · simp only [List.map_append, List.map_cons, List.map_nil]
    refine List.Nodup.append hk (List.nodup_singleton _) ?_
    intro x hx1 hx2
    simp only [List.mem_singleton] at hx2
    obtain ⟨r, hr, hrx⟩ := List.mem_map.mp hx1
    have hpair : r ∈ rows.filter (isPair p u) := by
      rw [mem_filter_isPair]
      rw [hx2] at hrx
      exact ⟨hr, (Prod.mk.inj hrx).1, (Prod.mk.inj hrx).2⟩
    rw [he] at hpair
    exact List.not_mem_nil _ hpair

theorem LikePost_pairs_nodup (env : Env) (db : DB) (p u : Nat)
    (hk : (db.post_likes.map (fun r => (r.PostID, r.UserID))).Nodup) :
    ((LikePost env db p u).1.post_likes.map (fun r => (r.PostID, r.UserID))).Nodup := by
  cases hr : LikePost env db p u with
  | mk db1 err =>
    cases err with
    | some e => rw [LikePost_error_unchanged hr]; exact hk
    | none =>
      obtain ⟨_, _, rows2, hstep, rfl⟩ := LikePost_ok_inv hr
      exact MarkStep_pairs_nodup hk hstep

theorem UnlikePost_post_likes (env : Env) (db : DB) (p u : Nat) :
    (UnlikePost env db p u).1.post_likes = db.post_likes ∨
    (UnlikePost env db p u).1.post_likes = softDeleteRows env.now p u db.post_likes := by
  unfold UnlikePost softDelete
  cases env.deleteErr
  · right
    simp only [Bool.false_eq_true, if_false]
    repeat' split
    all_goals rfl
  · left
    rfl

theorem UnlikePost_pairs_nodup (env : Env) (db : DB) (p u : Nat)
    (hk : (db.post_likes.map (fun r => (r.PostID, r.UserID))).Nodup) :
    ((UnlikePost env db p u).1.post_likes.map (fun r => (r.PostID, r.UserID))).Nodup := by
  rcases UnlikePost_post_likes env db p u with h | h
  · rw [h]; exact hk
  · rw [h, softDeleteRows_map_pair]; exact hk

theorem FavoritePost_post_likes (env : Env) (db : DB) (p u : Nat) :
    (FavoritePost env db p u).1.post_likes = db.post_likes := by
  unfold FavoritePost
  repeat' split
  all_goals rfl

theorem UnfavoritePost_post_likes (env : Env) (db : DB) (p u : Nat) :
    (UnfavoritePost env db p u).1.post_likes = db.post_likes := by
  unfold UnfavoritePost
  repeat' split
  all_goals rfl

theorem runCalls_pairs_nodup :
    ∀ (calls : List (Env × Call)) (db : DB),
      (db.post_likes.map (fun r => (r.PostID, r.UserID))).Nodup →
      ((runCalls calls db).post_likes.map (fun r => (r.PostID, r.UserID))).Nodup := by
  intro calls
  induction calls with
  | nil => intro db h; exact h
  | cons ec rest ih =>
    intro db h
    obtain ⟨env, c⟩ := ec
    simp only [runCalls]
    apply ih
    cases c with
    | like p u => exact LikePost_pairs_nodup env db p u h
    | unlike p u => exact UnlikePost_pairs_nodup env db p u h
    | favorite p u =>
      show (((FavoritePost env db p u).1.post_likes).map _).Nodup
      rw [FavoritePost_post_likes]; exact h
    | unfavorite p u =>
      show (((UnfavoritePost env db p u).1.post_likes).map _).Nodup
      rw [UnfavoritePost_post_likes]; exact h

theorem mem_pluckPostIDs_single (rows : List PostLike) (p u : Nat) :
    p ∈ pluckPostIDs rows u [p] ↔ ∃ r ∈ rows.filter (isPair p u), r.DeletedAt = none := by
  unfold pluckPostIDs
  simp only [List.mem_map, List.mem_filter, List.mem_singleton, Bool.and_eq_true,
    decide_eq_true_eq, Option.isNone_iff_eq_none, isPair]
  constructor
  · rintro ⟨r, ⟨hr, ⟨hu, hp⟩, hd⟩, _⟩
    exact ⟨r, ⟨hr, hp, hu⟩, hd⟩
  · rintro ⟨r, ⟨hr, hp, hu⟩, hd⟩
    exact ⟨r, ⟨hr, ⟨hu, hp⟩, hd⟩, hp⟩

theorem MarkStep_first_active {p u newID : Nat} {rows rows2 : List PostLike}
    (h : MarkStep p u newID rows rows2) :
    ∃ r, firstByID (rows2.filter (isPair p u)) = some r ∧ r.DeletedAt = none := by
  rcases h with ⟨like, hf, _, rfl⟩ | ⟨he, _, rfl⟩
  · refine ⟨{ like with DeletedAt := none }, ?_, rfl⟩
    unfold undeleteRows
    rw [filter_isPair_map _ (fun r => by split <;> rfl) (fun r => by split <;> rfl),
      firstByID_map _ (fun r => by split <;> rfl), hf]
    simp
  · refine ⟨{ ID := newID, PostID := p, UserID := u, DeletedAt := none }, ?_, rfl⟩
    rw [List.filter_append, he]
    simp [isPair, firstByID]

theorem getPost_LikeCount_bump (db db2 : DB) (p : Nat) (d c : Int)
    (hp : db2.posts = bumpPosts .like_count d p db.posts)
    (h : (getPost db p).map (fun x => x.LikeCount) = some c) :
    (getPost db2 p).map (fun x => x.LikeCount) = some (c + d) := by
  unfold getPost at h ⊢
  rw [hp, find_isLivePost_bumpPosts]
  cases hf : db.posts.find? (isLivePost p) with
  | none => simp [hf] at h
  | some x =>
    simp only [hf, Option.map_some', Option.some.injEq] at h ⊢
    rw [← h]
    rfl

/-! ### Claims C6 to C10 -/

/-- C6: for an existing post with like count `c` and a pair that has no like record,
when `LikePost`, then `UnlikePost`, then `LikePost` all return `nil`, the pair has exactly
one physical like record, that record is not soft-deleted, and the like count of the
post is `c + 1`. -/
theorem like_unlike_like_reactivates (env1 env2 env3 : Env) (db db1 db2 db3 : DB)
    (p u : Nat) (c : Int)
    (hex : (getPost db p).map (fun x => x.LikeCount) = some c)
    (hno : likeRecords db p u = [])
    (h1 : LikePost env1 db p u = (db1, none))
    (h2 : UnlikePost env2 db1 p u = (db2, none))
    (h3 : LikePost env3 db2 p u = (db3, none)) :
    (likeRecords db3 p u).length = 1 ∧ (∀ r ∈ likeRecords db3 p u, r.DeletedAt = none) ∧
    (getPost db3 p).map (fun x => x.LikeCount) = some (c + 1) := by
  unfold likeRecords at hno ⊢
  -- first like: the pair has no record, so a fresh one is appended
  obtain ⟨_, _, rows1, hstep1, hdb1⟩ := LikePost_ok_inv h1
  have hrows1 : rows1 = db.post_likes ++
      [{ ID := env1.newID, PostID := p, UserID := u, DeletedAt := none }] := by
    rcases hstep1 with ⟨like, hf, _, _⟩ | ⟨_, _, hr⟩
    · rw [hno] at hf; simp [firstByID] at hf
    · exact hr
  have hl1 : db1.post_likes = db.post_likes ++
      [{ ID := env1.newID, PostID := p, UserID := u, DeletedAt := none }] := by
    rw [hdb1, ← hrows1]
  have hp1 : db1.posts = bumpPosts .like_count 1 p db.posts := by rw [hdb1]
  -- unlike: exactly that record is soft-deleted and the counter goes back
  obtain ⟨_, hdb2⟩ := UnlikePost_ok_inv h2
  have hinactive : ∀ r ∈ db.post_likes, isActivePair p u r = false := by
    intro r hr
    cases hp : isPair p u r with
    | false => simp [isActivePair, hp]
    | true =>
      have : r ∈ db.post_likes.filter (isPair p u) := List.mem_filter.mpr ⟨hr, hp⟩
      rw [hno] at this
      exact absurd this (List.not_mem_nil _)
  have hcount : List.countP (isActivePair p u) db1.post_likes = 1 := by
    rw [hl1, List.countP_append,
      List.countP_eq_zero.mpr (fun r hr => by simp [hinactive r hr])]
    simp [isActivePair, isPair]
  have hsoft : softDeleteRows env2.now p u db1.post_likes
        = db.post_likes ++
          [{ ID := env1.newID, PostID := p, UserID := u, DeletedAt := some env2.now }] := by
    rw [hl1]
    unfold softDeleteRows
    rw [List.map_append, map_eq_self _ _ (fun r hr => by simp [hinactive r hr])]
    simp [isActivePair, isPair]
  have hl2 : db2.post_likes = db.post_likes ++
      [{ ID := env1.newID, PostID := p, UserID := u, DeletedAt := some env2.now }] := by
    rw [hdb2]
    exact hsoft
  have hp2 : db2.posts = db.posts := by
    rw [hdb2]
    show (if 0 < List.countP (isActivePair p u) db1.post_likes
      then bumpPosts .like_count (-1) p db1.posts else db1.posts) = db.posts
    rw [hcount, if_pos Nat.zero_lt_one, hp1, bumpPosts_bumpPosts]
    exact bumpPosts_zero _ _ _
  -- second like: the soft-deleted record is reactivated
  obtain ⟨_, _, rows3, hstep3, hdb3⟩ := LikePost_ok_inv h3
  have hfilter2 : db2.post_likes.filter (isPair p u)
        = [{ ID := env1.newID, PostID := p, UserID := u, DeletedAt := some env2.now }] := by
    rw [hl2, List.filter_append, hno]
    simp [isPair]
  have hrows3 : rows3 = undeleteRows env1.newID db2.post_likes := by
    rcases hstep3 with ⟨like, hf, _, hr⟩ | ⟨he, _, _⟩
    · rw [hfilter2] at hf
      simp only [firstByID, Option.some.injEq] at hf
      rw [hr, ← hf]
    · rw [hfilter2] at he
      simp at he
  have hl3 : db3.post_likes = undeleteRows env1.newID db2.post_likes := by
    rw [hdb3, ← hrows3]
  have hp3 : db3.posts = bumpPosts .like_count 1 p db.posts := by
    rw [hdb3, ← hp2]
  have hfilter3 : db3.post_likes.filter (isPair p u)
      = [{ ID := env1.newID, PostID := p, UserID := u, DeletedAt := none }] := by
    rw [hl3]
    unfold undeleteRows
    rw [filter_isPair_map _ (fun r => by split <;> rfl) (fun r => by split <;> rfl), hfilter2]
    simp
  refine ⟨by rw [hfilter3]; rfl, ?_, ?_⟩
  · intro r hr
    rw [hfilter3] at hr
    rw [List.mem_singleton.mp hr]
  · exact getPost_LikeCount_bump db db3 p 1 c hp3 hex

/-- C7: after a `LikePost` that returned `nil`, a second `LikePost` for the same pair
returns an error and leaves the whole store (like records and counters) as the first call
left it; unless the driver fails before the lookup, the error is "already liked"; the
like count of an existing post stays one above its value before the first call. -/
theorem like_twice_already_liked (env1 env2 : Env) (db db1 : DB) (p u : Nat)
    (h1 : LikePost env1 db p u = (db1, none)) :
    (LikePost env2 db1 p u).1 = db1 ∧ (LikePost env2 db1 p u).2 ≠ none ∧
    (env2.beginErr = false → env2.firstErr = false →
      (LikePost env2 db1 p u).2 = some (.message "already liked")) ∧
    (∀ c : Int, (getPost db p).map (fun x => x.LikeCount) = some c →
      (getPost (LikePost env2 db1 p u).1 p).map (fun x => x.LikeCount) = some (c + 1)) := by
  obtain ⟨_, _, rows1, hstep1, hdb1⟩ := LikePost_ok_inv h1
  obtain ⟨r, hr, hract⟩ := MarkStep_first_active hstep1
  have hlikes : db1.post_likes = rows1 := by rw [hdb1]
  have hres : LikePost env2 db1 p u
      = (db1, some (if env2.beginErr = true ∨ env2.firstErr = true then Err.driver
          else Err.message "already liked")) := by
    unfold LikePost firstUnscoped
    cases hb : env2.beginErr
    · cases hf : env2.firstErr
      · simp [hlikes, hr, hract]
      · simp
    · simp
  rw [hres]
  refine ⟨rfl, by simp, ?_, ?_⟩
  · intro hb hf
    simp [hb, hf]
  · intro c hc
    show (getPost db1 p).map _ = _
    exact getPost_LikeCount_bump db db1 p 1 c (by rw [hdb1]) hc

/-- C8: when the pair has no active like record (none at all, or only soft-deleted ones),
`UnlikePost` leaves the store unchanged (same like records, same counters) and returns
`nil`; the only error it can return is that of a delete statement failing in the
driver. -/
theorem unlike_without_active_like_is_noop (env : Env) (db : DB) (p u : Nat)
    (hno : ∀ r ∈ likeRecords db p u, r.DeletedAt ≠ none) :
    (UnlikePost env db p u).1 = db ∧
    (env.deleteErr = false → UnlikePost env db p u = (db, none)) ∧
    (env.deleteErr = true → (UnlikePost env db p u).2 = some .driver) := by
  have hinactive : ∀ r ∈ db.post_likes, isActivePair p u r = false := by
    intro r hr
    cases hp : isPair p u r with
    | false => simp [isActivePair, hp]
    | true =>
      have hm : r ∈ likeRecords db p u := List.mem_filter.mpr ⟨hr, hp⟩
      have := hno r hm
      cases hdel : r.DeletedAt with
      | none => exact absurd hdel this
      | some t => simp [isActivePair, hdel]
  have hcount : List.countP (isActivePair p u) db.post_likes = 0 :=
    List.countP_eq_zero.mpr (fun r hr => by simp [hinactive r hr])
  have hsoft : softDeleteRows env.now p u db.post_likes = db.post_likes := by
    unfold softDeleteRows
    exact map_eq_self _ _ (fun r hr => by simp [hinactive r hr])
  unfold UnlikePost softDelete
  cases hd : env.deleteErr <;> simp [hcount, hsoft]

/-- C9: in a store that satisfies its key constraints (primary keys, unique index on
post and user) and whose like and favorite counters equal the numbers of active like and
favorite records of each post, every sequence of `LikePost`, `UnlikePost`, `FavoritePost`,
`UnfavoritePost` calls that each return `nil` on an existing post leads to a store with
the same two properties. -/
theorem counters_consistent_after_successful_calls :
    ∀ (calls : List (Env × Call)) (db db2 : DB), Constraints db → Consistent db →
      runSuccessful calls db = some db2 → Constraints db2 ∧ Consistent db2 := by
  intro calls
  induction calls with
  | nil =>
    intro db db2 hK hC h
    simp only [runSuccessful, Option.some.injEq] at h
    rw [← h]
    exact ⟨hK, hC⟩
  | cons ec rest ih =>
    intro db db2 hK hC h
    obtain ⟨env, c⟩ := ec
    simp only [runSuccessful] at h
    split at h
    · rename_i hcond
      simp only [Bool.and_eq_true, Option.isNone_iff_eq_none] at hcond
      obtain ⟨hex, hok⟩ := hcond
      have hrun : c.run env db = ((c.run env db).1, none) := by
        rw [← hok]
      have hstep : Constraints (c.run env db).1 ∧ Consistent (c.run env db).1 := by
        cases c with
        | like p u => exact LikePost_preserves hK hC hex hrun
        | unlike p u => exact UnlikePost_preserves hK hC hex hrun
        | favorite p u => exact FavoritePost_preserves hK hC hex hrun
        | unfavorite p u => exact UnfavoritePost_preserves hK hC hex hrun
      exact ih _ _ hstep.1 hstep.2 h
    · cases h

/-- C10: starting from a like table that satisfies its unique index on post and user,
after every sequence of calls (whatever each returns) each pair has at most one physical
like record, soft-deleted ones counted, and `GetUserPostStatuses` reports the post as
liked by the user exactly when a record of the pair exists that is not soft-deleted. -/
theorem like_record_unique_and_liked_iff_active (calls : List (Env × Call)) (db : DB)
    (hK : (db.post_likes.map (fun r => (r.PostID, r.UserID))).Nodup) (p u : Nat) :
    (likeRecords (runCalls calls db) p u).length ≤ 1 ∧
    ∃ st, GetUserPostStatuses false false (runCalls calls db) u [p] = .ok st ∧
      (p ∈ st.Liked ↔ ∃ r ∈ likeRecords (runCalls calls db) p u, r.DeletedAt = none) := by
  refine ⟨filter_isPair_length_le_one p u _ (runCalls_pairs_nodup calls db hK), ?_⟩
  refine ⟨_, rfl, ?_⟩
  exact mem_pluckPostIDs_single _ p u

/-- Witness for C6: user `7` likes, unlikes and likes post `1` of `sampleDB`. -/
theorem like_unlike_like_reactivates_witness :
    (likeRecords sampleLiked 1 7).length = 1 ∧
    (∀ r ∈ likeRecords sampleLiked 1 7, r.DeletedAt = none) ∧
    (getPost sampleLiked 1).map (fun x => x.LikeCount) = some (0 + 1) :=
  like_unlike_like_reactivates (Env.ok 5 1) (Env.ok 6 2) (Env.ok 7 3)
    sampleDB sampleLiked sampleUnliked sampleLiked 1 7 0
    (by decide) (by decide) (by decide) (by decide) (by decide)

/-- Witness for C7: user `7` likes post `1` of `sampleDB` twice. -/
theorem like_twice_already_liked_witness :
    (LikePost (Env.ok 6 2) sampleLiked 1 7).1 = sampleLiked ∧
    (LikePost (Env.ok 6 2) sampleLiked 1 7).2 ≠ none ∧
    ((Env.ok 6 2).beginErr = false → (Env.ok 6 2).firstErr = false →
      (LikePost (Env.ok 6 2) sampleLiked 1 7).2 = some (.message "already liked")) ∧
    (∀ c : Int, (getPost sampleDB 1).map (fun x => x.LikeCount) = some c →
      (getPost (LikePost (Env.ok 6 2) sampleLiked 1 7).1 1).map (fun x => x.LikeCount)
        = some (c + 1)) :=
  like_twice_already_liked (Env.ok 5 1) (Env.ok 6 2) sampleDB sampleLiked 1 7 (by decide)

/-- Witness for C8: user `7` retracts a like of post `1` that is already retracted. -/
theorem unlike_without_active_like_is_noop_witness :
    (∀ r ∈ likeRecords sampleUnliked 1 7, r.DeletedAt ≠ none) ∧
    UnlikePost (Env.ok 9 2) sampleUnliked 1 7 = (sampleUnliked, none) :=
  ⟨by decide,
    (unlike_without_active_like_is_noop (Env.ok 9 2) sampleUnliked 1 7 (by decide)).2.1 rfl⟩

/-- Witness for C9: the run `sampleCalls` on `sampleDB`. -/
theorem counters_consistent_after_successful_calls_witness :
    Constraints
      { posts := [{ mkPost 1 2 with LikeCount := 1, FavoriteCount := 1 }],
        post_likes := [{ ID := 1, PostID := 1, UserID := 7, DeletedAt := some 10 },
                       { ID := 2, PostID := 1, UserID := 8, DeletedAt := none }],
        post_favorites := [{ ID := 1, PostID := 1, UserID := 7, DeletedAt := none }] } ∧
    Consistent
      { posts := [{ mkPost 1 2 with LikeCount := 1, FavoriteCount := 1 }],
        post_likes := [{ ID := 1, PostID := 1, UserID := 7, DeletedAt := some 10 },
                       { ID := 2, PostID := 1, UserID := 8, DeletedAt := none }],
        post_favorites := [{ ID := 1, PostID := 1, UserID := 7, DeletedAt := none }] } :=
  counters_consistent_after_successful_calls sampleCalls sampleDB _
    (by unfold Constraints KeysOK; decide) (by unfold Consistent; decide) (by decide)

/-- Witness for C10: the run `sampleCalls` on `sampleDB`, pair (post `1`, user `7`). -/
theorem like_record_unique_and_liked_iff_active_witness :
    (likeRecords (runCalls sampleCalls sampleDB) 1 7).length ≤ 1 ∧
    ∃ st, GetUserPostStatuses false false (runCalls sampleCalls sampleDB) 7 [1] = .ok st ∧
      (1 ∈ st.Liked ↔ ∃ r ∈ likeRecords (runCalls sampleCalls sampleDB) 1 7,
        r.DeletedAt = none) :=
  like_record_unique_and_liked_iff_active sampleCalls sampleDB (by decide) 1 7

/-! ## Theorems: failures, missing posts, likes against favorites -/

theorem swapCounters_swapCounters (p : Post) : p.swapCounters.swapCounters = p := rfl

theorem map_swapCounters_map_swapCounters (posts : List Post) :
    (posts.map Post.swapCounters).map Post.swapCounters = posts := by
  rw [List.map_map]
  exact map_eq_self _ _ (fun x _ => rfl)

theorem map_swapCounters_comp (posts : List Post) :
    posts.map (Post.swapCounters ∘ Post.swapCounters) = posts :=
  map_eq_self _ _ (fun _ _ => rfl)

theorem DB.swap_swap (db : DB) : db.swap.swap = db := by
  unfold DB.swap
  simp only [map_swapCounters_map_swapCounters]

theorem bumpPosts_swap (d : Int) (q : Nat) (posts : List Post) :
    bumpPosts .like_count d q (posts.map Post.swapCounters)
      = (bumpPosts .favorite_count d q posts).map Post.swapCounters := by
  unfold bumpPosts
  rw [List.map_map, List.map_map]
  apply List.map_congr_left
  intro x _
  simp only [Function.comp]
  have hl : isLivePost q x.swapCounters = isLivePost q x := rfl
  rw [hl]
  split <;> rfl

theorem updateCounter_swap (failed : Bool) (d : Int) (q : Nat) (posts : List Post) :
    updateCounter failed .like_count d q (posts.map Post.swapCounters)
      = (updateCounter failed .favorite_count d q posts).map (List.map Post.swapCounters) := by
  unfold updateCounter
  cases failed
  · have hany : (posts.map Post.swapCounters).any
        (fun p => isLivePost q p && !inBigint (p.counter .like_count + d))
        = posts.any (fun p => isLivePost q p && !inBigint (p.counter .favorite_count + d)) := by
      rw [List.any_map]
      rfl
    simp only [Bool.false_eq_true, if_false, hany, bumpPosts_swap]
    split <;> rfl
  · rfl

theorem FavoritePost_as_LikePost (env : Env) (db : DB) (p u : Nat) :
    (FavoritePost env db p u).1 = (LikePost env db.swap p u).1.swap ∧
    (FavoritePost env db p u).2.map Err.eraseText
      = (LikePost env db.swap p u).2.map Err.eraseText := by
  have hss := DB.swap_swap db
  have hmm := map_swapCounters_map_swapCounters db.posts
  unfold FavoritePost LikePost
  simp only [show db.swap.post_likes = db.post_favorites from rfl,
    show db.swap.posts = db.posts.map Post.swapCounters from rfl, updateCounter_swap]
  cases env.beginErr
  case true => simp [hss]
  simp only [Bool.false_eq_true, if_false]
  cases firstUnscoped env.firstErr db.post_favorites p u with
  | error e =>
    simp only []
    by_cases he : e = Err.recordNotFound
    · simp only [he, ne_eq, not_true_eq_false, if_false]
      cases create env.createErr env.newID db.post_favorites p u with
      | error e2 => simp [hss]
      | ok favs =>
        simp only []
        cases updateCounter env.counterErr Counter.favorite_count 1 p db.posts with
        | error e3 => simp [hss, Except.map]
        | ok posts =>
          simp only [Except.map]
          cases env.commitErr
          · simp [DB.swap, map_swapCounters_comp]
          · simp [hss]
    · simp [he, hss]
  | ok fav =>
    simp only []
    cases fav.DeletedAt.isSome
    · simp [hss, Err.eraseText]
    · simp only [if_true]
      cases undelete env.updateErr db.post_favorites fav.ID with
      | error e2 => simp [hss]
      | ok favs =>
        simp only []
        cases updateCounter env.counterErr Counter.favorite_count 1 p db.posts with
        | error e3 => simp [hss, Except.map]
        | ok posts =>
          simp only [Except.map]
          cases env.commitErr
          · simp [DB.swap, map_swapCounters_comp]
          · simp [hss]

theorem UnfavoritePost_as_UnlikePost (env : Env) (db : DB) (p u : Nat) :
    (UnfavoritePost env db p u).1 = (UnlikePost env db.swap p u).1.swap ∧
    (UnfavoritePost env db p u).2.map Err.eraseText
      = (UnlikePost env db.swap p u).2.map Err.eraseText := by
  have hss := DB.swap_swap db
  unfold UnfavoritePost UnlikePost
  simp only [show db.swap.post_likes = db.post_favorites from rfl,
    show db.swap.posts = db.posts.map Post.swapCounters from rfl, updateCounter_swap]
  cases softDelete env.deleteErr env.now db.post_favorites p u with
  | error e => simp [hss]
  | ok res =>
    obtain ⟨favs, n⟩ := res
    simp only []
    by_cases hn : n > 0
    · simp only [hn, if_true]
      cases updateCounter env.counterErr Counter.favorite_count (-1) p db.posts with
      | error e3 => simp [DB.swap, Except.map, map_swapCounters_comp]
      | ok posts => simp [DB.swap, Except.map, map_swapCounters_comp]
    · simp [hn, DB.swap, map_swapCounters_comp]
theorem bumpPosts_of_no_live (c : Counter) (d : Int) (db : DB) (p : Nat)
    (h : getPost db p = none) : bumpPosts c d p db.posts = db.posts := by
  unfold getPost at h
  have hall := List.find?_eq_none.mp h
  unfold bumpPosts
  exact map_eq_self _ _ (fun x hx => by simp [hall x hx])

theorem undelete_error {failed : Bool} {rows : List PostLike} {id : Nat} {e : Err}
    (h : undelete failed rows id = .error e) : e = .driver := by
  unfold undelete at h
  split at h
  · cases h; rfl
  · cases h

theorem create_error {failed : Bool} {newID p u : Nat} {rows : List PostLike} {e : Err}
    (h : create failed newID rows p u = .error e) : e = .driver ∨ e = .duplicateKey := by
  unfold create at h
  split at h
  · cases h; exact Or.inl rfl
  · split at h
    · cases h; exact Or.inr rfl
    · cases h

theorem updateCounter_error {failed : Bool} {c : Counter} {d : Int} {p : Nat}
    {posts : List Post} {e : Err} (h : updateCounter failed c d p posts = .error e) :
    e = .driver ∨ e = .outOfRange := by
  unfold updateCounter at h
  split at h
  · cases h; exact Or.inl rfl
  · split at h
    · cases h; exact Or.inr rfl
    · cases h

theorem firstUnscoped_error {failed : Bool} {rows : List PostLike} {p u : Nat} {e : Err}
    (h : firstUnscoped failed rows p u = .error e) : e = .driver ∨ e = .recordNotFound := by
  unfold firstUnscoped at h
  split at h
  · cases h; exact Or.inl rfl
  · split at h
    · cases h; exact Or.inr rfl
    · cases h

theorem LikePost_never_recordNotFound (env : Env) (db : DB) (p u : Nat) :
    (LikePost env db p u).2 ≠ some .recordNotFound := by
  unfold LikePost
  cases env.beginErr
  case true => simp
  simp only [Bool.false_eq_true, if_false]
  cases hf : firstUnscoped env.firstErr db.post_likes p u with
  | error e =>
    simp only []
    by_cases he : e = Err.recordNotFound
    · simp only [he, ne_eq, not_true_eq_false, if_false]
      cases hc : create env.createErr env.newID db.post_likes p u with
      | error e2 => rcases create_error hc with h | h <;> simp [h]
      | ok likes =>
        simp only []
        cases hu : updateCounter env.counterErr Counter.like_count 1 p db.posts with
        | error e3 => rcases updateCounter_error hu with h | h <;> simp [h]
        | ok posts => cases env.commitErr <;> simp
    · simp [he]
  | ok like =>
    simp only []
    cases like.DeletedAt.isSome
    · simp
    · simp only [if_true]
      cases hud : undelete env.updateErr db.post_likes like.ID with
      | error e2 => simp [undelete_error hud]
      | ok likes =>
        simp only []
        cases hu : updateCounter env.counterErr Counter.like_count 1 p db.posts with
        | error e3 => rcases updateCounter_error hu with h | h <;> simp [h]
        | ok posts => cases env.commitErr <;> simp

theorem FavoritePost_never_recordNotFound (env : Env) (db : DB) (p u : Nat) :
    (FavoritePost env db p u).2 ≠ some .recordNotFound := by
  intro h
  have h2 := (FavoritePost_as_LikePost env db p u).2
  rw [h] at h2
  cases hl : (LikePost env db.swap p u).2 with
  | none => simp [hl] at h2
  | some e =>
    rw [hl] at h2
    simp only [Option.map_some', Option.some.injEq] at h2
    cases e with
    | recordNotFound => exact LikePost_never_recordNotFound env db.swap p u hl
    | driver => simp [Err.eraseText] at h2
    | duplicateKey => simp [Err.eraseText] at h2
    | outOfRange => simp [Err.eraseText] at h2
    | foreignKey => simp [Err.eraseText] at h2
    | message s => simp [Err.eraseText] at h2

theorem LikePost_fresh_pair (now newID : Nat) (db : DB) (p u : Nat)
    (hmiss : getPost db p = none) (hno : db.post_likes.filter (isPair p u) = [])
    (hid : ∀ r ∈ db.post_likes, r.ID ≠ newID) :
    LikePost (Env.ok now newID) db p u
      = ({ db with post_likes := db.post_likes ++
            [{ ID := newID, PostID := p, UserID := u, DeletedAt := none }] }, none) := by
  have hany : db.post_likes.any (fun r => decide (r.ID = newID) || isPair p u r) = false := by
    rw [List.any_eq_false]
    intro r hr
    have h1 := hid r hr
    have h2 : isPair p u r = false := by
      cases hp : isPair p u r with
      | false => rfl
      | true =>
        have : r ∈ db.post_likes.filter (isPair p u) := List.mem_filter.mpr ⟨hr, hp⟩
        rw [hno] at this
        exact absurd this (List.not_mem_nil _)
    simp [h1, h2]
  have hlive : db.posts.any
      (fun x => isLivePost p x && !inBigint (x.counter Counter.like_count + 1)) = false := by
    rw [List.any_eq_false]
    intro x hx
    have := List.find?_eq_none.mp hmiss x hx
    simp [this]
  unfold LikePost firstUnscoped create updateCounter
  simp [Env.ok, hno, firstByID, hany, hlive, bumpPosts_of_no_live _ _ db p hmiss]

theorem FavoritePost_fresh_pair (now newID : Nat) (db : DB) (p u : Nat)
    (hmiss : getPost db p = none) (hno : db.post_favorites.filter (isPair p u) = [])
    (hid : ∀ r ∈ db.post_favorites, r.ID ≠ newID) :
    FavoritePost (Env.ok now newID) db p u
      = ({ db with post_favorites := db.post_favorites ++
            [{ ID := newID, PostID := p, UserID := u, DeletedAt := none }] }, none) := by
  have hany : db.post_favorites.any (fun r => decide (r.ID = newID) || isPair p u r)
      = false := by
    rw [List.any_eq_false]
    intro r hr
    have h1 := hid r hr
    have h2 : isPair p u r = false := by
      cases hp : isPair p u r with
      | false => rfl
      | true =>
        have : r ∈ db.post_favorites.filter (isPair p u) := List.mem_filter.mpr ⟨hr, hp⟩
        rw [hno] at this
        exact absurd this (List.not_mem_nil _)
    simp [h1, h2]
  have hlive : db.posts.any
      (fun x => isLivePost p x && !inBigint (x.counter Counter.favorite_count + 1))
        = false := by
    rw [List.any_eq_false]
    intro x hx
    have := List.find?_eq_none.mp hmiss x hx
    simp [this]
  unfold FavoritePost firstUnscoped create updateCounter
  simp [Env.ok, hno, firstByID, hany, hlive, bumpPosts_of_no_live _ _ db p hmiss]

theorem LikePost_posts_of_missing (env : Env) (db : DB) (p u : Nat)
    (hmiss : getPost db p = none) : (LikePost env db p u).1.posts = db.posts := by
  cases hr : LikePost env db p u with
  | mk db1 err =>
    cases err with
    | some e => rw [LikePost_error_unchanged hr]
    | none =>
      obtain ⟨_, _, rows2, _, hdb1⟩ := LikePost_ok_inv hr
      rw [hdb1]
      exact bumpPosts_of_no_live _ _ db p hmiss

theorem FavoritePost_posts_of_missing (env : Env) (db : DB) (p u : Nat)
    (hmiss : getPost db p = none) : (FavoritePost env db p u).1.posts = db.posts := by
  cases hr : FavoritePost env db p u with
  | mk db1 err =>
    cases err with
    | some e => rw [FavoritePost_error_unchanged hr]
    | none =>
      obtain ⟨_, _, rows2, _, hdb1⟩ := FavoritePost_ok_inv hr
      rw [hdb1]
      exact bumpPosts_of_no_live _ _ db p hmiss
/-! ### Claims C11 to C13 -/

/-- C11, the code at a failing input: user `7` has an active like (favorite) on post `1`
and the counter update fails in the driver after the soft delete went through.
`UnlikePost` (`UnfavoritePost`) returns the error, yet the record is soft-deleted and the
counter still holds `1`: nothing rolls the first statement back. -/
theorem UnlikePost_error_leaves_record_retracted :
    UnlikePost (Env.counterFails 6 2) sampleLiked 1 7
      = ({ posts := [{ mkPost 1 2 with LikeCount := 1 }],
           post_likes := [{ ID := 1, PostID := 1, UserID := 7, DeletedAt := some 6 }],
           post_favorites := [] }, some .driver) ∧
    UnfavoritePost (Env.counterFails 6 2) sampleFavorited 1 7
      = ({ posts := [{ mkPost 1 2 with FavoriteCount := 1 }],
           post_likes := [],
           post_favorites := [{ ID := 1, PostID := 1, UserID := 7, DeletedAt := some 6 }] },
         some .driver) := by
  constructor <;> decide

/-- C12 refuted at an input: post id `99` references no post of `sampleDB`, and still
`LikePost` and `FavoritePost` return `nil` and create an active record for the pair. -/
theorem like_missing_post_succeeds :
    getPost sampleDB 99 = none ∧
    LikePost (Env.ok 5 1) sampleDB 99 7
      = ({ posts := [mkPost 1 2],
           post_likes := [{ ID := 1, PostID := 99, UserID := 7, DeletedAt := none }],
           post_favorites := [] }, none) ∧
    FavoritePost (Env.ok 5 1) sampleDB 99 7
      = ({ posts := [mkPost 1 2],
           post_likes := [],
           post_favorites := [{ ID := 1, PostID := 99, UserID := 7, DeletedAt := none }] },
         none) := by
  refine ⟨by decide, by decide, by decide⟩

/-- C12 as amended: for a post id that references no existing post, `LikePost` and
`FavoritePost` make no existence check: they never return a not-found error and never
change a post row; when no statement fails in the driver, the pair has no record yet and
the assigned id is unused, they return `nil` and append an active record for the pair. -/
theorem like_missing_post_not_checked (env : Env) (now newID : Nat) (db : DB) (p u : Nat)
    (hmiss : getPost db p = none) :
    (LikePost env db p u).2 ≠ some .recordNotFound ∧
    (FavoritePost env db p u).2 ≠ some .recordNotFound ∧
    (LikePost env db p u).1.posts = db.posts ∧
    (FavoritePost env db p u).1.posts = db.posts ∧
    (db.post_likes.filter (isPair p u) = [] → (∀ r ∈ db.post_likes, r.ID ≠ newID) →
      LikePost (Env.ok now newID) db p u
        = ({ db with post_likes := db.post_likes ++
              [{ ID := newID, PostID := p, UserID := u, DeletedAt := none }] }, none)) ∧
    (db.post_favorites.filter (isPair p u) = [] →
      (∀ r ∈ db.post_favorites, r.ID ≠ newID) →
      FavoritePost (Env.ok now newID) db p u
        = ({ db with post_favorites := db.post_favorites ++
              [{ ID := newID, PostID := p, UserID := u, DeletedAt := none }] }, none)) := by
  refine ⟨LikePost_never_recordNotFound env db p u,
    FavoritePost_never_recordNotFound env db p u,
    LikePost_posts_of_missing env db p u hmiss,
    FavoritePost_posts_of_missing env db p u hmiss, ?_, ?_⟩
  · intro hno hid
    exact LikePost_fresh_pair now newID db p u hmiss hno hid
  · intro hno hid
    exact FavoritePost_fresh_pair now newID db p u hmiss hno hid

/-- Witness for C12 as amended: post id `99` on `sampleLiked`, user `7`, new record id `2`. -/
theorem like_missing_post_not_checked_witness :
    getPost sampleLiked 99 = none ∧
    LikePost (Env.ok 5 2) sampleLiked 99 7
      = ({ sampleLiked with post_likes := sampleLiked.post_likes ++
            [{ ID := 2, PostID := 99, UserID := 7, DeletedAt := none }] }, none) :=
  ⟨by decide,
    (like_missing_post_not_checked (Env.ok 5 2) 5 2 sampleLiked 99 7 (by decide)).2.2.2.2.1
      (by decide) (by decide)⟩

/-- C13: under the exchange of likes with favorites (the two tables and the two counters
of every post), `FavoritePost` is `LikePost` and `UnfavoritePost` is `UnlikePost`: from
every store and for every outcome of the driver the resulting stores correspond, and the
returned errors are the same up to the text of the conflict message. -/
theorem favorite_mirrors_like (env : Env) (db : DB) (p u : Nat) :
    ((FavoritePost env db p u).1 = (LikePost env db.swap p u).1.swap ∧
      (FavoritePost env db p u).2.map Err.eraseText
        = (LikePost env db.swap p u).2.map Err.eraseText) ∧
    ((UnfavoritePost env db p u).1 = (UnlikePost env db.swap p u).1.swap ∧
      (UnfavoritePost env db p u).2.map Err.eraseText
        = (UnlikePost env db.swap p u).2.map Err.eraseText) := by
  constructor
  · exact FavoritePost_as_LikePost env db p u
  · exact UnfavoritePost_as_UnlikePost env db p u

/-! ## Theorems: permissions and the credential check -/

theorem mem_mapInsert {m : List String} {k x : String} :
    x ∈ mapInsert m k ↔ x ∈ m ∨ x = k := by
  unfold mapInsert
  split
  · rename_i hk
    constructor
    · intro h; exact Or.inl h
    · rintro (h | h)
      · exact h
      · rw [h]; exact hk
  · simp

theorem nodup_mapInsert {m : List String} (k : String) (h : m.Nodup) :
    (mapInsert m k).Nodup := by
  unfold mapInsert
  split
  · exact h
  · rename_i hk
    refine List.Nodup.append h (List.nodup_singleton _) ?_
    intro x hx1 hx2
    rw [List.mem_singleton] at hx2
    exact hk (hx2 ▸ hx1)

theorem foldl_names_spec (ps : List Permission) :
    ∀ m : List String, m.Nodup →
      (ps.foldl (fun m p => mapInsert m p.Name) m).Nodup ∧
      ∀ x, x ∈ ps.foldl (fun m p => mapInsert m p.Name) m ↔
        x ∈ m ∨ ∃ p ∈ ps, p.Name = x := by
  induction ps with
  | nil => intro m hm; exact ⟨hm, fun x => by simp⟩
  | cons a rs ih =>
    intro m hm
    simp only [List.foldl_cons]
    obtain ⟨h1, h2⟩ := ih (mapInsert m a.Name) (nodup_mapInsert _ hm)
    refine ⟨h1, fun x => ?_⟩
    rw [h2, mem_mapInsert]
    constructor
    · rintro ((h | h) | ⟨p, hp, hpx⟩)
      · exact Or.inl h
      · exact Or.inr ⟨a, List.mem_cons_self _ _, h.symm⟩
      · exact Or.inr ⟨p, List.mem_cons_of_mem _ hp, hpx⟩
    · rintro (h | ⟨p, hp, hpx⟩)
      · exact Or.inl (Or.inl h)
      · rcases List.mem_cons.mp hp with rfl | hp2
        · exact Or.inl (Or.inr hpx.symm)
        · exact Or.inr ⟨p, hp2, hpx⟩

theorem foldl_groups_spec (pgs : List PermissionGroup) :
    ∀ m : List String, m.Nodup →
      (pgs.foldl (fun m pg => pg.Permissions.foldl (fun m2 p => mapInsert m2 p.Name) m)
        m).Nodup ∧
      ∀ x, x ∈ pgs.foldl
          (fun m pg => pg.Permissions.foldl (fun m2 p => mapInsert m2 p.Name) m) m ↔
        x ∈ m ∨ ∃ pg ∈ pgs, ∃ p ∈ pg.Permissions, p.Name = x := by
  induction pgs with
  | nil => intro m hm; exact ⟨hm, fun x => by simp⟩
  | cons g rs ih =>
    intro m hm
    simp only [List.foldl_cons]
    obtain ⟨g1, g2⟩ := foldl_names_spec g.Permissions m hm
    obtain ⟨h1, h2⟩ := ih _ g1
    refine ⟨h1, fun x => ?_⟩
    rw [h2, g2]
    constructor
    · rintro ((h | ⟨p, hp, hpx⟩) | ⟨pg, hpg, p, hp, hpx⟩)
      · exact Or.inl h
      · exact Or.inr ⟨g, List.mem_cons_self _ _, p, hp, hpx⟩
      · exact Or.inr ⟨pg, List.mem_cons_of_mem _ hpg, p, hp, hpx⟩
    · rintro (h | ⟨pg, hpg, p, hp, hpx⟩)
      · exact Or.inl (Or.inl h)
      · rcases List.mem_cons.mp hpg with rfl | hpg2
        · exact Or.inl (Or.inr ⟨p, hp, hpx⟩)
        · exact Or.inr ⟨pg, hpg2, p, hp, hpx⟩

theorem collectPermSet_spec (role : Role) :
    (collectPermSet role).Nodup ∧
    ∀ x, x ∈ collectPermSet role ↔
      (∃ p ∈ role.Permissions, p.Name = x) ∨
      ∃ pg ∈ role.PermissionGroups, ∃ p ∈ pg.Permissions, p.Name = x := by
  unfold collectPermSet
  obtain ⟨h1, h2⟩ := foldl_names_spec role.Permissions [] List.nodup_nil
  obtain ⟨g1, g2⟩ := foldl_groups_spec role.PermissionGroups _ h1
  refine ⟨g1, fun x => ?_⟩
  rw [g2, h2]
  simp

theorem mem_ToSet (arr : List String) (x : String) : x ∈ ToSet arr ↔ x ∈ arr := by
  have key : ∀ (l m : List String), x ∈ l.foldl mapInsert m ↔ x ∈ m ∨ x ∈ l := by
    intro l
    induction l with
    | nil => intro m; simp
    | cons a rs ih =>
      intro m
      simp only [List.foldl_cons]
      rw [ih, mem_mapInsert, List.mem_cons]
      constructor
      · rintro ((h | h) | h)
        · exact Or.inl h
        · exact Or.inr (Or.inl h)
        · exact Or.inr (Or.inr h)
      · rintro (h | h | h)
        · exact Or.inl (Or.inl h)
        · exact Or.inl (Or.inr h)
        · exact Or.inr h
  unfold ToSet
  rw [key]
  simp

/-! ### The order of strings and `StringSlicesEqual` -/

theorem charsLe_total : ∀ a b : List Char, charsLe a b = true ∨ charsLe b a = true := by
  intro a
  induction a with
  | nil => intro b; exact Or.inl (by simp [charsLe])
  | cons x xs ih =>
    intro b
    cases b with
    | nil => exact Or.inr (by simp [charsLe])
    | cons y ys =>
      simp only [charsLe]
      rcases lt_trichotomy x y with h | h | h
      · simp [h]
      · subst h
        simp only [lt_self_iff_false, if_false]
        exact ih ys
      · simp [h]

theorem charsLe_antisymm : ∀ a b : List Char, charsLe a b = true → charsLe b a = true →
    a = b := by
  intro a
  induction a with
  | nil =>
    intro b _ h2
    cases b with
    | nil => rfl
    | cons y ys => simp [charsLe] at h2
  | cons x xs ih =>
    intro b h1 h2
    cases b with
    | nil => simp [charsLe] at h1
    | cons y ys =>
      simp only [charsLe] at h1 h2
      rcases lt_trichotomy x y with h | h | h
      · have hn : ¬ y < x := not_lt_of_lt h
        simp [h, hn] at h2
      · subst h
        simp only [lt_self_iff_false, if_false] at h1 h2
        rw [ih ys h1 h2]
      · have hn : ¬ x < y := not_lt_of_lt h
        simp [h, hn] at h1

theorem charsLe_trans : ∀ a b c : List Char, charsLe a b = true → charsLe b c = true →
    charsLe a c = true := by
  intro a
  induction a with
  | nil => intro b c _ _; simp [charsLe]
  | cons x xs ih =>
    intro b c h1 h2
    cases b with
    | nil => simp [charsLe] at h1
    | cons y ys =>
      cases c with
      | nil => simp [charsLe] at h2
      | cons z zs =>
        simp only [charsLe] at h1 h2 ⊢
        by_cases hxy : x < y
        · by_cases hyz : y < z
          · simp [lt_trans hxy hyz]
          · by_cases hzy : z < y
            · simp [hyz, hzy] at h2
            · have : y = z := le_antisymm (not_lt.mp hzy) (not_lt.mp hyz)
              subst this
              simp [hxy]
        · by_cases hyx : y < x
          · simp [hxy, hyx] at h1
          · have hxe : x = y := le_antisymm (not_lt.mp hyx) (not_lt.mp hxy)
            subst hxe
            simp only [lt_self_iff_false, if_false] at h1
            by_cases hyz : x < z
            · simp [hyz]
            · by_cases hzy : z < x
              · simp [hyz, hzy] at h2
              · simp only [hyz, hzy, if_false] at h2 ⊢
                exact ih ys zs h1 h2

theorem strLe_total (a b : String) : strLe a b = true ∨ strLe b a = true :=
  charsLe_total a.data b.data

theorem strLe_trans (a b c : String) (h1 : strLe a b = true) (h2 : strLe b c = true) :
    strLe a c = true :=
  charsLe_trans a.data b.data c.data h1 h2

theorem strLe_antisymm (a b : String) (h1 : strLe a b = true) (h2 : strLe b a = true) :
    a = b :=
  String.ext (charsLe_antisymm a.data b.data h1 h2)

theorem sortStrings_perm (l : List String) : (sortStrings l).Perm l :=
  List.perm_insertionSort _ l

theorem sortStrings_eq_of_perm {a b : List String} (h : a.Perm b) :
    sortStrings a = sortStrings b := by
  haveI : IsTotal String (fun a b => strLe a b = true) := ⟨strLe_total⟩
  haveI : IsTrans String (fun a b => strLe a b = true) := ⟨strLe_trans⟩
  haveI : IsAntisymm String (fun a b => strLe a b = true) := ⟨strLe_antisymm⟩
  apply List.eq_of_perm_of_sorted (r := fun a b => strLe a b = true)
  · exact ((sortStrings_perm a).trans h).trans (sortStrings_perm b).symm
  · exact List.sorted_insertionSort _ a
  · exact List.sorted_insertionSort _ b

theorem slicesAgree_self : ∀ l : List String, slicesAgree l l = true := by
  intro l
  induction l with
  | nil => rfl
  | cons x xs ih => simp [slicesAgree, ih]

theorem eq_of_slicesAgree : ∀ a b : List String, a.length = b.length →
    slicesAgree a b = true → a = b := by
  intro a
  induction a with
  | nil =>
    intro b hl _
    cases b with
    | nil => rfl
    | cons y ys => simp at hl
  | cons x xs ih =>
    intro b hl h
    cases b with
    | nil => simp at hl
    | cons y ys =>
      simp only [slicesAgree] at h
      by_cases hxy : x = y
      · subst hxy
        simp only [bne_self_eq_false, Bool.false_eq_true, if_false] at h
        rw [ih ys (by simpa using hl) h]
      · simp [hxy] at h

theorem StringSlicesEqual_iff_perm (a b : List String) :
    StringSlicesEqual a b = true ↔ a.Perm b := by
  unfold StringSlicesEqual
  constructor
  · intro h
    by_cases hl : a.length = b.length
    · simp only [hl, bne_self_eq_false, Bool.false_eq_true, if_false] at h
      have hlen : (sortStrings a).length = (sortStrings b).length := by
        rw [(sortStrings_perm a).length_eq, (sortStrings_perm b).length_eq, hl]
      have heq := eq_of_slicesAgree _ _ hlen h
      exact ((sortStrings_perm a).symm.trans (heq ▸ List.Perm.refl _)).trans
        (sortStrings_perm b)
    · simp [hl] at h
  · intro h
    simp only [h.length_eq, bne_self_eq_false, Bool.false_eq_true, if_false]
    rw [sortStrings_eq_of_perm h]
    exact slicesAgree_self _
theorem GetUserWithPermissions_ok (ro : RangeOrder) (load : Nat → Except Err User)
    (uid : Nat) (user : User) (role : Role) (hl : load uid = .ok user)
    (hr : user.Role = some role) :
    GetUserWithPermissions ro load uid = .ok (ro.visit (collectPermSet role)) := by
  unfold GetUserWithPermissions
  simp only [hl, hr]

theorem splitSpace_empty : splitSpace "" = [""] := by decide

theorem JWT_after_checks (permission : String) (ro : RangeOrder)
    (ParseToken : String → Except Err Claims) (load : Nat → Except Err User)
    (tokenString token : String) (claims : Claims) (perms : List String)
    (hsplit : splitSpace tokenString = ["Bearer", token])
    (hparse : ParseToken token = .ok claims)
    (hlive : GetUserWithPermissions ro load claims.Uid = .ok perms) :
    JWT permission ro ParseToken load tokenString
      = if !StringSlicesEqual perms claims.Permissions then
          Context.abort 403 " permission change"
        else if permission ≠ "" ∧ permission ∉ ToSet claims.Permissions then
          Context.abort 403 "Unauthorized permission"
        else
          { reply := none, aborted := false, uid := some claims.Uid,
            permissions := some claims.Permissions, nextRan := true, panicked := false } := by
  have hne : tokenString ≠ "" := by
    intro h
    rw [h, splitSpace_empty] at hsplit
    simp at hsplit
  unfold JWT
  simp only [hne, if_false, hsplit, ne_eq, not_true_eq_false, hparse, hlive]

/-! ### Claims C14 to C18 -/

/-- C14: for a user record that loads with its role, `GetUserWithPermissions` returns,
whatever the iteration order of the map, a list with no repeated name that holds a name
exactly when a direct permission of the role or a permission of one of the role's groups
has that name; for the role with direct permission `blog:write` and one group holding
`blog:review` the result is a reordering of `blog:write`, `blog:review`. -/
theorem GetUserWithPermissions_effective (ro : RangeOrder) (load : Nat → Except Err User)
    (uid : Nat) (user : User) (role : Role) (hl : load uid = .ok user)
    (hr : user.Role = some role) :
    (∃ perms, GetUserWithPermissions ro load uid = .ok perms ∧ perms.Nodup ∧
      ∀ n, n ∈ perms ↔
        (∃ p ∈ role.Permissions, p.Name = n) ∨
        ∃ pg ∈ role.PermissionGroups, ∃ p ∈ pg.Permissions, p.Name = n) ∧
    (∀ ro2 : RangeOrder, ∃ perms2, GetUserWithPermissions ro2 sampleLoad 1 = .ok perms2 ∧
      perms2.Perm ["blog:write", "blog:review"]) := by
  constructor
  · refine ⟨ro.visit (collectPermSet role), GetUserWithPermissions_ok ro load uid user role hl hr,
      ?_, ?_⟩
    · exact ((ro.perm _).nodup_iff).mpr (collectPermSet_spec role).1
    · intro n
      rw [(ro.perm _).mem_iff]
      exact (collectPermSet_spec role).2 n
  · intro ro2
    refine ⟨ro2.visit (collectPermSet sampleRole),
      GetUserWithPermissions_ok ro2 sampleLoad 1 sampleUser sampleRole rfl rfl, ?_⟩
    have hc : collectPermSet sampleRole = ["blog:write", "blog:review"] := by decide
    rw [← hc]
    exact ro2.perm _

/-- Witness for C14: the user of the spec's example, with the map visited in reverse
insertion order. -/
theorem GetUserWithPermissions_effective_witness :
    GetUserWithPermissions reverseOrder sampleLoad 1 = .ok ["blog:review", "blog:write"] ∧
    ((∃ perms, GetUserWithPermissions reverseOrder sampleLoad 1 = .ok perms ∧ perms.Nodup ∧
      ∀ n, n ∈ perms ↔
        (∃ p ∈ sampleRole.Permissions, p.Name = n) ∨
        ∃ pg ∈ sampleRole.PermissionGroups, ∃ p ∈ pg.Permissions, p.Name = n) ∧
    (∀ ro2 : RangeOrder, ∃ perms2, GetUserWithPermissions ro2 sampleLoad 1 = .ok perms2 ∧
      perms2.Perm ["blog:write", "blog:review"])) :=
  ⟨by decide,
    GetUserWithPermissions_effective reverseOrder sampleLoad 1 sampleUser sampleRole
      rfl rfl⟩

/-- C15: on a request whose header splits into `Bearer` and a token that parses, with
the live permission list of the token's user computed, the JWT middleware aborts with
403 and the permission-change message exactly when the live list and the embedded list
are not the same up to order, in particular whenever a name is in one of them and not in
the other; the aborted request has no `uid` and no `permissions` key and the next handler
does not run. -/
theorem JWT_rejects_permission_drift (permission : String) (ro : RangeOrder)
    (ParseToken : String → Except Err Claims) (load : Nat → Except Err User)
    (tokenString token : String) (claims : Claims) (perms : List String)
    (hsplit : splitSpace tokenString = ["Bearer", token])
    (hparse : ParseToken token = .ok claims)
    (hlive : GetUserWithPermissions ro load claims.Uid = .ok perms) :
    (JWT permission ro ParseToken load tokenString = Context.abort 403 " permission change"
      ↔ ¬ perms.Perm claims.Permissions) ∧
    (¬ perms.Perm claims.Permissions →
      (JWT permission ro ParseToken load tokenString).reply
          = some (.error 403 " permission change") ∧
      (JWT permission ro ParseToken load tokenString).aborted = true ∧
      (JWT permission ro ParseToken load tokenString).uid = none ∧
      (JWT permission ro ParseToken load tokenString).permissions = none ∧
      (JWT permission ro ParseToken load tokenString).nextRan = false) ∧
    ((∃ n, (n ∈ perms ∧ n ∉ claims.Permissions) ∨ (n ∉ perms ∧ n ∈ claims.Permissions)) →
      JWT permission ro ParseToken load tokenString
        = Context.abort 403 " permission change") := by
  have hj := JWT_after_checks permission ro ParseToken load tokenString token claims perms
    hsplit hparse hlive
  have hiff := StringSlicesEqual_iff_perm perms claims.Permissions
  have hdrift : ¬ perms.Perm claims.Permissions →
      JWT permission ro ParseToken load tokenString
        = Context.abort 403 " permission change" := by
    intro hnp
    have hf : StringSlicesEqual perms claims.Permissions = false := by
      cases hs : StringSlicesEqual perms claims.Permissions with
      | false => rfl
      | true => exact absurd (hiff.mp hs) hnp
    rw [hj, hf]
    rfl
  refine ⟨⟨?_, hdrift⟩, ?_, ?_⟩
  · intro habort hp
    have ht : StringSlicesEqual perms claims.Permissions = true := hiff.mpr hp
    rw [hj, ht] at habort
    simp only [Bool.not_true, Bool.false_eq_true, if_false] at habort
    split at habort
    · simp [Context.abort] at habort
    · simp [Context.abort] at habort
  · intro hnp
    rw [hdrift hnp]
    exact ⟨rfl, rfl, rfl, rfl, rfl⟩
  · rintro ⟨n, hn⟩
    apply hdrift
    intro hp
    rcases hn with ⟨h1, h2⟩ | ⟨h1, h2⟩
    · exact h2 (hp.mem_iff.mp h1)
    · exact h1 (hp.mem_iff.mpr h2)

/-- Witness for C15: the token `t1` embeds `blog:write` only, while the live list of user
`1` also holds `blog:review`. -/
theorem JWT_rejects_permission_drift_witness :
    JWT "" insertionOrder sampleParse sampleLoad "Bearer t1"
      = Context.abort 403 " permission change" :=
  (JWT_rejects_permission_drift "" insertionOrder sampleParse sampleLoad "Bearer t1" "t1"
    (sampleClaims ["blog:write"]) ["blog:write", "blog:review"]
    (by decide) rfl (by decide)).2.2
    ⟨"blog:review", Or.inl ⟨by decide, by decide⟩⟩

/-- C16 refuted at an input: the two lists hold the same set of strings, `a` and `b`, and
`StringSlicesEqual` returns false, because the multiplicities differ. -/
theorem StringSlicesEqual_same_set_false :
    (∀ s, s ∈ ["a", "a", "b"] ↔ s ∈ ["a", "b", "b"]) ∧
    StringSlicesEqual ["a", "a", "b"] ["a", "b", "b"] = false := by
  refine ⟨fun s => ?_, by decide⟩
  simp only [List.mem_cons, List.mem_singleton, List.not_mem_nil, or_false]
  tauto

/-- C16 as amended: `StringSlicesEqual a b` is true exactly when every string occurs
as often in `a` as in `b`; the result does not change when either list is reordered;
when it is true the two lists hold the same set of strings, and for two lists without
repeated strings it is true exactly when they hold the same set. -/
theorem StringSlicesEqual_iff_same_counts (a b : List String) :
    (StringSlicesEqual a b = true ↔ ∀ s, a.count s = b.count s) ∧
    (∀ a2 b2 : List String, a2.Perm a → b2.Perm b →
      StringSlicesEqual a2 b2 = StringSlicesEqual a b) ∧
    (StringSlicesEqual a b = true → ∀ s, s ∈ a ↔ s ∈ b) ∧
    (a.Nodup → b.Nodup → (StringSlicesEqual a b = true ↔ ∀ s, s ∈ a ↔ s ∈ b)) := by
  refine ⟨?_, ?_, ?_, ?_⟩
  · rw [StringSlicesEqual_iff_perm]
    exact List.perm_iff_count
  · intro a2 b2 ha hb
    have h1 := StringSlicesEqual_iff_perm a2 b2
    have h2 := StringSlicesEqual_iff_perm a b
    cases h : StringSlicesEqual a b with
    | true =>
      exact h1.mpr ((ha.trans (h2.mp h)).trans hb.symm)
    | false =>
      cases h3 : StringSlicesEqual a2 b2 with
      | false => rfl
      | true =>
        have := h2.mpr ((ha.symm.trans (h1.mp h3)).trans hb)
        rw [h] at this
        exact absurd this (by simp)
  · intro h s
    exact ((StringSlicesEqual_iff_perm a b).mp h).mem_iff
  · intro ha hb
    rw [StringSlicesEqual_iff_perm]
    exact List.perm_ext_iff_of_nodup ha hb

/-- Witness for C16 as amended: two lists without repetition that hold the same two names
in different orders. -/
theorem StringSlicesEqual_iff_same_counts_witness :
    StringSlicesEqual ["blog:write", "blog:review"] ["blog:review", "blog:write"] = true :=
  ((StringSlicesEqual_iff_same_counts ["blog:write", "blog:review"]
      ["blog:review", "blog:write"]).2.2.2 (by decide) (by decide)).mpr
    (fun s => by
      simp only [List.mem_cons, List.mem_singleton, List.not_mem_nil, or_false]
      tauto)

/-- C17: on a request that passed the permission-drift comparison, for an endpoint that
requires the non-empty permission name `permission`, the JWT middleware sets `uid` and
`permissions` and runs the next handler when the name is in the live permission list, and
aborts with 403 `Unauthorized permission` when it is not. -/
theorem JWT_checks_required_permission (permission : String) (ro : RangeOrder)
    (ParseToken : String → Except Err Claims) (load : Nat → Except Err User)
    (tokenString token : String) (claims : Claims) (perms : List String)
    (hsplit : splitSpace tokenString = ["Bearer", token])
    (hparse : ParseToken token = .ok claims)
    (hlive : GetUserWithPermissions ro load claims.Uid = .ok perms)
    (hsame : StringSlicesEqual perms claims.Permissions = true)
    (hreq : permission ≠ "") :
    (permission ∈ perms →
      JWT permission ro ParseToken load tokenString
        = { reply := none, aborted := false, uid := some claims.Uid,
            permissions := some claims.Permissions, nextRan := true, panicked := false }) ∧
    (permission ∉ perms →
      JWT permission ro ParseToken load tokenString
        = Context.abort 403 "Unauthorized permission") ∧
    ((JWT permission ro ParseToken load tokenString).nextRan = true ↔ permission ∈ perms) := by
  have hj := JWT_after_checks permission ro ParseToken load tokenString token claims perms
    hsplit hparse hlive
  have hp := (StringSlicesEqual_iff_perm perms claims.Permissions).mp hsame
  have hmem : permission ∈ ToSet claims.Permissions ↔ permission ∈ perms := by
    rw [mem_ToSet]
    exact hp.mem_iff.symm
  rw [hsame] at hj
  simp only [Bool.not_true, Bool.false_eq_true, if_false, hmem] at hj
  have hin : permission ∈ perms →
      JWT permission ro ParseToken load tokenString
        = { reply := none, aborted := false, uid := some claims.Uid,
            permissions := some claims.Permissions, nextRan := true, panicked := false } := by
    intro h
    rw [hj, if_neg (fun hc => hc.2 h)]
  have hout : permission ∉ perms →
      JWT permission ro ParseToken load tokenString
        = Context.abort 403 "Unauthorized permission" := by
    intro h
    rw [hj, if_pos ⟨hreq, h⟩]
  refine ⟨hin, hout, ?_⟩
  constructor
  · intro hn
    by_contra hc
    rw [hout hc] at hn
    simp [Context.abort] at hn
  · intro h
    rw [hin h]

/-- Witness for C17: the token `t2` embeds the live list of user `1` in another order;
the endpoint requires `blog:write`. -/
theorem JWT_checks_required_permission_witness :
    JWT "blog:write" insertionOrder sampleParse sampleLoad "Bearer t2"
      = { reply := none, aborted := false, uid := some 1,
          permissions := some ["blog:review", "blog:write"], nextRan := true,
          panicked := false } :=
  (JWT_checks_required_permission "blog:write" insertionOrder sampleParse sampleLoad
    "Bearer t2" "t2" (sampleClaims ["blog:review", "blog:write"])
    ["blog:write", "blog:review"] (by decide) rfl (by decide) (by decide)
    (by decide)).1 (by decide)

/-- C18 refuted at an input: for the user of the spec's example, with the map visited in
insertion order, `HandleLogin` hands the signer the list `blog:write`, `blog:review`,
which is not in ascending order. -/
theorem HandleLogin_embeds_unsorted_list :
    (HandleLogin insertionOrder sampleLoad 5 sampleSign (.ok sampleUser)).issued.map
        (fun c => c.Permissions) = some ["blog:write", "blog:review"] ∧
    strLe "blog:write" "blog:review" = false ∧
    sortStrings ["blog:write", "blog:review"] ≠ ["blog:write", "blog:review"] := by
  refine ⟨by decide, by decide, by decide⟩

/-- C18 as amended: for a user whose record loads with its role, the permission list that
`HandleLogin` hands to the signer (and sends in the response when signing succeeds) is
the list `GetUserWithPermissions` returned, unchanged: no repeated name, the names of the
role's permission set, in the order in which the map was visited. -/
theorem HandleLogin_embeds_live_list (ro : RangeOrder) (load : Nat → Except Err User)
    (now : Nat) (sign : Claims → Except Err String) (user loaded : User) (role : Role)
    (hl : load user.ID = .ok loaded) (hr : loaded.Role = some role) :
    ∃ claims, (HandleLogin ro load now sign (.ok user)).issued = some claims ∧
      GetUserWithPermissions ro load user.ID = .ok claims.Permissions ∧
      claims.Permissions = ro.visit (collectPermSet role) ∧
      claims.Permissions.Nodup ∧
      ((HandleLogin ro load now sign (.ok user)).reply = some (.success 200 "success") →
        (HandleLogin ro load now sign (.ok user)).permissions = some claims.Permissions) := by
  have hg := GetUserWithPermissions_ok ro load user.ID loaded role hl hr
  have hnd : (ro.visit (collectPermSet role)).Nodup :=
    ((ro.perm _).nodup_iff).mpr (collectPermSet_spec role).1
  unfold HandleLogin
  simp only [hg]
  cases GenerateToken now sign user.ID user.Email user.Avatar user.Username user.Github
      (ro.visit (collectPermSet role)) with
  | error e => exact ⟨_, rfl, rfl, rfl, hnd, fun h => by simp at h⟩
  | ok t => exact ⟨_, rfl, rfl, rfl, hnd, fun _ => rfl⟩

/-- Witness for C18 as amended: the user of the spec's example, map visited in reverse
insertion order. -/
theorem HandleLogin_embeds_live_list_witness :
    sampleLoad sampleUser.ID = .ok sampleUser ∧
    ∃ claims, (HandleLogin reverseOrder sampleLoad 5 sampleSign (.ok sampleUser)).issued
        = some claims ∧
      GetUserWithPermissions reverseOrder sampleLoad sampleUser.ID = .ok claims.Permissions ∧
      claims.Permissions = reverseOrder.visit (collectPermSet sampleRole) ∧
      claims.Permissions.Nodup ∧
      ((HandleLogin reverseOrder sampleLoad 5 sampleSign (.ok sampleUser)).reply
          = some (.success 200 "success") →
        (HandleLogin reverseOrder sampleLoad 5 sampleSign (.ok sampleUser)).permissions
          = some claims.Permissions) :=
  ⟨rfl,
    HandleLogin_embeds_live_list reverseOrder sampleLoad 5 sampleSign sampleUser sampleUser
      sampleRole rfl rfl⟩

/-! ## Theorems: the follow graph -/

theorem uintOfInt_natCast (n : Nat) (h : n < 2 ^ 64) : uintOfInt (n : Int) = n := by
  unfold uintOfInt
  have h2 : ((n : Int) % 2 ^ 64) = (n : Int) := by
    apply Int.emod_eq_of_lt
    · exact Int.ofNat_nonneg n
    · exact_mod_cast h
  rw [h2]
  exact Int.toNat_ofNat n

theorem GetUserById_of_missing (failed : Bool) (fdb : FollowDB) (id : Nat)
    (h : ∀ u ∈ fdb.users, isLiveUser id u = false) :
    ∃ e, GetUserById failed fdb id = .error e := by
  unfold GetUserById
  cases failed
  · have hf : fdb.users.find? (isLiveUser id) = none := by
      rw [List.find?_eq_none]
      intro u hu
      simp [h u hu]
    exact ⟨.recordNotFound, by simp [hf]⟩
  · exact ⟨.driver, rfl⟩

theorem GetUserById_of_live (fdb : FollowDB) (id : Nat)
    (h : ∃ u ∈ fdb.users, isLiveUser id u = true) :
    ∃ u, GetUserById false fdb id = .ok u := by
  unfold GetUserById
  cases hf : fdb.users.find? (isLiveUser id) with
  | none =>
    obtain ⟨u, hu, hl⟩ := h
    have := List.find?_eq_none.mp hf u hu
    exact absurd hl this
  | some u => exact ⟨u, by simp⟩

theorem IsFollowing_eq_any (fdb : FollowDB) (a b : Nat) :
    IsFollowing false fdb a b = .ok (fdb.follows.any (isActiveEdge a b)) := by
  unfold IsFollowing firstFollow
  cases hf : fdb.follows.find? (isActiveEdge a b) with
  | none =>
    have hall := List.find?_eq_none.mp hf
    have hany : fdb.follows.any (isActiveEdge a b) = false := by
      rw [List.any_eq_false]
      intro f hfm
      exact hall f hfm
    simp [hany]
  | some f =>
    have hany : fdb.follows.any (isActiveEdge a b) = true := by
      rw [List.any_eq_true]
      exact ⟨f, List.mem_of_find?_eq_some hf, List.find?_some hf⟩
    simp [hany]

theorem FollowUser_state (failed : Bool) (newID : Nat) (fdb : FollowDB) (a b : Nat) :
    (FollowUser failed newID fdb a b).2 ≠ none → (FollowUser failed newID fdb a b).1 = fdb := by
  unfold FollowUser
  intro h
  split
  · rfl
  · split
    · rfl
    · split
      · rfl
      · rename_i h1 h2 h3
        simp [h1, h2, h3] at h

theorem UnfollowUser_state (failed : Bool) (now : Nat) (fdb : FollowDB) (a b : Nat) :
    (UnfollowUser failed now fdb a b).2 ≠ none → (UnfollowUser failed now fdb a b).1 = fdb := by
  unfold UnfollowUser
  intro h
  split
  · rfl
  · rename_i h1
    simp [h1] at h

theorem controllers_FollowUser_rejected (env : FollowEnv) (fdb : FollowDB)
    (idParam : Option Int) (uid : Option Nat)
    (h : (controllers.FollowUser env fdb idParam uid).2 ≠ .success 200 "follow success") :
    (controllers.FollowUser env fdb idParam uid).1 = fdb := by
  unfold controllers.FollowUser at h ⊢
  cases idParam with
  | none => rfl
  | some id =>
    cases uid with
    | none => rfl
    | some a =>
      simp only at h ⊢
      by_cases hne : a = uintOfInt id
      · simp only [hne, if_true]
      · simp only [hne, if_false] at h ⊢
        cases hg : GetUserById env.userErr fdb (uintOfInt id) with
        | error e => simp only [hg]
        | ok u =>
          simp only [hg] at h ⊢
          cases hi : IsFollowing env.followingErr fdb a (uintOfInt id) with
          | error e => simp only [hi]
          | ok isF =>
            simp only [hi] at h ⊢
            cases isF with
            | true => simp
            | false =>
              simp only [Bool.false_eq_true, if_false] at h ⊢
              cases hr : DevPlaza.FollowUser env.writeErr env.newID fdb a (uintOfInt id) with
              | mk fdb2 err =>
                cases err with
                | none => simp [hr] at h
                | some e =>
                  have := FollowUser_state env.writeErr env.newID fdb a (uintOfInt id)
                    (by rw [hr]; simp)
                  rw [hr] at this
                  exact this

theorem controllers_UnfollowUser_rejected (env : FollowEnv) (fdb : FollowDB)
    (idParam : Option Int) (uid : Option Nat)
    (h : (controllers.UnfollowUser env fdb idParam uid).2
      ≠ .success 200 "unfollow success") :
    (controllers.UnfollowUser env fdb idParam uid).1 = fdb := by
  unfold controllers.UnfollowUser at h ⊢
  cases idParam with
  | none => rfl
  | some id =>
    cases uid with
    | none => rfl
    | some a =>
      simp only at h ⊢
      by_cases hne : a = uintOfInt id
      · simp only [hne, if_true]
      · simp only [hne, if_false] at h ⊢
        cases hg : GetUserById env.userErr fdb (uintOfInt id) with
        | error e => simp only [hg]
        | ok u =>
          simp only [hg] at h ⊢
          cases hi : IsFollowing env.followingErr fdb a (uintOfInt id) with
          | error e => simp only [hi]
          | ok isF =>
            simp only [hi] at h ⊢
            cases isF with
            | false => simp
            | true =>
              simp only [Bool.not_true, Bool.false_eq_true, if_false] at h ⊢
              cases hr : DevPlaza.UnfollowUser env.writeErr env.now fdb a (uintOfInt id) with
              | mk fdb2 err =>
                cases err with
                | none => simp [hr] at h
                | some e =>
                  have := UnfollowUser_state env.writeErr env.now fdb a (uintOfInt id)
                    (by rw [hr]; simp)
                  rw [hr] at this
                  exact this
theorem any_isActiveEdge_false {rows : List Follow} {a b : Nat}
    (h : ∀ f ∈ rows, isActiveEdge a b f = false) : rows.any (isActiveEdge a b) = false := by
  rw [List.any_eq_false]
  intro f hf
  simp [h f hf]

theorem any_isActiveEdge_true {rows : List Follow} {a b : Nat}
    (h : ∃ f ∈ rows, isActiveEdge a b f = true) : rows.any (isActiveEdge a b) = true := by
  rw [List.any_eq_true]
  exact h

theorem controllers_FollowUser_self (env : FollowEnv) (fdb : FollowDB) (A : Nat)
    (hA : A < 2 ^ 64) :
    controllers.FollowUser env fdb (some (A : Int)) (some A)
      = (fdb, .error 400 "cannot follow yourself") := by
  unfold controllers.FollowUser
  simp [uintOfInt_natCast A hA]

theorem controllers_FollowUser_missing (env : FollowEnv) (fdb : FollowDB) (A B : Nat)
    (hB : B < 2 ^ 64) (hAB : A ≠ B) (hmiss : ∀ u ∈ fdb.users, isLiveUser B u = false) :
    controllers.FollowUser env fdb (some (B : Int)) (some A)
      = (fdb, .error 400 "target user not found") := by
  obtain ⟨e, he⟩ := GetUserById_of_missing env.userErr fdb B hmiss
  unfold controllers.FollowUser
  simp [uintOfInt_natCast B hB, hAB, he]

theorem controllers_FollowUser_already (env : FollowEnv) (fdb : FollowDB) (A B : Nat)
    (hB : B < 2 ^ 64) (hAB : A ≠ B) (hex : ∃ u ∈ fdb.users, isLiveUser B u = true)
    (hedge : ∃ f ∈ fdb.follows, isActiveEdge A B f = true)
    (hu : env.userErr = false) (hf : env.followingErr = false) :
    controllers.FollowUser env fdb (some (B : Int)) (some A)
      = (fdb, .error 400 "already following") := by
  obtain ⟨u, hg⟩ := GetUserById_of_live fdb B hex
  have hi := IsFollowing_eq_any fdb A B
  rw [any_isActiveEdge_true hedge] at hi
  unfold controllers.FollowUser
  simp [uintOfInt_natCast B hB, hAB, hu, hf, hg, hi]

theorem controllers_FollowUser_accept (env : FollowEnv) (fdb : FollowDB) (A B : Nat)
    (hB : B < 2 ^ 64) (hAB : A ≠ B) (hex : ∃ u ∈ fdb.users, isLiveUser B u = true)
    (hno : ∀ f ∈ fdb.follows, isActiveEdge A B f = false)
    (hu : env.userErr = false) (hf : env.followingErr = false) (hw : env.writeErr = false)
    (hA : ∃ u ∈ fdb.users, u.ID = A) (hid : ∀ f ∈ fdb.follows, f.ID ≠ env.newID) :
    controllers.FollowUser env fdb (some (B : Int)) (some A)
      = ({ fdb with follows := fdb.follows ++
            [{ ID := env.newID, FollowerID := A, FollowingID := B, DeletedAt := none }] },
         .success 200 "follow success") := by
  obtain ⟨u, hg⟩ := GetUserById_of_live fdb B hex
  have hi := IsFollowing_eq_any fdb A B
  rw [any_isActiveEdge_false hno] at hi
  have hpk : fdb.follows.any (fun f => decide (f.ID = env.newID)) = false := by
    rw [List.any_eq_false]
    intro f hfm
    simp [hid f hfm]
  have hfa : fdb.users.any (fun u => decide (u.ID = A)) = true := by
    rw [List.any_eq_true]
    obtain ⟨x, hx, hxa⟩ := hA
    exact ⟨x, hx, by simp [hxa]⟩
  have hfb : fdb.users.any (fun u => decide (u.ID = B)) = true := by
    rw [List.any_eq_true]
    obtain ⟨x, hx, hxl⟩ := hex
    simp only [isLiveUser, Bool.and_eq_true, decide_eq_true_eq] at hxl
    exact ⟨x, hx, by simp [hxl.1]⟩
  have hm : DevPlaza.FollowUser false env.newID fdb A B
      = ({ fdb with follows := fdb.follows ++
            [{ ID := env.newID, FollowerID := A, FollowingID := B, DeletedAt := none }] },
         none) := by
    unfold DevPlaza.FollowUser
    simp [hpk, hfa, hfb]
  unfold controllers.FollowUser
  simp [uintOfInt_natCast B hB, hAB, hu, hf, hw, hg, hi, hm]

theorem isActiveEdge_new (id A B : Nat) :
    isActiveEdge A B { ID := id, FollowerID := A, FollowingID := B, DeletedAt := none }
      = true := by
  simp [isActiveEdge]

/-! ### Claims C19 and C20 -/

/-- C19: a follow request of follower `A` for target `B`.  Every request that is not
answered with `follow success` leaves the graph as it was.  It is rejected with
`cannot follow yourself` when `A = B`, with `target user not found` when `B` is not an
existing user, and with `already following` when `A` has an active edge to `B` (the two
lookups not failing in the driver).  In every other case, with no statement failing in
the driver, `A` a stored user and the assigned id unused, it answers `follow success`,
the graph gains the edge, `IsFollowing(A, B)` is true afterwards, and a second follow
request is rejected with `already following`. -/
theorem follow_request (env : FollowEnv) (fdb : FollowDB) (A B : Nat) (hB : B < 2 ^ 64) :
    ((controllers.FollowUser env fdb (some (B : Int)) (some A)).2
        ≠ .success 200 "follow success" →
      (controllers.FollowUser env fdb (some (B : Int)) (some A)).1 = fdb) ∧
    (A = B →
      controllers.FollowUser env fdb (some (B : Int)) (some A)
        = (fdb, .error 400 "cannot follow yourself")) ∧
    (A ≠ B → (∀ u ∈ fdb.users, isLiveUser B u = false) →
      controllers.FollowUser env fdb (some (B : Int)) (some A)
        = (fdb, .error 400 "target user not found")) ∧
    (A ≠ B → (∃ u ∈ fdb.users, isLiveUser B u = true) →
      (∃ f ∈ fdb.follows, isActiveEdge A B f = true) →
      env.userErr = false → env.followingErr = false →
      controllers.FollowUser env fdb (some (B : Int)) (some A)
        = (fdb, .error 400 "already following")) ∧
    (A ≠ B → (∃ u ∈ fdb.users, isLiveUser B u = true) →
      (∀ f ∈ fdb.follows, isActiveEdge A B f = false) →
      env.userErr = false → env.followingErr = false → env.writeErr = false →
      (∃ u ∈ fdb.users, u.ID = A) → (∀ f ∈ fdb.follows, f.ID ≠ env.newID) →
      controllers.FollowUser env fdb (some (B : Int)) (some A)
        = ({ fdb with follows := fdb.follows ++
              [{ ID := env.newID, FollowerID := A, FollowingID := B, DeletedAt := none }] },
           .success 200 "follow success") ∧
      IsFollowing false (controllers.FollowUser env fdb (some (B : Int)) (some A)).1 A B
        = .ok true ∧
      ∀ env2 : FollowEnv, env2.userErr = false → env2.followingErr = false →
        controllers.FollowUser env2
            (controllers.FollowUser env fdb (some (B : Int)) (some A)).1
            (some (B : Int)) (some A)
          = ((controllers.FollowUser env fdb (some (B : Int)) (some A)).1,
             .error 400 "already following")) := by
  refine ⟨controllers_FollowUser_rejected env fdb _ _, ?_, ?_, ?_, ?_⟩
  · intro h
    subst h
    exact controllers_FollowUser_self env fdb A hB
  · intro hAB hmiss
    exact controllers_FollowUser_missing env fdb A B hB hAB hmiss
  · intro hAB hex hedge hu hf
    exact controllers_FollowUser_already env fdb A B hB hAB hex hedge hu hf
  · intro hAB hex hno hu hf hw hA hid
    have hacc := controllers_FollowUser_accept env fdb A B hB hAB hex hno hu hf hw hA hid
    have hedge : ∃ f ∈ (fdb.follows ++
        [({ ID := env.newID, FollowerID := A, FollowingID := B, DeletedAt := none } : Follow)]),
        isActiveEdge A B f = true :=
      ⟨_, List.mem_append_right _ (List.mem_singleton_self _), isActiveEdge_new _ A B⟩
    rw [hacc]
    refine ⟨rfl, ?_, ?_⟩
    · rw [IsFollowing_eq_any]
      exact congrArg Except.ok (any_isActiveEdge_true hedge)
    · intro env2 hu2 hf2
      exact controllers_FollowUser_already env2 _ A B hB hAB hex hedge hu2 hf2

/-- Witness for C19: user `1` follows user `2` in `sampleGraph`. -/
theorem follow_request_witness :
    controllers.FollowUser (FollowEnv.ok 5 1) sampleGraph (some ((2 : Nat) : Int)) (some 1)
        = ({ sampleGraph with follows := sampleGraph.follows ++
              [{ ID := (FollowEnv.ok 5 1).newID, FollowerID := 1, FollowingID := 2,
                 DeletedAt := none }] },
           .success 200 "follow success") ∧
      IsFollowing false
        (controllers.FollowUser (FollowEnv.ok 5 1) sampleGraph (some ((2 : Nat) : Int))
          (some 1)).1 1 2 = .ok true ∧
      ∀ env2 : FollowEnv, env2.userErr = false → env2.followingErr = false →
        controllers.FollowUser env2
            (controllers.FollowUser (FollowEnv.ok 5 1) sampleGraph (some ((2 : Nat) : Int))
              (some 1)).1
            (some ((2 : Nat) : Int)) (some 1)
          = ((controllers.FollowUser (FollowEnv.ok 5 1) sampleGraph (some ((2 : Nat) : Int))
              (some 1)).1,
             .error 400 "already following") :=
  (follow_request (FollowEnv.ok 5 1) sampleGraph 1 2 (by decide)).2.2.2.2
    (by decide) (by decide) (by decide) rfl rfl rfl (by decide) (by decide)
theorem no_active_edge_after_soft_delete (now a b : Nat) (rows : List Follow) :
    ∀ f ∈ rows.map (fun f =>
        if isActiveEdge a b f then { f with DeletedAt := some now } else f),
      isActiveEdge a b f = false := by
  intro f hf
  obtain ⟨g, _, rfl⟩ := List.mem_map.mp hf
  cases hg : isActiveEdge a b g with
  | false => simp [hg]
  | true => simp [isActiveEdge]

theorem ids_after_soft_delete (now a b id : Nat) (rows : List Follow)
    (h : ∀ f ∈ rows, f.ID ≠ id) :
    ∀ f ∈ rows.map (fun f =>
        if isActiveEdge a b f then { f with DeletedAt := some now } else f), f.ID ≠ id := by
  intro f hf
  obtain ⟨g, hg, rfl⟩ := List.mem_map.mp hf
  have := h g hg
  split <;> exact this

theorem controllers_UnfollowUser_not_following (env : FollowEnv) (fdb : FollowDB) (A B : Nat)
    (hB : B < 2 ^ 64) (hAB : A ≠ B) (hex : ∃ u ∈ fdb.users, isLiveUser B u = true)
    (hu : env.userErr = false) (hf : env.followingErr = false)
    (hno : ∀ f ∈ fdb.follows, isActiveEdge A B f = false) :
    controllers.UnfollowUser env fdb (some (B : Int)) (some A)
      = (fdb, .error 400 "not following") := by
  obtain ⟨u, hg⟩ := GetUserById_of_live fdb B hex
  have hi := IsFollowing_eq_any fdb A B
  rw [any_isActiveEdge_false hno] at hi
  unfold controllers.UnfollowUser
  simp [uintOfInt_natCast B hB, hAB, hu, hf, hg, hi]

theorem controllers_UnfollowUser_accept (env : FollowEnv) (fdb : FollowDB) (A B : Nat)
    (hB : B < 2 ^ 64) (hAB : A ≠ B) (hex : ∃ u ∈ fdb.users, isLiveUser B u = true)
    (hu : env.userErr = false) (hf : env.followingErr = false) (hw : env.writeErr = false)
    (hedge : ∃ f ∈ fdb.follows, isActiveEdge A B f = true) :
    controllers.UnfollowUser env fdb (some (B : Int)) (some A)
      = ({ fdb with follows := fdb.follows.map (fun f =>
            if isActiveEdge A B f then { f with DeletedAt := some env.now } else f) },
         .success 200 "unfollow success") := by
  obtain ⟨u, hg⟩ := GetUserById_of_live fdb B hex
  have hi := IsFollowing_eq_any fdb A B
  rw [any_isActiveEdge_true hedge] at hi
  unfold controllers.UnfollowUser DevPlaza.UnfollowUser
  simp [uintOfInt_natCast B hB, hAB, hu, hf, hw, hg, hi]

/-- C20: an unfollow request of follower `A` for an existing target `B` other than `A`,
the two lookups not failing in the driver.  A request that is not answered with
`unfollow success` leaves the graph as it was.  When `A` has no active edge to `B` it is
rejected with `not following`.  Otherwise, the delete not failing in the driver, it
answers `unfollow success`, `IsFollowing(A, B)` is false afterwards, and a later follow
request (no statement failing, `A` a stored user, the assigned id unused) is answered
with `follow success` and makes `IsFollowing(A, B)` true again. -/
theorem unfollow_request (env : FollowEnv) (fdb : FollowDB) (A B : Nat) (hB : B < 2 ^ 64)
    (hAB : A ≠ B) (hex : ∃ u ∈ fdb.users, isLiveUser B u = true)
    (hu : env.userErr = false) (hf : env.followingErr = false) :
    ((controllers.UnfollowUser env fdb (some (B : Int)) (some A)).2
        ≠ .success 200 "unfollow success" →
      (controllers.UnfollowUser env fdb (some (B : Int)) (some A)).1 = fdb) ∧
    ((∀ f ∈ fdb.follows, isActiveEdge A B f = false) →
      controllers.UnfollowUser env fdb (some (B : Int)) (some A)
        = (fdb, .error 400 "not following")) ∧
    ((∃ f ∈ fdb.follows, isActiveEdge A B f = true) → env.writeErr = false →
      (controllers.UnfollowUser env fdb (some (B : Int)) (some A)).2
        = .success 200 "unfollow success" ∧
      IsFollowing false (controllers.UnfollowUser env fdb (some (B : Int)) (some A)).1 A B
        = .ok false ∧
      ∀ env2 : FollowEnv, env2.userErr = false → env2.followingErr = false →
        env2.writeErr = false → (∃ u ∈ fdb.users, u.ID = A) →
        (∀ f ∈ fdb.follows, f.ID ≠ env2.newID) →
        (controllers.FollowUser env2
            (controllers.UnfollowUser env fdb (some (B : Int)) (some A)).1
            (some (B : Int)) (some A)).2 = .success 200 "follow success" ∧
        IsFollowing false
          (controllers.FollowUser env2
            (controllers.UnfollowUser env fdb (some (B : Int)) (some A)).1
            (some (B : Int)) (some A)).1 A B = .ok true) := by
  refine ⟨controllers_UnfollowUser_rejected env fdb _ _, ?_, ?_⟩
  · intro hno
    exact controllers_UnfollowUser_not_following env fdb A B hB hAB hex hu hf hno
  · intro hedge hw
    have hacc := controllers_UnfollowUser_accept env fdb A B hB hAB hex hu hf hw hedge
    rw [hacc]
    have hno2 := no_active_edge_after_soft_delete env.now A B fdb.follows
    refine ⟨rfl, ?_, ?_⟩
    · rw [IsFollowing_eq_any]
      exact congrArg Except.ok (any_isActiveEdge_false hno2)
    · intro env2 hu2 hf2 hw2 hA hid
      have hid2 := ids_after_soft_delete env.now A B env2.newID fdb.follows hid
      have hfol := controllers_FollowUser_accept env2
        { fdb with follows := fdb.follows.map (fun f =>
            if isActiveEdge A B f then { f with DeletedAt := some env.now } else f) }
        A B hB hAB hex hno2 hu2 hf2 hw2 hA hid2
      rw [hfol]
      refine ⟨rfl, ?_⟩
      rw [IsFollowing_eq_any]
      exact congrArg Except.ok (any_isActiveEdge_true
        ⟨_, List.mem_append_right _ (List.mem_singleton_self _), isActiveEdge_new _ A B⟩)

/-- Witness for C20: user `1` unfollows user `2` in `sampleFollowing` and follows again. -/
theorem unfollow_request_witness :
    controllers.UnfollowUser (FollowEnv.ok 8 2) sampleFollowing (some ((2 : Nat) : Int))
        (some 1) = (sampleUnfollowed, .success 200 "unfollow success") ∧
    ((controllers.UnfollowUser (FollowEnv.ok 8 2) sampleFollowing (some ((2 : Nat) : Int))
        (some 1)).2 = .success 200 "unfollow success" ∧
      IsFollowing false
        (controllers.UnfollowUser (FollowEnv.ok 8 2) sampleFollowing
          (some ((2 : Nat) : Int)) (some 1)).1 1 2 = .ok false ∧
      ∀ env2 : FollowEnv, env2.userErr = false → env2.followingErr = false →
        env2.writeErr = false → (∃ u ∈ sampleFollowing.users, u.ID = 1) →
        (∀ f ∈ sampleFollowing.follows, f.ID ≠ env2.newID) →
        (controllers.FollowUser env2
            (controllers.UnfollowUser (FollowEnv.ok 8 2) sampleFollowing
              (some ((2 : Nat) : Int)) (some 1)).1
            (some ((2 : Nat) : Int)) (some 1)).2 = .success 200 "follow success" ∧
        IsFollowing false
          (controllers.FollowUser env2
            (controllers.UnfollowUser (FollowEnv.ok 8 2) sampleFollowing
              (some ((2 : Nat) : Int)) (some 1)).1
            (some ((2 : Nat) : Int)) (some 1)).1 1 2 = .ok true) :=
  ⟨by decide,
    (unfollow_request (FollowEnv.ok 8 2) sampleFollowing 1 2 (by decide) (by decide)
      (by decide) rfl rfl).2.2 (by decide) rfl⟩

/-! ## Theorems: the merge as an interleaving, follow limit, statistics -/

theorem Interleaving.snoc_left {l a b : List Post} (x : Post) (h : Interleaving l a b) :
    Interleaving (l ++ [x]) (a ++ [x]) b := by
  induction h with
  | nil => exact Interleaving.left x Interleaving.nil
  | left y _ ih => exact Interleaving.left y ih
  | right y _ ih => exact Interleaving.right y ih

theorem Interleaving.snoc_right {l a b : List Post} (x : Post) (h : Interleaving l a b) :
    Interleaving (l ++ [x]) a (b ++ [x]) := by
  induction h with
  | nil => exact Interleaving.right x Interleaving.nil
  | left y _ ih => exact Interleaving.left y ih
  | right y _ ih => exact Interleaving.right y ih

theorem Interleaving.length_eq {l a b : List Post} (h : Interleaving l a b) :
    l.length = a.length + b.length := by
  induction h with
  | nil => rfl
  | left y _ ih => simp only [List.length_cons, ih]; omega
  | right y _ ih => simp only [List.length_cons, ih]; omega

theorem take_succ_getElem (l : List Post) (i : Nat) (h : i < l.length) :
    l.take (i + 1) = l.take i ++ [l[i]] := by
  rw [List.take_succ]
  simp [List.getElem?_eq_getElem h]

/-- The loop invariant of the merge: the merged list interleaves the consumed prefixes. -/
theorem takeFollow_interleaving (F G : List Post) (fl : Int) (st : MergeState)
    (h : Interleaving st.posts (F.take st.fIdx) (G.take st.gIdx) ∧ st.fIdx ≤ F.length ∧
      st.gIdx ≤ G.length) :
    Interleaving (takeFollow F fl st).posts (F.take (takeFollow F fl st).fIdx)
        (G.take (takeFollow F fl st).gIdx) ∧
      (takeFollow F fl st).fIdx ≤ F.length ∧ (takeFollow F fl st).gIdx ≤ G.length := by
  unfold takeFollow
  split
  · rename_i hc
    refine ⟨?_, hc.1, h.2.2⟩
    show Interleaving (st.posts ++ [F[st.fIdx]]) (F.take (st.fIdx + 1)) (G.take st.gIdx)
    rw [take_succ_getElem F st.fIdx hc.1]
    exact h.1.snoc_left _
  · exact h

theorem takeGlobal_interleaving (F G : List Post) (ps : Int) (st : MergeState)
    (h : Interleaving st.posts (F.take st.fIdx) (G.take st.gIdx) ∧ st.fIdx ≤ F.length ∧
      st.gIdx ≤ G.length) :
    Interleaving (takeGlobal G ps st).posts (F.take (takeGlobal G ps st).fIdx)
        (G.take (takeGlobal G ps st).gIdx) ∧
      (takeGlobal G ps st).fIdx ≤ F.length ∧ (takeGlobal G ps st).gIdx ≤ G.length := by
  unfold takeGlobal
  split
  · rename_i hc
    refine ⟨?_, h.2.1, hc.1⟩
    show Interleaving (st.posts ++ [G[st.gIdx]]) (F.take st.fIdx) (G.take (st.gIdx + 1))
    rw [take_succ_getElem G st.gIdx hc.1]
    exact h.1.snoc_right _
  · exact h

theorem mergeIter_interleaving (F G : List Post) (ps fl : Int) :
    ∀ (k : Nat) (st : MergeState),
      (Interleaving st.posts (F.take st.fIdx) (G.take st.gIdx) ∧ st.fIdx ≤ F.length ∧
        st.gIdx ≤ G.length) →
      Interleaving (mergeIter F G ps fl k st).posts (F.take (mergeIter F G ps fl k st).fIdx)
          (G.take (mergeIter F G ps fl k st).gIdx) ∧
        (mergeIter F G ps fl k st).fIdx ≤ F.length ∧
        (mergeIter F G ps fl k st).gIdx ≤ G.length := by
  intro k
  induction k with
  | zero => intro st h; simpa [mergeIter] using h
  | succ k ih =>
    intro st h
    have hb := takeGlobal_interleaving F G ps _ (takeFollow_interleaving F G fl st h)
    simp only [mergeIter]
    split
    · split
      · exact hb
      · exact ih _ hb
    · exact h

theorem interleaving_init (F G : List Post) :
    Interleaving ({ posts := [], fIdx := 0, gIdx := 0 } : MergeState).posts
        (F.take ({ posts := [], fIdx := 0, gIdx := 0 } : MergeState).fIdx)
        (G.take ({ posts := [], fIdx := 0, gIdx := 0 } : MergeState).gIdx) ∧
      ({ posts := [], fIdx := 0, gIdx := 0 } : MergeState).fIdx ≤ F.length ∧
      ({ posts := [], fIdx := 0, gIdx := 0 } : MergeState).gIdx ≤ G.length := by
  refine ⟨?_, Nat.zero_le _, Nat.zero_le _⟩
  simp only [List.take_zero]
  exact Interleaving.nil

/-- Every state of the merge started on empty lists interleaves the consumed prefixes. -/
theorem mergeIter_init_interleaving (F G : List Post) (ps fl : Int) (k : Nat) (st : MergeState)
    (hst : st = mergeIter F G ps fl k { posts := [], fIdx := 0, gIdx := 0 }) :
    Interleaving st.posts (F.take st.fIdx) (G.take st.gIdx) ∧
      st.fIdx ≤ F.length ∧ st.gIdx ≤ G.length ∧ st.posts.length = st.fIdx + st.gIdx := by
  have h := mergeIter_interleaving F G ps fl k _ (interleaving_init F G)
  rw [← hst] at h
  have e1 : (F.take st.fIdx).length = st.fIdx := by
    rw [List.length_take]; exact Nat.min_eq_left h.2.1
  have e2 : (G.take st.gIdx).length = st.gIdx := by
    rw [List.length_take]; exact Nat.min_eq_left h.2.2
  refine ⟨h.1, h.2.1, h.2.2, ?_⟩
  rw [h.1.length_eq, e1, e2]

/-- A page returned in hybrid mode interleaves a prefix of the following candidates with
a prefix of the global candidates. -/
theorem QueryPosts_hybrid_interleaving (q : PostQueries) (filter : PostFilter)
    (F G : List Post) (hh : filter.Hybrid = true) (hv : filter.FollowingOf ≠ 0)
    (hF : q.follow = .ok F) (hG : q.global = .ok G)
    (fuel : Nat) (r : QueryResult) (h : QueryPosts fuel q filter = some r) :
    ∃ k m, k ≤ (F.take 50).length ∧ m ≤ (G.take 50).length ∧
      Interleaving r.posts ((F.take 50).take k) ((G.take 50).take m) ∧
      r.posts.length = k + m := by
  have hcond : (filter.Hybrid && filter.FollowingOf != 0) = true := by
    simp [hh, hv]
  unfold QueryPosts at h
  rw [if_pos hcond] at h
  simp only [hF, hG] at h
  cases hm : mergeLoop (List.take 50 F) (List.take 50 G) (effectivePageSize filter.PageSize)
      (followLimitOf (effectivePageSize filter.PageSize)) fuel
      { posts := [], fIdx := 0, gIdx := 0 } with
  | none => simp [hm] at h
  | some st =>
    simp only [hm] at h
    rw [← Option.some.inj h]
    have hst := mergeLoop_eq_mergeIter _ _ _ _ fuel _ _ hm
    obtain ⟨h1, h2, h3, h4⟩ := mergeIter_init_interleaving _ _ _ _ fuel st hst
    exact ⟨st.fIdx, st.gIdx, h2, h3, h1, h4⟩

/-! ### Claims C26, C27, C28, C30 -/

/-- C26, the code at a failing input: for page size 90 the follow limit computed as
`int(float64(pageSize) * 0.7)` is 62, while `floor(90 * 7 / 10)` is 63: the `float64`
nearest to 0.7 lies below 0.7, and the rounded product lies below 63. -/
theorem followLimit_ninety_is_sixty_two :
    followLimitOf (effectivePageSize 90) = 62 ∧ ((90 : Int) * 7 / 10 = 63) ∧
    roundSig53 (roundSig53 90 * sevenTenthsSig) < 63 * 2 ^ 53 := by
  refine ⟨by decide, by decide, by decide⟩

/-- C27, the code at a failing input: on rows dated 10, 20, 30 and target 10,
`findClosest` returns the row dated 30, the last one, while the earliest row whose date
is not before the target is the row dated 10: the loop runs from the last row down and
returns the first hit. -/
theorem findClosest_returns_latest :
    findClosest sampleStats 10 = .ok (mkStats 3 30 125) ∧
    sampleStats.find? (fun s => decide (10 ≤ s.Date)) = some (mkStats 1 10 100) ∧
    findClosest sampleStats 31 = .ok (mkStats 1 10 100) := by
  refine ⟨by decide, by decide, by decide⟩

/-- C28: in hybrid mode, at every iteration of the merge loop and hence whenever
`QueryPosts` returns, the merged list is an interleaving of the first `k` following
candidates and the first `m` global candidates, each in query order and each position
used once, and its length is `k + m`. -/
theorem hybrid_page_is_interleaving (q : PostQueries) (filter : PostFilter)
    (F G : List Post) (hh : filter.Hybrid = true) (hv : filter.FollowingOf ≠ 0)
    (hF : q.follow = .ok F) (hG : q.global = .ok G) :
    (∀ (k : Nat) (st : MergeState),
      st = mergeIter (F.take 50) (G.take 50) (effectivePageSize filter.PageSize)
        (followLimitOf (effectivePageSize filter.PageSize)) k
        { posts := [], fIdx := 0, gIdx := 0 } →
      Interleaving st.posts ((F.take 50).take st.fIdx) ((G.take 50).take st.gIdx) ∧
      st.fIdx ≤ (F.take 50).length ∧ st.gIdx ≤ (G.take 50).length ∧
      st.posts.length = st.fIdx + st.gIdx) ∧
    (∀ (fuel : Nat) (r : QueryResult), QueryPosts fuel q filter = some r →
      ∃ k m, k ≤ (F.take 50).length ∧ m ≤ (G.take 50).length ∧
        Interleaving r.posts ((F.take 50).take k) ((G.take 50).take m) ∧
        r.posts.length = k + m) :=
  ⟨fun k st hst => mergeIter_init_interleaving _ _ _ _ k st hst,
    fun fuel r h => QueryPosts_hybrid_interleaving q filter F G hh hv hF hG fuel r h⟩

set_option maxRecDepth 100000 in
/-- Witness for C28: page size 10 over 5 following and 20 global rows; the page
`samplePage` interleaves the first 4 following and the first 6 global rows. -/
theorem hybrid_page_is_interleaving_witness :
    QueryPosts 7 (sampleQueries 5 20) (hybridFilter 10) = some samplePage ∧
    ∃ k m, k ≤ ((mkPosts 100 2 5).take 50).length ∧ m ≤ ((mkPosts 200 3 20).take 50).length ∧
      Interleaving samplePage.posts (((mkPosts 100 2 5).take 50).take k)
        (((mkPosts 200 3 20).take 50).take m) ∧
      samplePage.posts.length = k + m :=
  ⟨by decide,
    (hybrid_page_is_interleaving (sampleQueries 5 20) (hybridFilter 10) (mkPosts 100 2 5)
      (mkPosts 200 3 20) rfl (by decide) rfl rfl).2 7 samplePage (by decide)⟩

/-- C30: `StringSlicesEqual a b` is true exactly when `b` is a permutation of `a`; it
is therefore reflexive, symmetric and transitive, and on two lists without repeated
strings it is true exactly when they have the same elements. -/
theorem StringSlicesEqual_is_permutation_test (a b c : List String) :
    (StringSlicesEqual a b = true ↔ a.Perm b) ∧
    StringSlicesEqual a a = true ∧
    StringSlicesEqual a b = StringSlicesEqual b a ∧
    (StringSlicesEqual a b = true → StringSlicesEqual b c = true →
      StringSlicesEqual a c = true) ∧
    (a.Nodup → b.Nodup → (StringSlicesEqual a b = true ↔ ∀ s, s ∈ a ↔ s ∈ b)) := by
  have hab := StringSlicesEqual_iff_perm a b
  have hba := StringSlicesEqual_iff_perm b a
  refine ⟨hab, (StringSlicesEqual_iff_perm a a).mpr (List.Perm.refl a), ?_, ?_, ?_⟩
  · cases h1 : StringSlicesEqual a b with
    | true => exact (hba.mpr (hab.mp h1).symm).symm
    | false =>
      cases h2 : StringSlicesEqual b a with
      | false => rfl
      | true =>
        have := hab.mpr (hba.mp h2).symm
        rw [h1] at this
        exact this
  · intro h1 h2
    exact (StringSlicesEqual_iff_perm a c).mpr
      ((hab.mp h1).trans ((StringSlicesEqual_iff_perm b c).mp h2))
  · intro ha hb
    rw [hab]
    exact List.perm_ext_iff_of_nodup ha hb

/-- Witness for C30: three orderings of the same two names. -/
theorem StringSlicesEqual_is_permutation_test_witness :
    StringSlicesEqual ["x", "y"] ["y", "x"] = true ∧
    StringSlicesEqual ["y", "x"] ["x", "y"] = true ∧
    StringSlicesEqual ["x", "y"] ["x", "y"] = true :=
  ⟨by decide, by decide,
    (StringSlicesEqual_is_permutation_test ["x", "y"] ["y", "x"] ["x", "y"]).2.2.2.1
      (by decide) (by decide)⟩

/-! ## Theorems: batch follow states -/

theorem stateGet_cons (m : List (Nat × Bool)) (k : Nat) (v : Bool) (id : Nat) :
    stateGet (stateSet m k v) id = if k = id then v else stateGet m id := by
  unfold stateGet stateSet
  by_cases h : k = id
  · simp [List.find?, h]
  · have : (k == id) = false := by simpa using h
    simp [List.find?, this, h]

theorem stateGet_foldl_false (ids : List Nat) (id : Nat) :
    ∀ m : List (Nat × Bool), stateGet m id = false →
      stateGet (ids.foldl (fun m id => stateSet m id false) m) id = false := by
  induction ids with
  | nil => intro m h; exact h
  | cons a rest ih =>
    intro m h
    apply ih
    rw [stateGet_cons]
    split
    · rfl
    · exact h

theorem stateGet_foldl_true (fs : List Follow) (id : Nat) :
    ∀ m : List (Nat × Bool),
      (stateGet (fs.foldl (fun m f => stateSet m f.FollowingID true) m) id = true ↔
        (∃ f ∈ fs, f.FollowingID = id) ∨ stateGet m id = true) := by
  induction fs with
  | nil => intro m; simp
  | cons a rest ih =>
    intro m
    rw [List.foldl_cons, ih, stateGet_cons]
    by_cases h : a.FollowingID = id
    · simp [h]
    · simp [h]

theorem mem_findFollows (follows : List Follow) (followerID : Nat) (userIDs : List Nat)
    (f : Follow) :
    f ∈ findFollows follows followerID userIDs ↔
      f ∈ follows ∧ f.FollowingID ∈ userIDs ∧ isActiveEdge followerID f.FollowingID f = true := by
  unfold findFollows isActiveEdge
  simp only [List.mem_filter, Bool.and_eq_true, decide_eq_true_eq]
  constructor
  · rintro ⟨h1, ⟨h2, h3⟩, h4⟩
    exact ⟨h1, h3, ⟨h2, trivial⟩, h4⟩
  · rintro ⟨h1, h3, ⟨h2, _⟩, h4⟩
    exact ⟨h1, ⟨h2, h3⟩, h4⟩

/-- C21: when the query succeeds, `GetFollowingStates` returns a list as long as the
input whose i-th entry carries the i-th input id (duplicates included) and whose flag is
true exactly when the follower has an active follow edge to that id; every id of the
result is an id of the input.  When the query fails the error is returned. -/
theorem GetFollowingStates_entry_per_input (fdb : FollowDB) (followerID : Nat)
    (userIDs : List Nat) :
    GetFollowingStates true fdb followerID userIDs = .error .driver ∧
    ∃ states, GetFollowingStates false fdb followerID userIDs = .ok states ∧
      states.length = userIDs.length ∧
      states.map (fun s => s.UserID) = userIDs ∧
      (∀ (i : Nat) (id : Nat), userIDs[i]? = some id →
        ∃ s, states[i]? = some s ∧ s.UserID = id ∧
          (s.IsFollowing = true ↔
            ∃ f ∈ fdb.follows, isActiveEdge followerID id f = true)) ∧
      (∀ s ∈ states, s.UserID ∈ userIDs) := by
  refine ⟨rfl, _, rfl, ?_, ?_, ?_, ?_⟩
  · simp
  · simp [List.map_map, Function.comp_def]
  · intro i id hi
    rw [List.getElem?_map, hi]
    refine ⟨_, rfl, rfl, ?_⟩
    · show stateGet _ id = true ↔ _
      rw [stateGet_foldl_true]
      have hmem : id ∈ userIDs := by
        obtain ⟨hlt, hget⟩ := List.getElem?_eq_some_iff.mp hi
        exact hget ▸ List.getElem_mem hlt
      constructor
      · rintro (⟨f, hf, hid⟩ | h)
        · rw [mem_findFollows] at hf
          exact ⟨f, hf.1, hid ▸ hf.2.2⟩
        · rw [stateGet_foldl_false userIDs id [] rfl] at h
          exact absurd h (by decide)
      · rintro ⟨f, hf, hact⟩
        have hid : f.FollowingID = id := by
          unfold isActiveEdge at hact
          simp only [Bool.and_eq_true, decide_eq_true_eq] at hact
          exact hact.1.2
        refine Or.inl ⟨f, ?_, hid⟩
        rw [mem_findFollows]
        exact ⟨hf, hid ▸ hmem, hid ▸ hact⟩
  · intro s hs
    simp only [List.mem_map] at hs
    obtain ⟨id, hid, rfl⟩ := hs
    exact hid

/-- Witness for C21: follower `1`, who follows user `2` only, asks for `[2, 3, 2]`. -/
theorem GetFollowingStates_entry_per_input_witness :
    GetFollowingStates false sampleFollowing 1 [2, 3, 2] =
      .ok [{ UserID := 2, IsFollowing := true }, { UserID := 3, IsFollowing := false },
        { UserID := 2, IsFollowing := true }] ∧
    GetFollowingStates true sampleFollowing 1 [2, 3, 2] = .error .driver :=
  ⟨rfl, (GetFollowingStates_entry_per_input sampleFollowing 1 [2, 3, 2]).1⟩

/-! ## Theorems: ranking, date range, and the hybrid page -/

theorem rankDesc_total (a b : Post) : rankDesc a b = true ∨ rankDesc b a = true := by
  unfold rankDesc
  simp only [Bool.or_eq_true, Bool.and_eq_true, decide_eq_true_eq]
  omega

theorem rankDesc_trans (a b c : Post) (h1 : rankDesc a b = true) (h2 : rankDesc b c = true) :
    rankDesc a c = true := by
  unfold rankDesc at *
  simp only [Bool.or_eq_true, Bool.and_eq_true, decide_eq_true_eq] at *
  omega

theorem rankAsc_total (a b : Post) : rankAsc a b = true ∨ rankAsc b a = true := by
  unfold rankAsc
  simp only [Bool.or_eq_true, Bool.and_eq_true, decide_eq_true_eq]
  omega

theorem rankAsc_trans (a b c : Post) (h1 : rankAsc a b = true) (h2 : rankAsc b c = true) :
    rankAsc a c = true := by
  unfold rankAsc at *
  simp only [Bool.or_eq_true, Bool.and_eq_true, decide_eq_true_eq] at *
  omega

theorem orderBy_perm (desc : Bool) (rows : List Post) : (orderBy desc rows).Perm rows :=
  List.perm_insertionSort _ rows

theorem orderBy_sorted (desc : Bool) (rows : List Post) :
    (orderBy desc rows).Sorted
      (fun a b => (if desc then rankDesc a b else rankAsc a b) = true) := by
  cases desc with
  | true =>
    haveI : IsTotal Post (fun a b => (if true = true then rankDesc a b else rankAsc a b) = true) :=
      ⟨fun a b => by simpa using rankDesc_total a b⟩
    haveI : IsTrans Post (fun a b => (if true = true then rankDesc a b else rankAsc a b) = true) :=
      ⟨fun a b c h1 h2 => by
        simp only [if_true] at h1 h2 ⊢
        exact rankDesc_trans a b c h1 h2⟩
    exact List.sorted_insertionSort _ rows
  | false =>
    haveI : IsTotal Post
        (fun a b => (if false = true then rankDesc a b else rankAsc a b) = true) :=
      ⟨fun a b => by simpa using rankAsc_total a b⟩
    haveI : IsTrans Post
        (fun a b => (if false = true then rankDesc a b else rankAsc a b) = true) :=
      ⟨fun a b c h1 h2 => by
        simp only [Bool.false_eq_true, if_false] at h1 h2 ⊢
        exact rankAsc_trans a b c h1 h2⟩
    exact List.sorted_insertionSort _ rows

theorem orderBy_true_sorted (rows : List Post) :
    (orderBy true rows).Sorted (fun a b => rankDesc a b = true) := by
  have h := orderBy_sorted true rows
  simpa using h

theorem mem_selectPosts (env : QueryEnv) (db : DB) (fdb : FollowDB) (filter : PostFilter)
    (stream : Stream) (p : Post) :
    p ∈ selectPosts env db fdb filter stream ↔
      p ∈ db.posts ∧ whereHolds env fdb.users fdb.follows filter stream p = true := by
  unfold selectPosts
  rw [List.mem_filter, (env.scan_perm db.posts).mem_iff]

/-- The queries of hybrid mode read neither `Page` nor `OrderDesc`. -/
theorem whereHolds_page_order (env : QueryEnv) (users : List User) (follows : List Follow)
    (filter : PostFilter) (page : Int) (orderDesc : Bool) (stream : Stream) :
    whereHolds env users follows { filter with Page := page, OrderDesc := orderDesc } stream =
      whereHolds env users follows filter stream := by
  funext p
  cases stream <;> rfl

theorem selectPosts_page_order (env : QueryEnv) (db : DB) (fdb : FollowDB)
    (filter : PostFilter) (page : Int) (orderDesc : Bool) (stream : Stream) :
    selectPosts env db fdb { filter with Page := page, OrderDesc := orderDesc } stream =
      selectPosts env db fdb filter stream := by
  unfold selectPosts
  rw [whereHolds_page_order]

/-- The plain page is a contiguous part of the ordered selection. -/
theorem plain_page_sorted (desc : Bool) (rows : List Post) (offset limit : Nat) :
    (((orderBy desc rows).drop offset).take limit).Sorted
      (fun a b => (if desc then rankDesc a b else rankAsc a b) = true) :=
  ((orderBy_sorted desc rows).sublist (List.drop_sublist _ _)).sublist (List.take_sublist _ _)

/-- The offset of the non-hybrid query wraps as Go's `int` does: page `2^62 + 1` with
page size 4 has offset 0, and page 3 with page size 4 has offset 8. -/
theorem offset_wraps :
    wrapInt64 ((effectivePage (2 ^ 62 + 1) - 1) * effectivePageSize 4) = 0 ∧
    wrapInt64 ((effectivePage 3 - 1) * effectivePageSize 4) = 8 := by
  refine ⟨by decide, by decide⟩

/-! ### Claims C23, C24, C29 -/

set_option maxRecDepth 100000 in
/-- C23, counterexample: with `order=asc` the non-hybrid page lists the posts by creation
time ascending, and the hybrid page of viewer `1`, who follows author `2`, is not ranked
by creation time at all: it alternates between the following and the global
candidates. -/
theorem QueryPosts_page_not_ranked_descending :
    QueryPostsOn 1 QueryEnv.sample sampleFeed sampleFollowing
        (controllers.postFilter "" 0 "asc" 1 6 none 0 0) =
      some { posts := [mkPostAt 1 2 86400 5, mkPostAt 2 3 172800 1, mkPostAt 3 2 180000 7,
        mkPostAt 4 3 259200 2], total := 4, err := none } ∧
    rankDesc (mkPostAt 1 2 86400 5) (mkPostAt 2 3 172800 1) = false ∧
    QueryPostsOn 5 QueryEnv.sample sampleFeed sampleFollowing
        (controllers.postFilter "" 0 "desc" 1 6 (some 1) 0 0) =
      some { posts := [mkPostAt 3 2 180000 7, mkPostAt 4 3 259200 2, mkPostAt 1 2 86400 5,
        mkPostAt 2 3 172800 1], total := 4, err := none } ∧
    rankDesc (mkPostAt 3 2 180000 7) (mkPostAt 4 3 259200 2) = false := by
  refine ⟨by decide, by decide, by decide, by decide⟩

/-- C23, amended: in hybrid mode each of the two candidate queries ranks its rows by
creation time descending, then by view count descending, and a returned page interleaves
a prefix of each, so the following posts of the page and its global posts are each ranked
so; in non-hybrid mode a returned page is ranked by creation time descending when
`OrderDesc` is set and ascending when it is not, in both cases with view count descending
as the secondary key. -/
theorem QueryPosts_ranking (env : QueryEnv) (db : DB) (fdb : FollowDB) (filter : PostFilter)
    (fuel : Nat) (r : QueryResult)
    (h : QueryPostsOn fuel env db fdb filter = some r) (herr : r.err = none) :
    ((filter.Hybrid = true ∧ filter.FollowingOf ≠ 0) →
      ∃ A B, Interleaving r.posts A B ∧
        A.Sorted (fun a b => rankDesc a b = true) ∧
        B.Sorted (fun a b => rankDesc a b = true) ∧
        (∀ p ∈ A, p ∈ selectPosts env db fdb filter .follow) ∧
        (∀ p ∈ B, p ∈ selectPosts env db fdb filter .global)) ∧
    (¬ (filter.Hybrid = true ∧ filter.FollowingOf ≠ 0) →
      r.posts.Sorted
        (fun a b => (if filter.OrderDesc then rankDesc a b else rankAsc a b) = true)) := by
  constructor
  · rintro ⟨hh, hv⟩
    cases hfe : env.followErr with
    | some e =>
      have hcond : (filter.Hybrid && filter.FollowingOf != 0) = true := by simp [hh, hv]
      unfold QueryPostsOn QueryPosts at h
      rw [if_pos hcond] at h
      simp only [postQueries, hfe] at h
      rw [← Option.some.inj h] at herr
      exact absurd herr (by simp)
    | none =>
      cases hge : env.globalErr with
      | some e =>
        have hcond : (filter.Hybrid && filter.FollowingOf != 0) = true := by simp [hh, hv]
        unfold QueryPostsOn QueryPosts at h
        rw [if_pos hcond] at h
        simp only [postQueries, hfe, hge] at h
        rw [← Option.some.inj h] at herr
        exact absurd herr (by simp)
      | none =>
        have hF : (postQueries env db fdb filter).follow =
            .ok (orderBy true (selectPosts env db fdb filter .follow)) := by
          simp only [postQueries, hfe]
        have hG : (postQueries env db fdb filter).global =
            .ok (orderBy true (selectPosts env db fdb filter .global)) := by
          simp only [postQueries, hge]
        obtain ⟨k, m, _, _, hint, _⟩ :=
          QueryPosts_hybrid_interleaving _ filter _ _ hh hv hF hG fuel r h
        refine ⟨_, _, hint, ?_, ?_, ?_, ?_⟩
        · exact ((orderBy_true_sorted _).sublist (List.take_sublist _ _)).sublist
            (List.take_sublist _ _)
        · exact ((orderBy_true_sorted _).sublist (List.take_sublist _ _)).sublist
            (List.take_sublist _ _)
        · intro p hp
          exact (orderBy_perm true _).mem_iff.mp
            (List.mem_of_mem_take (List.mem_of_mem_take hp))
        · intro p hp
          exact (orderBy_perm true _).mem_iff.mp
            (List.mem_of_mem_take (List.mem_of_mem_take hp))
  · intro hn
    have hcond : ¬ ((filter.Hybrid && filter.FollowingOf != 0) = true) := by
      intro hc
      simp only [Bool.and_eq_true, bne_iff_ne, ne_eq] at hc
      exact hn hc
    unfold QueryPostsOn QueryPosts at h
    rw [if_neg hcond] at h
    cases hpe : env.plainErr with
    | some e =>
      simp only [postQueries, hpe] at h
      rw [← Option.some.inj h] at herr
      exact absurd herr (by simp)
    | none =>
      simp only [postQueries, hpe] at h
      rw [← Option.some.inj h]
      exact plain_page_sorted _ _ _ _

set_option maxRecDepth 100000 in
/-- Witness for C23: the ascending page of the sample store is ranked by creation time
ascending. -/
theorem QueryPosts_ranking_witness :
    List.Sorted (fun a b => rankAsc a b = true)
      [mkPostAt 1 2 86400 5, mkPostAt 2 3 172800 1, mkPostAt 3 2 180000 7,
        mkPostAt 4 3 259200 2] :=
  (QueryPosts_ranking QueryEnv.sample sampleFeed sampleFollowing
    (controllers.postFilter "" 0 "asc" 1 6 none 0 0) 1
    { posts := [mkPostAt 1 2 86400 5, mkPostAt 2 3 172800 1, mkPostAt 3 2 180000 7,
        mkPostAt 4 3 259200 2], total := 4, err := none } (by decide) rfl).2 (by decide)

set_option maxRecDepth 100000 in
/-- C24, the code at a failing input: the handler moves the end date one day on and the
query tests `BETWEEN`, which includes its upper end, so a post passes exactly when
`S <= t <= (E + 1 day)`; with `start_date = end_date =` day `1` the post created at the
first instant of day `2` is on the page. -/
theorem date_range_includes_next_midnight :
    (∀ (keyword order : String) (userId page pageSize : Int) (uid : Option Nat)
        (S E : Nat) (p : Post),
      dateCond (controllers.postFilter keyword userId order page pageSize uid S E) p = true ↔
        (S = 0 ∨ E = 0 ∨ (S ≤ p.CreatedAt ∧ p.CreatedAt ≤ E + 86400))) ∧
    dateCond (controllers.postFilter "" 0 "desc" 1 6 none 86400 86400)
      (mkPostAt 2 3 172800 1) = true ∧
    QueryPostsOn 1 QueryEnv.sample sampleFeed sampleFollowing
        (controllers.postFilter "" 0 "desc" 1 6 none 86400 86400) =
      some { posts := [mkPostAt 2 3 172800 1, mkPostAt 1 2 86400 5],
             total := 2, err := none } := by
  refine ⟨?_, by decide, by decide⟩
  intro keyword order userId page pageSize uid S E p
  unfold controllers.postFilter dateCond
  by_cases hS : S = 0
  · cases uid <;> simp [hS]
  · by_cases hE : E = 0
    · cases uid <;> simp [hE]
    · cases uid <;> simp [hS, hE]

/-- C29: in hybrid mode `QueryPosts` on a store returns the same result, posts and total
alike, whatever `Page` and `OrderDesc` are; in particular every page number yields what
page `1` yields. -/
theorem hybrid_page_ignores_page_and_order (fuel : Nat) (env : QueryEnv) (db : DB)
    (fdb : FollowDB) (filter : PostFilter) (page : Int) (orderDesc : Bool)
    (hh : filter.Hybrid = true) (hv : filter.FollowingOf ≠ 0) :
    QueryPostsOn fuel env db fdb { filter with Page := page, OrderDesc := orderDesc } =
      QueryPostsOn fuel env db fdb filter := by
  have hcond : (filter.Hybrid && filter.FollowingOf != 0) = true := by simp [hh, hv]
  unfold QueryPostsOn QueryPosts
  simp only [hcond, if_true, postQueries, selectPosts_page_order]

set_option maxRecDepth 100000 in
/-- Witness for C29: page `7` in ascending order of the hybrid feed of viewer `1` is the
page that page `1` in descending order gives. -/
theorem hybrid_page_ignores_page_and_order_witness :
    QueryPostsOn 5 QueryEnv.sample sampleFeed sampleFollowing
        { (controllers.postFilter "" 0 "desc" 1 6 (some 1) 0 0) with
          Page := 7, OrderDesc := false } =
      QueryPostsOn 5 QueryEnv.sample sampleFeed sampleFollowing
        (controllers.postFilter "" 0 "desc" 1 6 (some 1) 0 0) ∧
    QueryPostsOn 5 QueryEnv.sample sampleFeed sampleFollowing
        (controllers.postFilter "" 0 "desc" 1 6 (some 1) 0 0) =
      some { posts := [mkPostAt 3 2 180000 7, mkPostAt 4 3 259200 2, mkPostAt 1 2 86400 5,
        mkPostAt 2 3 172800 1], total := 4, err := none } :=
  ⟨hybrid_page_ignores_page_and_order 5 QueryEnv.sample sampleFeed sampleFollowing
      (controllers.postFilter "" 0 "desc" 1 6 (some 1) 0 0) 7 false rfl (by decide),
    by decide⟩

/-! ## Theorems: the rank in a statistics card -/

theorem eq_append_of_isPrefixOf {lit s : List Char} (h : lit.isPrefixOf s = true) :
    s = lit ++ s.drop lit.length := by
  obtain ⟨r, hr⟩ := List.isPrefixOf_iff_prefix.mp h
  rw [← hr, List.drop_left]

theorem lazyUntilClose_sound : ∀ (s acc t : List Char), lazyUntilClose s acc = some t →
    ∃ u post, s = u ++ "</title>".data ++ post ∧ t = acc.reverse ++ u ∧ '\n' ∉ u := by
  intro s
  induction s with
  | nil => intro acc t h; simp [lazyUntilClose] at h
  | cons c cs ih =>
    intro acc t h
    unfold lazyUntilClose at h
    split at h
    · rename_i hp
      refine ⟨[], (c :: cs).drop "</title>".data.length, ?_, ?_, by simp⟩
      · simpa using eq_append_of_isPrefixOf hp
      · simpa using (Option.some.inj h).symm
    · split at h
      · exact absurd h (by simp)
      · rename_i hc
        obtain ⟨u, post, hs, ht, hu⟩ := ih (c :: acc) t h
        refine ⟨c :: u, post, ?_, ?_, ?_⟩
        · simp [hs]
        · simp [ht]
        · simp only [List.mem_cons, not_or]
          exact ⟨fun e => hc e.symm, hu⟩

theorem lazyUntilClose_complete : ∀ (u acc post : List Char), '\n' ∉ u →
    (lazyUntilClose (u ++ "</title>".data ++ post) acc).isSome = true := by
  intro u
  induction u with
  | nil =>
    intro acc post _
    show (lazyUntilClose ('<' :: ("/title>".data ++ post)) acc).isSome = true
    unfold lazyUntilClose
    rw [if_pos (by simp)]
    rfl
  | cons c u ih =>
    intro acc post hn
    simp only [List.mem_cons, not_or] at hn
    show (lazyUntilClose (c :: (u ++ "</title>".data ++ post)) acc).isSome = true
    unfold lazyUntilClose
    split
    · rfl
    · rw [if_neg (fun e => hn.1 e.symm)]
      exact ih (c :: acc) post hn.2

theorem afterOpen_sound : ∀ (s t : List Char), afterOpen s = some t →
    ∃ a post, s = a ++ '>' :: t ++ "</title>".data ++ post ∧ '\n' ∉ a ∧ '\n' ∉ t := by
  intro s
  induction s with
  | nil => intro t h; simp [afterOpen] at h
  | cons c cs ih =>
    intro t h
    unfold afterOpen at h
    split at h
    · rename_i title htitle
      have ht : title = t := Option.some.inj h
      subst ht
      split at htitle
      · rename_i hc
        obtain ⟨u, post, hs, hu, hn⟩ := lazyUntilClose_sound cs [] title htitle
        simp only [List.reverse_nil, List.nil_append] at hu
        subst hu
        exact ⟨[], post, by simp [hc, hs], by simp, hn⟩
      · exact absurd htitle (by simp)
    · split at h
      · exact absurd h (by simp)
      · rename_i hc
        obtain ⟨a, post, hs, ha, ht⟩ := ih t h
        refine ⟨c :: a, post, by simp [hs], ?_, ht⟩
        simp only [List.mem_cons, not_or]
        exact ⟨fun e => hc e.symm, ha⟩

theorem afterOpen_complete : ∀ (a t post : List Char), '\n' ∉ a → '\n' ∉ t →
    (afterOpen (a ++ '>' :: t ++ "</title>".data ++ post)).isSome = true := by
  intro a
  induction a with
  | nil =>
    intro t post _ ht
    show (afterOpen ('>' :: (t ++ "</title>".data ++ post))).isSome = true
    unfold afterOpen
    have h := lazyUntilClose_complete t [] post ht
    rw [if_pos rfl]
    cases hl : lazyUntilClose (t ++ "</title>".data ++ post) [] with
    | none => rw [hl] at h; exact absurd h (by simp)
    | some x => rfl
  | cons c a ih =>
    intro t post ha ht
    simp only [List.mem_cons, not_or] at ha
    show (afterOpen (c :: (a ++ '>' :: t ++ "</title>".data ++ post))).isSome = true
    unfold afterOpen
    split
    · rfl
    · rw [if_neg (fun e => ha.1 e.symm)]
      exact ih t post ha.2 ht

theorem findTitle_sound : ∀ (s t : List Char), findTitle s = some t →
    ∃ pre a post, s = pre ++ "<title".data ++ a ++ '>' :: t ++ "</title>".data ++ post ∧
      '\n' ∉ a ∧ '\n' ∉ t := by
  intro s
  induction s with
  | nil => intro t h; simp [findTitle] at h
  | cons c cs ih =>
    intro t h
    unfold findTitle at h
    split at h
    · rename_i title htitle
      have ht : title = t := Option.some.inj h
      subst ht
      split at htitle
      · rename_i hp
        obtain ⟨a, post, hs, ha, hn⟩ := afterOpen_sound _ _ htitle
        refine ⟨[], a, post, ?_, ha, hn⟩
        have e := eq_append_of_isPrefixOf hp
        have e6 : "<title".data.length = 6 := rfl
        rw [e6, hs] at e
        simpa using e
      · exact absurd htitle (by simp)
    · obtain ⟨pre, a, post, hs, ha, hn⟩ := ih t h
      exact ⟨c :: pre, a, post, by simp [hs], ha, hn⟩

theorem findTitle_complete : ∀ (pre a t post : List Char), '\n' ∉ a → '\n' ∉ t →
    (findTitle (pre ++ "<title".data ++ a ++ '>' :: t ++ "</title>".data ++ post)).isSome
      = true := by
  intro pre
  induction pre with
  | nil =>
    intro a t post ha ht
    have hs : [] ++ "<title".data ++ a ++ '>' :: t ++ "</title>".data ++ post =
        '<' :: ("title".data ++ (a ++ '>' :: t ++ "</title>".data ++ post)) := by simp
    rw [hs]
    unfold findTitle
    have hp2 : "<title".data.isPrefixOf
        ('<' :: ("title".data ++ (a ++ '>' :: t ++ "</title>".data ++ post))) = true := by
      simp
    rw [if_pos hp2]
    have hd : ('<' :: ("title".data ++ (a ++ '>' :: t ++ "</title>".data ++ post))).drop 6 =
        a ++ '>' :: t ++ "</title>".data ++ post := by simp
    rw [hd]
    have h := afterOpen_complete a t post ha ht
    cases hl : afterOpen (a ++ '>' :: t ++ "</title>".data ++ post) with
    | none => rw [hl] at h; exact absurd h (by simp)
    | some x => rfl
  | cons c pre ih =>
    intro a t post ha ht
    show (findTitle
      (c :: (pre ++ "<title".data ++ a ++ '>' :: t ++ "</title>".data ++ post))).isSome = true
    unfold findTitle
    split
    · rfl
    · exact ih a t post ha ht

theorem not_space_of_word (c : Char) (h : isWordRe c = true) : isSpaceRe c = false := by
  cases hs : isSpaceRe c with
  | false => rfl
  | true =>
    unfold isSpaceRe at hs
    simp only [Bool.or_eq_true, decide_eq_true_eq] at hs
    rcases hs with (((h1 | h1) | h1) | h1) | h1 <;> subst h1 <;> exact absurd h (by decide)

theorem afterRank_sound : ∀ (s : List Char) (w : Char), afterRank s = some w →
    ∃ ws post, s = ws ++ w :: post ∧ (∀ c ∈ ws, isSpaceRe c = true) ∧ isWordRe w = true := by
  intro s
  induction s with
  | nil => intro w h; simp [afterRank] at h
  | cons c cs ih =>
    intro w h
    unfold afterRank at h
    split at h
    · rename_i w1 hw1
      have e : w1 = w := Option.some.inj h
      subst e
      split at hw1
      · rename_i hc
        obtain ⟨ws, post, hs, hws, hw⟩ := ih w1 hw1
        refine ⟨c :: ws, post, by simp [hs], ?_, hw⟩
        intro x hx
        rcases List.mem_cons.mp hx with hx | hx
        · rw [hx]; exact hc
        · exact hws x hx
      · exact absurd hw1 (by simp)
    · split at h
      · rename_i hc
        have e : c = w := Option.some.inj h
        subst e
        exact ⟨[], cs, by simp, by simp, hc⟩
      · exact absurd h (by simp)

theorem afterRank_complete : ∀ (ws : List Char) (w : Char) (post : List Char),
    (∀ c ∈ ws, isSpaceRe c = true) → isWordRe w = true →
    afterRank (ws ++ w :: post) = some w := by
  intro ws
  induction ws with
  | nil =>
    intro w post _ hw
    show afterRank (w :: post) = some w
    unfold afterRank
    simp [not_space_of_word w hw, hw]
  | cons c ws ih =>
    intro w post hws hw
    show afterRank (c :: (ws ++ w :: post)) = some w
    unfold afterRank
    have hc : isSpaceRe c = true := hws c (List.mem_cons_self _ _)
    rw [if_pos hc, ih w post (fun x hx => hws x (List.mem_cons_of_mem _ hx)) hw]

theorem findRank_sound : ∀ (t : List Char) (w : Char), findRank t = some w → HasRank t w := by
  intro t
  induction t with
  | nil => intro w h; simp [findRank] at h
  | cons c cs ih =>
    intro w h
    unfold findRank at h
    split at h
    · rename_i w1 hw1
      have e : w1 = w := Option.some.inj h
      subst e
      split at hw1
      · rename_i hp
        obtain ⟨ws, post, hs, hws, hw⟩ := afterRank_sound _ _ hw1
        refine ⟨[], ws, post, ?_, hws, hw⟩
        have e := eq_append_of_isPrefixOf hp
        have e5 : "Rank:".data.length = 5 := rfl
        rw [e5, hs] at e
        simpa using e
      · exact absurd hw1 (by simp)
    · obtain ⟨pre, ws, post, hs, hws, hw⟩ := ih w h
      exact ⟨c :: pre, ws, post, by simp [hs], hws, hw⟩

theorem findRank_complete : ∀ (pre ws : List Char) (w : Char) (post : List Char),
    (∀ c ∈ ws, isSpaceRe c = true) → isWordRe w = true →
    (findRank (pre ++ "Rank:".data ++ ws ++ w :: post)).isSome = true := by
  intro pre
  induction pre with
  | nil =>
    intro ws w post hws hw
    have hs : [] ++ "Rank:".data ++ ws ++ w :: post =
        'R' :: ("ank:".data ++ (ws ++ w :: post)) := by simp
    rw [hs]
    unfold findRank
    have hp2 : "Rank:".data.isPrefixOf ('R' :: ("ank:".data ++ (ws ++ w :: post))) = true := by
      simp
    rw [if_pos hp2]
    have hd : ('R' :: ("ank:".data ++ (ws ++ w :: post))).drop 5 = ws ++ w :: post := by simp
    rw [hd, afterRank_complete ws w post hws hw]
    rfl
  | cons c pre ih =>
    intro ws w post hws hw
    show (findRank (c :: (pre ++ "Rank:".data ++ ws ++ w :: post))).isSome = true
    unfold findRank
    split
    · rfl
    · exact ih ws w post hws hw

theorem findRank_isSome_iff (t : List Char) :
    (findRank t).isSome = true ↔ ∃ w, HasRank t w := by
  constructor
  · intro h
    cases hr : findRank t with
    | none => rw [hr] at h; exact absurd h (by simp)
    | some w => exact ⟨w, findRank_sound t w hr⟩
  · rintro ⟨w, pre, ws, post, hs, hws, hw⟩
    rw [hs]
    exact findRank_complete pre ws w post hws hw

/-! ### The first match -/

theorem lazyUntilClose_shortest : ∀ (s acc t : List Char), lazyUntilClose s acc = some t →
    ∃ u post, s = u ++ "</title>".data ++ post ∧ t = acc.reverse ++ u ∧ '\n' ∉ u ∧
      ∀ u2 post2, s = u2 ++ "</title>".data ++ post2 → u.length ≤ u2.length := by
  intro s
  induction s with
  | nil => intro acc t h; simp [lazyUntilClose] at h
  | cons c cs ih =>
    intro acc t h
    unfold lazyUntilClose at h
    split at h
    · rename_i hp
      refine ⟨[], (c :: cs).drop "</title>".data.length, ?_, ?_, by simp, ?_⟩
      · simpa using eq_append_of_isPrefixOf hp
      · simpa using (Option.some.inj h).symm
      · intro u2 post2 _
        exact Nat.zero_le _
    · rename_i hp
      split at h
      · exact absurd h (by simp)
      · rename_i hc
        obtain ⟨u, post, hs, ht, hu, hmin⟩ := ih (c :: acc) t h
        refine ⟨c :: u, post, ?_, ?_, ?_, ?_⟩
        · simp [hs]
        · simp [ht]
        · simp only [List.mem_cons, not_or]
          exact ⟨fun e => hc e.symm, hu⟩
        · intro u2 post2 h2
          cases u2 with
          | nil =>
            exfalso
            apply hp
            rw [h2, List.nil_append]
            exact List.isPrefixOf_iff_prefix.mpr (List.prefix_append _ _)
          | cons x u3 =>
            have h3 : cs = u3 ++ "</title>".data ++ post2 := by
              simp only [List.cons_append] at h2
              exact (List.cons.inj h2).2
            have := hmin u3 post2 h3
            simp only [List.length_cons]
            omega

theorem afterOpen_first : ∀ (s t : List Char), afterOpen s = some t →
    ∃ a post, s = a ++ '>' :: t ++ "</title>".data ++ post ∧ '\n' ∉ a ∧ '\n' ∉ t ∧
      '>' ∉ a ∧
      ∀ t2 post2, t ++ "</title>".data ++ post = t2 ++ "</title>".data ++ post2 →
        t.length ≤ t2.length := by
  intro s
  induction s with
  | nil => intro t h; simp [afterOpen] at h
  | cons c cs ih =>
    intro t h
    unfold afterOpen at h
    split at h
    · rename_i title htitle
      have ht : title = t := Option.some.inj h
      subst ht
      split at htitle
      · rename_i hc
        obtain ⟨u, post, hs, hu, hn, hmin⟩ := lazyUntilClose_shortest cs [] title htitle
        simp only [List.reverse_nil, List.nil_append] at hu
        subst hu
        refine ⟨[], post, by simp [hc, hs], by simp, hn, by simp, ?_⟩
        intro t2 post2 h2
        exact hmin t2 post2 (hs.trans h2)
      · exact absurd htitle (by simp)
    · rename_i hnone
      split at h
      · exact absurd h (by simp)
      · rename_i hc
        obtain ⟨a, post, hs, ha, ht, hgt, hmin⟩ := ih t h
        refine ⟨c :: a, post, by simp [hs], ?_, ht, ?_, hmin⟩
        · simp only [List.mem_cons, not_or]
          exact ⟨fun e => hc e.symm, ha⟩
        · simp only [List.mem_cons, not_or]
          refine ⟨fun e => ?_, hgt⟩
          have hcs : cs = (a ++ '>' :: t) ++ "</title>".data ++ post := by
            rw [hs]
          have hnl : '\n' ∉ a ++ '>' :: t := by
            simp only [List.mem_append, List.mem_cons, not_or]
            exact ⟨ha, by decide, ht⟩
          have hsome := lazyUntilClose_complete (a ++ '>' :: t) [] post hnl
          rw [← hcs] at hsome
          rw [if_pos e.symm] at hnone
          rw [hnone] at hsome
          exact absurd hsome (by simp)

/-- The title expression tried at a place where `<title` starts. -/
theorem title_attempt (rest : List Char) :
    (if "<title".data.isPrefixOf ("<title".data ++ rest) = true
      then afterOpen (("<title".data ++ rest).drop 6) else none) = afterOpen rest := by
  rw [if_pos (List.isPrefixOf_iff_prefix.mpr (List.prefix_append _ _))]
  rfl

theorem findTitle_first : ∀ (s t : List Char), findTitle s = some t → FirstTitle s t := by
  intro s
  induction s with
  | nil => intro t h; simp [findTitle] at h
  | cons c cs ih =>
    intro t h
    unfold findTitle at h
    split at h
    · rename_i title htitle
      have ht : title = t := Option.some.inj h
      subst ht
      split at htitle
      · rename_i hp
        obtain ⟨a, post, hs, ha, hn, hgt, hmin⟩ := afterOpen_first _ _ htitle
        refine ⟨[], a, post, ?_, ha, hn, hgt, hmin, ?_⟩
        · have e := eq_append_of_isPrefixOf hp
          have e6 : "<title".data.length = 6 := rfl
          rw [e6, hs] at e
          simpa using e
        · intro pre2 a2 t2 post2 _ _ _
          exact Nat.zero_le _
      · exact absurd htitle (by simp)
    · rename_i hnone
      obtain ⟨pre, a, post, hs, ha, hn, hgt, hmin, hleft⟩ := ih t h
      refine ⟨c :: pre, a, post, by simp [hs], ha, hn, hgt, hmin, ?_⟩
      intro pre2 a2 t2 post2 h2 ha2 ht2
      cases pre2 with
      | nil =>
        exfalso
        have h3 : c :: cs = "<title".data ++ (a2 ++ '>' :: t2 ++ "</title>".data ++ post2) := by
          rw [h2]; simp
        rw [h3, title_attempt] at hnone
        have hsome := afterOpen_complete a2 t2 post2 ha2 ht2
        rw [hnone] at hsome
        exact absurd hsome (by simp)
      | cons x pre3 =>
        have h3 : cs = pre3 ++ "<title".data ++ a2 ++ '>' :: t2 ++ "</title>".data ++ post2 := by
          simp only [List.cons_append] at h2
          exact (List.cons.inj h2).2
        have := hleft pre3 a2 t2 post2 h3 ha2 ht2
        simp only [List.length_cons]
        omega

/-- Two splittings of a text at the first occurrence of a character agree. -/
theorem split_first_unique (c : Char) : ∀ (a1 a2 r1 r2 : List Char),
    a1 ++ c :: r1 = a2 ++ c :: r2 → c ∉ a1 → c ∉ a2 → a1 = a2 ∧ r1 = r2 := by
  intro a1
  induction a1 with
  | nil =>
    intro a2 r1 r2 h _ h2
    cases a2 with
    | nil => exact ⟨rfl, (List.cons.inj h).2⟩
    | cons y a2 =>
      exfalso
      apply h2
      have := (List.cons.inj h).1
      rw [this]
      exact List.mem_cons_self _ _
  | cons x a1 ih =>
    intro a2 r1 r2 h h1 h2
    cases a2 with
    | nil =>
      exfalso
      apply h1
      have := (List.cons.inj h).1
      rw [← this]
      exact List.mem_cons_self _ _
    | cons y a2 =>
      have hh := List.cons.inj h
      have := ih a2 r1 r2 hh.2 (fun m => h1 (List.mem_cons_of_mem _ m))
        (fun m => h2 (List.mem_cons_of_mem _ m))
      exact ⟨by rw [hh.1, this.1], this.2⟩

theorem FirstTitle_unique (s t1 t2 : List Char) (h1 : FirstTitle s t1)
    (h2 : FirstTitle s t2) : t1 = t2 := by
  obtain ⟨p1, a1, q1, hs1, hn1, hm1, hg1, hmin1, hl1⟩ := h1
  obtain ⟨p2, a2, q2, hs2, hn2, hm2, hg2, hmin2, hl2⟩ := h2
  have hlen : p1.length = p2.length :=
    Nat.le_antisymm (hl1 p2 a2 t2 q2 hs2 hn2 hm2) (hl2 p1 a1 t1 q1 hs1 hn1 hm1)
  have e1 : s = p1 ++ ("<title".data ++ (a1 ++ '>' :: (t1 ++ "</title>".data ++ q1))) := by
    rw [hs1]; simp
  have e2 : s = p2 ++ ("<title".data ++ (a2 ++ '>' :: (t2 ++ "</title>".data ++ q2))) := by
    rw [hs2]; simp
  have e := List.append_inj (e1.symm.trans e2) hlen
  have e3 := List.append_cancel_left e.2
  have e4 := split_first_unique '>' a1 a2 _ _ e3 hg1 hg2
  have hle1 := hmin1 t2 q2 e4.2
  have hle2 := hmin2 t1 q1 e4.2.symm
  have e5 : t1 ++ ("</title>".data ++ q1) = t2 ++ ("</title>".data ++ q2) := by
    have := e4.2
    simpa using this
  exact (List.append_inj e5 (Nat.le_antisymm hle1 hle2)).1

theorem findTitle_iff_first (s t : List Char) : findTitle s = some t ↔ FirstTitle s t := by
  constructor
  · exact findTitle_first s t
  · intro h
    have hcopy := h
    obtain ⟨pre, a, post, hs, ha, ht, _, _, _⟩ := hcopy
    have hsome := findTitle_complete pre a t post ha ht
    rw [← hs] at hsome
    cases hf : findTitle s with
    | none => rw [hf] at hsome; exact absurd hsome (by simp)
    | some t0 =>
      have h0 := findTitle_first s t0 hf
      rw [FirstTitle_unique s t0 t h0 h]

/-- The rank expression tried at a place where `Rank:` starts. -/
theorem rank_attempt (rest : List Char) :
    (if "Rank:".data.isPrefixOf ("Rank:".data ++ rest) = true
      then afterRank (("Rank:".data ++ rest).drop 5) else none) = afterRank rest := by
  rw [if_pos (List.isPrefixOf_iff_prefix.mpr (List.prefix_append _ _))]
  rfl

theorem findRank_first : ∀ (t : List Char) (w : Char), findRank t = some w →
    FirstRank t w := by
  intro t
  induction t with
  | nil => intro w h; simp [findRank] at h
  | cons c cs ih =>
    intro w h
    unfold findRank at h
    split at h
    · rename_i w1 hw1
      have e : w1 = w := Option.some.inj h
      subst e
      split at hw1
      · rename_i hp
        obtain ⟨ws, post, hs, hws, hw⟩ := afterRank_sound _ _ hw1
        refine ⟨[], ws, post, ?_, hws, hw, ?_⟩
        · have e := eq_append_of_isPrefixOf hp
          have e5 : "Rank:".data.length = 5 := rfl
          rw [e5, hs] at e
          simpa using e
        · intro pre2 ws2 w2 post2 _ _ _
          exact Nat.zero_le _
      · exact absurd hw1 (by simp)
    · rename_i hnone
      obtain ⟨pre, ws, post, hs, hws, hw, hleft⟩ := ih w h
      refine ⟨c :: pre, ws, post, by simp [hs], hws, hw, ?_⟩
      intro pre2 ws2 w2 post2 h2 hws2 hw2
      cases pre2 with
      | nil =>
        exfalso
        have h3 : c :: cs = "Rank:".data ++ (ws2 ++ w2 :: post2) := by
          rw [h2]; simp
        rw [h3, rank_attempt, afterRank_complete ws2 w2 post2 hws2 hw2] at hnone
        exact absurd hnone (by simp)
      | cons x pre3 =>
        have h3 : cs = pre3 ++ "Rank:".data ++ ws2 ++ w2 :: post2 := by
          simp only [List.cons_append] at h2
          exact (List.cons.inj h2).2
        have := hleft pre3 ws2 w2 post2 h3 hws2 hw2
        simp only [List.length_cons]
        omega

/-- Whitespace followed by a word character splits in one way only. -/
theorem spaces_then_word_unique : ∀ (ws1 ws2 : List Char) (w1 w2 : Char) (r1 r2 : List Char),
    ws1 ++ w1 :: r1 = ws2 ++ w2 :: r2 →
    (∀ c ∈ ws1, isSpaceRe c = true) → (∀ c ∈ ws2, isSpaceRe c = true) →
    isWordRe w1 = true → isWordRe w2 = true → w1 = w2 := by
  intro ws1
  induction ws1 with
  | nil =>
    intro ws2 w1 w2 r1 r2 h _ h2 hw1 _
    cases ws2 with
    | nil => exact (List.cons.inj h).1
    | cons y ws2 =>
      exfalso
      have e := (List.cons.inj h).1
      have hy := h2 y (List.mem_cons_self _ _)
      rw [← e, not_space_of_word w1 hw1] at hy
      exact absurd hy (by simp)
  | cons x ws1 ih =>
    intro ws2 w1 w2 r1 r2 h h1 h2 hw1 hw2
    cases ws2 with
    | nil =>
      exfalso
      have e := (List.cons.inj h).1
      have hx := h1 x (List.mem_cons_self _ _)
      rw [e, not_space_of_word w2 hw2] at hx
      exact absurd hx (by simp)
    | cons y ws2 =>
      exact ih ws2 w1 w2 r1 r2 (List.cons.inj h).2
        (fun c hc => h1 c (List.mem_cons_of_mem _ hc))
        (fun c hc => h2 c (List.mem_cons_of_mem _ hc)) hw1 hw2

theorem FirstRank_unique (t : List Char) (w1 w2 : Char) (h1 : FirstRank t w1)
    (h2 : FirstRank t w2) : w1 = w2 := by
  obtain ⟨p1, s1, q1, ht1, hs1, hw1, hl1⟩ := h1
  obtain ⟨p2, s2, q2, ht2, hs2, hw2, hl2⟩ := h2
  have hlen : p1.length = p2.length :=
    Nat.le_antisymm (hl1 p2 s2 w2 q2 ht2 hs2 hw2) (hl2 p1 s1 w1 q1 ht1 hs1 hw1)
  have e1 : t = p1 ++ ("Rank:".data ++ (s1 ++ w1 :: q1)) := by
    rw [ht1]; simp
  have e2 : t = p2 ++ ("Rank:".data ++ (s2 ++ w2 :: q2)) := by
    rw [ht2]; simp
  have e := List.append_inj (e1.symm.trans e2) hlen
  have e3 := List.append_cancel_left e.2
  exact spaces_then_word_unique s1 s2 w1 w2 q1 q2 e3 hs1 hs2 hw1 hw2

theorem findRank_iff_first (t : List Char) (w : Char) :
    findRank t = some w ↔ FirstRank t w := by
  constructor
  · exact findRank_first t w
  · intro h
    have hcopy := h
    obtain ⟨pre, ws, post, hs, hws, hw, _⟩ := hcopy
    have hsome := findRank_complete pre ws w post hws hw
    rw [← hs] at hsome
    cases hf : findRank t with
    | none => rw [hf] at hsome; exact absurd hsome (by simp)
    | some w0 =>
      have h0 := findRank_first t w0 hf
      rw [FirstRank_unique t w0 w h0 h]

/-! ### Claim C25 -/

/-- C25, counterexample: a text with two title elements of which only the second has a
rank; `FindStringSubmatch` gives the leftmost match, the title `a`, and `GetGitRank`
returns the empty string with the error that no rank was found. -/
theorem GetGitRank_second_title_ignored :
    GetGitRank "<title>a</title><title>Rank: A</title>" =
      ("", some "failed to find rank in title") ∧
    findTitle "<title>a</title><title>Rank: A</title>".data = some ['a'] ∧
    findRank "Rank: A".data = some 'A' := by
  refine ⟨by decide, by decide, by decide⟩

/-- C25, amended: the title expression matches exactly when the text has a title element
on one line, and the title that `GetGitRank` reads is the group of its first match: the
leftmost title element, its text taken up to the first `</title>`.  `GetGitRank` succeeds
exactly when that first title has `Rank:` followed by optional whitespace and a word
character, and it then returns the word character of the leftmost such place, alone.
When the text has no title element it returns the empty string with the error about the
title; when the first title has no rank it returns the empty string with the error about
the rank, whatever a later title holds. -/
theorem GetGitRank_first_title_decides (content : String) :
    ((findTitle content.data).isSome = true ↔ TitleElement content.data) ∧
    (∀ t, findTitle content.data = some t ↔ FirstTitle content.data t) ∧
    (∀ t w, findRank t = some w ↔ FirstRank t w) ∧
    (∀ r, GetGitRank content = (r, none) ↔
      ∃ t w, FirstTitle content.data t ∧ FirstRank t w ∧ r = String.mk [w]) ∧
    ((GetGitRank content).2 = none ↔
      ∃ t, FirstTitle content.data t ∧ ∃ w, HasRank t w) ∧
    (¬ TitleElement content.data ↔
      GetGitRank content = ("", some "failed to find <title> tag in content")) ∧
    (∀ t, FirstTitle content.data t →
      ((¬ ∃ w, HasRank t w) ↔
        GetGitRank content = ("", some "failed to find rank in title"))) ∧
    ((GetGitRank content).2 ≠ none → (GetGitRank content).1 = "") := by
  have helem : (findTitle content.data).isSome = true ↔ TitleElement content.data := by
    constructor
    · intro h
      cases hf : findTitle content.data with
      | none => rw [hf] at h; exact absurd h (by simp)
      | some t =>
        obtain ⟨pre, a, post, hs, ha, ht⟩ := findTitle_sound _ _ hf
        exact ⟨pre, a, t, post, hs, ha, ht⟩
    · rintro ⟨pre, a, t, post, hs, ha, ht⟩
      rw [hs]
      exact findTitle_complete pre a t post ha ht
  refine ⟨helem, fun t => findTitle_iff_first _ t, fun t w => findRank_iff_first t w,
    ?_, ?_, ?_, ?_, ?_⟩
  · intro r
    constructor
    · intro hr
      unfold GetGitRank at hr
      cases hf : findTitle content.data with
      | none => simp [hf] at hr
      | some t =>
        simp only [hf] at hr
        cases hw : findRank t with
        | none => simp [hw] at hr
        | some w =>
          simp only [hw, Prod.mk.injEq, and_true] at hr
          exact ⟨t, w, findTitle_first _ t hf, findRank_first t w hw, hr.symm⟩
    · rintro ⟨t, w, ht, hw, hr⟩
      have hf := (findTitle_iff_first _ t).mpr ht
      have hk := (findRank_iff_first t w).mpr hw
      unfold GetGitRank
      simp only [hf, hk, hr]
  · constructor
    · intro h
      unfold GetGitRank at h
      cases hf : findTitle content.data with
      | none => simp [hf] at h
      | some t =>
        simp only [hf] at h
        cases hw : findRank t with
        | none => simp [hw] at h
        | some w => exact ⟨t, findTitle_first _ t hf, w, findRank_sound t w hw⟩
    · rintro ⟨t, ht, hw⟩
      have hf := (findTitle_iff_first _ t).mpr ht
      have hk := (findRank_isSome_iff t).mpr hw
      unfold GetGitRank
      simp only [hf]
      cases hr : findRank t with
      | none => rw [hr] at hk; exact absurd hk (by simp)
      | some w => rfl
  · constructor
    · intro hno
      have hf : findTitle content.data = none := by
        cases hf : findTitle content.data with
        | none => rfl
        | some t => exact absurd (helem.mp (by rw [hf]; rfl)) hno
      unfold GetGitRank
      simp only [hf]
    · intro hres hT
      have hsome := helem.mpr hT
      unfold GetGitRank at hres
      cases hf : findTitle content.data with
      | none => rw [hf] at hsome; exact absurd hsome (by simp)
      | some t =>
        simp only [hf] at hres
        cases hw : findRank t with
        | none =>
          simp only [hw, Prod.mk.injEq, true_and, Option.some.injEq] at hres
          exact absurd hres (by decide)
        | some w => simp [hw] at hres
  · intro t ht
    have hf := (findTitle_iff_first _ t).mpr ht
    constructor
    · intro hno
      have hk : findRank t = none := by
        cases hk : findRank t with
        | none => rfl
        | some w => exact absurd ⟨w, findRank_sound t w hk⟩ hno
      unfold GetGitRank
      simp only [hf, hk]
    · intro hres hw
      have hk := (findRank_isSome_iff t).mpr hw
      unfold GetGitRank at hres
      simp only [hf] at hres
      cases hr : findRank t with
      | none => rw [hr] at hk; exact absurd hk (by simp)
      | some w => simp [hr] at hres
  · intro h
    unfold GetGitRank at h ⊢
    cases hf : findTitle content.data with
    | none => simp only [hf]
    | some t =>
      simp only [hf] at h ⊢
      cases hw : findRank t with
      | none => simp only [hw]
      | some w => simp only [hw] at h; exact absurd rfl h

set_option maxRecDepth 1000000 in
/-- Witness for C25: the three inputs of `TestGetGitRank` (the card whose title ends in
`Rank: B+` yields `B`), and the text with two title elements, whose first title is `a`. -/
theorem GetGitRank_first_title_decides_witness :
    GetGitRank svgRanked = ("B", none) ∧
    GetGitRank svgUnranked = ("", some "failed to find rank in title") ∧
    GetGitRank svgUntitled = ("", some "failed to find <title> tag in content") ∧
    FirstTitle "<title>a</title><title>Rank: A</title>".data ['a'] ∧
    FirstRank "GitHub Stats, Rank: B+".data 'B' :=
  ⟨by decide, by decide,
    (GetGitRank_first_title_decides svgUntitled).2.2.2.2.2.1.mp
      (fun hT => absurd ((GetGitRank_first_title_decides svgUntitled).1.mpr hT) (by decide)),
    ((GetGitRank_first_title_decides "<title>a</title><title>Rank: A</title>").2.1
      ['a']).mp (by decide),
    ((GetGitRank_first_title_decides "").2.2.1 "GitHub Stats, Rank: B+".data 'B').mp
      (by decide)⟩

/-! ## Theorems: the status of a list of posts -/

theorem mem_foldl_keyInsert (l : List Nat) (a : Nat) :
    ∀ m : List Nat, a ∈ l.foldl keyInsert m ↔ a ∈ m ∨ a ∈ l := by
  induction l with
  | nil => intro m; simp
  | cons x rest ih =>
    intro m
    rw [List.foldl_cons, ih]
    unfold keyInsert
    by_cases hx : x ∈ m
    · rw [if_pos hx]
      constructor
      · rintro (h | h)
        · exact Or.inl h
        · exact Or.inr (List.mem_cons_of_mem _ h)
      · rintro (h | h)
        · exact Or.inl h
        · rcases List.mem_cons.mp h with h | h
          · exact Or.inl (h ▸ hx)
          · exact Or.inr h
    · rw [if_neg hx]
      simp only [List.mem_append, List.mem_cons, List.not_mem_nil, or_false]
      constructor
      · rintro ((h | h) | h)
        · exact Or.inl h
        · exact Or.inr (Or.inl h)
        · exact Or.inr (Or.inr h)
      · rintro (h | h | h)
        · exact Or.inl (Or.inl h)
        · exact Or.inl (Or.inr h)
        · exact Or.inr h

theorem mem_pluckAuthors (posts : List Post) (postIDs : List Nat) (a : Nat) :
    a ∈ pluckAuthors posts postIDs ↔
      ∃ p ∈ posts, p.ID ∈ postIDs ∧ p.DeletedAt = none ∧ p.UserId = a := by
  unfold pluckAuthors
  simp only [List.mem_map, List.mem_filter, Bool.and_eq_true, decide_eq_true_eq,
    Option.isNone_iff_eq_none]
  constructor
  · rintro ⟨p, ⟨hp, hid, hd⟩, ha⟩
    exact ⟨p, hp, hid, hd, ha⟩
  · rintro ⟨p, hp, hid, hd, ha⟩
    exact ⟨p, ⟨hp, hid, hd⟩, ha⟩

theorem mem_pluckPostIDs (rows : List PostLike) (u : Nat) (postIDs : List Nat) (pid : Nat) :
    pid ∈ pluckPostIDs rows u postIDs ↔
      pid ∈ postIDs ∧ ∃ r ∈ rows, isActivePair pid u r = true := by
  unfold pluckPostIDs isActivePair isPair
  simp only [List.mem_map, List.mem_filter, Bool.and_eq_true, decide_eq_true_eq]
  constructor
  · rintro ⟨r, ⟨hr, ⟨hu, hp⟩, hd⟩, rfl⟩
    exact ⟨hp, r, hr, ⟨rfl, hu⟩, hd⟩
  · rintro ⟨hp, r, hr, ⟨hid, hu⟩, hd⟩
    exact ⟨r, ⟨hr, ⟨hu, hid ▸ hp⟩, hd⟩, hid⟩

theorem stateGet_foldl_marked (ids : List Nat) (id : Nat) :
    ∀ m : List (Nat × Bool),
      (stateGet (ids.foldl (fun m id => stateSet m id true) m) id = true ↔
        id ∈ ids ∨ stateGet m id = true) := by
  induction ids with
  | nil => intro m; simp
  | cons a rest ih =>
    intro m
    rw [List.foldl_cons, ih, stateGet_cons]
    by_cases h : a = id
    · simp [h]
    · have h2 : ¬ id = a := fun e => h e.symm
      simp [h, h2]

/-- With at most one live row per pair, the plucked `following_id` values do not repeat. -/
theorem followed_nodup (fdb : FollowDB) (huniq : ActiveEdgesUnique fdb) (u : Nat)
    (ids : List Nat) :
    ((findFollows fdb.follows u ids).map (fun f => f.FollowingID)).Nodup := by
  rw [List.nodup_iff_count_le_one]
  intro a
  refine Nat.le_trans ?_ (huniq u a)
  unfold findFollows
  rw [List.count_eq_countP, List.countP_map, List.countP_filter]
  apply List.countP_mono_left
  intro f _ hf
  unfold isActiveEdge
  simp only [Function.comp_apply, Bool.and_eq_true, beq_iff_eq, decide_eq_true_eq] at hf ⊢
  exact ⟨⟨hf.2.1.1, hf.1⟩, hf.2.2⟩

theorem GetUserFollowStatusForPosts_ok (ko : KeyOrder) (db : DB) (fdb : FollowDB)
    (huniq : ActiveEdgesUnique fdb) (userID : Nat) (postIDs : List Nat) :
    ∃ following, GetUserFollowStatusForPosts false false ko db fdb userID postIDs =
        .ok following ∧ following.Nodup ∧
      ∀ a, a ∈ following ↔
        (∃ p ∈ db.posts, p.ID ∈ postIDs ∧ p.DeletedAt = none ∧ p.UserId = a) ∧
        ∃ f ∈ fdb.follows, isActiveEdge userID a f = true := by
  have hmem : ∀ a, a ∈ ko.visit ((pluckAuthors db.posts postIDs).foldl keyInsert []) ↔
      ∃ p ∈ db.posts, p.ID ∈ postIDs ∧ p.DeletedAt = none ∧ p.UserId = a := by
    intro a
    rw [(ko.perm _).mem_iff, mem_foldl_keyInsert, mem_pluckAuthors]
    simp
  unfold GetUserFollowStatusForPosts
  simp only [Bool.false_eq_true, if_false]
  by_cases hlen : (ko.visit ((pluckAuthors db.posts postIDs).foldl keyInsert [])).length > 0
  · rw [if_pos hlen]
    refine ⟨_, rfl, followed_nodup fdb huniq userID _, ?_⟩
    intro a
    simp only [List.mem_map]
    constructor
    · rintro ⟨f, hf, rfl⟩
      rw [mem_findFollows] at hf
      exact ⟨(hmem _).mp hf.2.1, f, hf.1, hf.2.2⟩
    · rintro ⟨hp, f, hf, hact⟩
      have hid : f.FollowingID = a := by
        unfold isActiveEdge at hact
        simp only [Bool.and_eq_true, decide_eq_true_eq] at hact
        exact hact.1.2
      refine ⟨f, ?_, hid⟩
      rw [mem_findFollows]
      exact ⟨hf, hid ▸ (hmem a).mpr hp, hid ▸ hact⟩
  · rw [if_neg hlen]
    refine ⟨[], rfl, List.nodup_nil, ?_⟩
    intro a
    have hnil : ko.visit ((pluckAuthors db.posts postIDs).foldl keyInsert []) = [] :=
      List.length_eq_zero.mp (Nat.eq_zero_of_not_pos hlen)
    constructor
    · intro h; exact absurd h (List.not_mem_nil a)
    · rintro ⟨hp, _⟩
      have := (hmem a).mpr hp
      rw [hnil] at this
      exact absurd this (List.not_mem_nil a)

/-- A successful follow request keeps the live rows of each pair unique, and so does
every rejected one. -/
theorem controllers_FollowUser_keeps_unique (env : FollowEnv) (fdb : FollowDB)
    (idParam : Option Int) (uid : Option Nat) (huniq : ActiveEdgesUnique fdb) :
    ActiveEdgesUnique (controllers.FollowUser env fdb idParam uid).1 := by
  unfold controllers.FollowUser
  cases idParam with
  | none => exact huniq
  | some id =>
    cases uid with
    | none => exact huniq
    | some followerID =>
      simp only
      split
      · exact huniq
      · cases GetUserById env.userErr fdb (uintOfInt id) with
        | error e => exact huniq
        | ok u =>
          simp only
          cases hf : IsFollowing env.followingErr fdb followerID (uintOfInt id) with
          | error e => exact huniq
          | ok isF =>
            simp only
            cases isF with
            | true => exact huniq
            | false =>
              simp only [Bool.false_eq_true, if_false]
              have hnone : fdb.follows.countP (isActiveEdge followerID (uintOfInt id)) = 0 := by
                have herr : env.followingErr = false := by
                  cases he : env.followingErr with
                  | false => rfl
                  | true =>
                    rw [he] at hf
                    simp [IsFollowing, firstFollow] at hf
                rw [herr, IsFollowing_eq_any] at hf
                have hany : fdb.follows.any (isActiveEdge followerID (uintOfInt id)) = false := by
                  injection hf
                rw [List.countP_eq_zero]
                intro f hfm
                rw [List.any_eq_false] at hany
                exact hany f hfm
              have hres : ActiveEdgesUnique
                  (DevPlaza.FollowUser env.writeErr env.newID fdb followerID (uintOfInt id)).1 := by
                unfold DevPlaza.FollowUser
                split
                · exact huniq
                · split
                  · exact huniq
                  · split
                    · exact huniq
                    · intro a b
                      show List.countP (isActiveEdge a b) (fdb.follows ++ _) ≤ 1
                      rw [List.countP_append]
                      by_cases hab : a = followerID ∧ b = uintOfInt id
                      · rw [hab.1, hab.2, hnone]
                        simp only [List.countP_cons, List.countP_nil]
                        split <;> omega
                      · have hz : List.countP (isActiveEdge a b)
                            [({ ID := env.newID, FollowerID := followerID,
                                FollowingID := uintOfInt id, DeletedAt := none } : Follow)] = 0 := by
                          rw [List.countP_eq_zero]
                          intro f hfm
                          rw [List.mem_singleton] at hfm
                          subst hfm
                          unfold isActiveEdge
                          simp only [Bool.and_eq_true, decide_eq_true_eq, not_and]
                          intro h1
                          exact absurd ⟨h1.1.symm, h1.2.symm⟩ hab
                        rw [hz]
                        exact huniq a b
              cases hr : DevPlaza.FollowUser env.writeErr env.newID fdb followerID (uintOfInt id) with
              | mk fdb2 e =>
                rw [hr] at hres
                cases e <;> exact hres

/-- An unfollow request keeps the live rows of each pair unique. -/
theorem controllers_UnfollowUser_keeps_unique (env : FollowEnv) (fdb : FollowDB)
    (idParam : Option Int) (uid : Option Nat) (huniq : ActiveEdgesUnique fdb) :
    ActiveEdgesUnique (controllers.UnfollowUser env fdb idParam uid).1 := by
  have hres : ∀ a b, ActiveEdgesUnique (DevPlaza.UnfollowUser env.writeErr env.now fdb a b).1 := by
    intro a b
    unfold DevPlaza.UnfollowUser
    split
    · exact huniq
    · intro x y
      show List.countP (isActiveEdge x y) (fdb.follows.map _) ≤ 1
      rw [List.countP_map]
      refine Nat.le_trans (List.countP_mono_left ?_) (huniq x y)
      intro f _ hf
      simp only [Function.comp_apply] at hf
      split at hf
      · simp [isActiveEdge] at hf
      · exact hf
  unfold controllers.UnfollowUser
  cases idParam with
  | none => exact huniq
  | some id =>
    cases uid with
    | none => exact huniq
    | some followerID =>
      simp only
      split
      · exact huniq
      · cases GetUserById env.userErr fdb (uintOfInt id) with
        | error e => exact huniq
        | ok u =>
          simp only
          cases IsFollowing env.followingErr fdb followerID (uintOfInt id) with
          | error e => exact huniq
          | ok isF =>
            simp only
            cases isF with
            | false => exact huniq
            | true =>
              simp only [Bool.not_true, Bool.false_eq_true, if_false]
              have h := hres followerID (uintOfInt id)
              cases hr : DevPlaza.UnfollowUser env.writeErr env.now fdb followerID
                  (uintOfInt id) with
              | mk fdb2 e =>
                rw [hr] at h
                cases e <;> exact h

/-! ### Claim C22 -/

/-- C22: when `ids` parses to the list `postIDs`, no query fails, and each pair has at
most one live follow row, `GetPostStatus` answers 200 with one status entry per requested
id, in request order, whose `Liked` resp. `Favorited` flag is true exactly when the viewer
has a live like resp. favorite on that post, and with a `Followed` list that holds exactly
the authors of the live requested posts that the viewer follows, each once. -/
theorem GetPostStatus_per_requested_post (env : StatusEnv) (db : DB) (fdb : FollowDB)
    (idsStr : String) (userID : Nat) (postIDs : List Nat)
    (henv : env.likesErr = false ∧ env.favoritesErr = false ∧ env.authorsErr = false ∧
      env.followsErr = false)
    (hne : idsStr ≠ "") (hparse : parseIDs (splitComma idsStr) [] = .ok postIDs)
    (huniq : ActiveEdgesUnique fdb) :
    ∃ resp, controllers.GetPostStatus env db fdb idsStr userID =
        (.success 200 "get success", some resp) ∧
      resp.Status.map (fun s => s.PostID) = postIDs ∧
      (∀ (i pid : Nat), postIDs[i]? = some pid →
        ∃ s, resp.Status[i]? = some s ∧ s.PostID = pid ∧
          (s.Liked = true ↔ ∃ r ∈ db.post_likes, isActivePair pid userID r = true) ∧
          (s.Favorited = true ↔
            ∃ r ∈ db.post_favorites, isActivePair pid userID r = true)) ∧
      resp.Followed.Nodup ∧
      (∀ a, a ∈ resp.Followed ↔
        (∃ p ∈ db.posts, p.ID ∈ postIDs ∧ p.DeletedAt = none ∧ p.UserId = a) ∧
        ∃ f ∈ fdb.follows, isActiveEdge userID a f = true) := by
  obtain ⟨h1, h2, h3, h4⟩ := henv
  obtain ⟨following, hfol, hnodup, hmem⟩ :=
    GetUserFollowStatusForPosts_ok env.order db fdb huniq userID postIDs
  unfold controllers.GetPostStatus
  rw [if_neg hne]
  simp only [hparse, h1, h2, h3, h4, GetUserPostStatuses, Bool.false_eq_true, if_false, hfol]
  refine ⟨_, rfl, ?_, ?_, hnodup, hmem⟩
  · simp [List.map_map, Function.comp_def]
  · intro i pid hi
    have hin : pid ∈ postIDs := by
      obtain ⟨hlt, hget⟩ := List.getElem?_eq_some_iff.mp hi
      exact hget ▸ List.getElem_mem hlt
    rw [List.getElem?_map, hi]
    refine ⟨_, rfl, rfl, ?_, ?_⟩
    · show stateGet _ pid = true ↔ _
      rw [stateGet_foldl_marked, mem_pluckPostIDs]
      constructor
      · rintro (h | h)
        · exact h.2
        · exact absurd h (by simp [stateGet])
      · intro h
        exact Or.inl ⟨hin, h⟩
    · show stateGet _ pid = true ↔ _
      rw [stateGet_foldl_marked, mem_pluckPostIDs]
      constructor
      · rintro (h | h)
        · exact h.2
        · exact absurd h (by simp [stateGet])
      · intro h
        exact Or.inl ⟨hin, h⟩

/-- Witness for C22, the example of the specification: viewer `1` follows author `2`;
post `1` by author `2` is liked by the viewer, post `2` is by author `3`.  The answer is
post `1` liked and not favorited, post `2` neither, followed `[2]`. -/
theorem GetPostStatus_per_requested_post_witness :
    controllers.GetPostStatus (StatusEnv.ok KeyOrder.reversed) sampleStatusDB
        sampleFollowing "1, 2" 1 =
      (.success 200 "get success",
        some { Status := [{ PostID := 1, Liked := true, Favorited := false },
                 { PostID := 2, Liked := false, Favorited := false }],
               Followed := [2] }) ∧
    ∃ resp, controllers.GetPostStatus (StatusEnv.ok KeyOrder.reversed) sampleStatusDB
        sampleFollowing "1, 2" 1 = (.success 200 "get success", some resp) ∧
      resp.Status.map (fun s => s.PostID) = [1, 2] ∧
      (∀ (i pid : Nat), [1, 2][i]? = some pid →
        ∃ s, resp.Status[i]? = some s ∧ s.PostID = pid ∧
          (s.Liked = true ↔ ∃ r ∈ sampleStatusDB.post_likes, isActivePair pid 1 r = true) ∧
          (s.Favorited = true ↔
            ∃ r ∈ sampleStatusDB.post_favorites, isActivePair pid 1 r = true)) ∧
      resp.Followed.Nodup ∧
      (∀ a, a ∈ resp.Followed ↔
        (∃ p ∈ sampleStatusDB.posts, p.ID ∈ [1, 2] ∧ p.DeletedAt = none ∧ p.UserId = a) ∧
        ∃ f ∈ sampleFollowing.follows, isActiveEdge 1 a f = true) :=
  ⟨by decide,
    GetPostStatus_per_requested_post (StatusEnv.ok KeyOrder.reversed) sampleStatusDB
      sampleFollowing "1, 2" 1 [1, 2] ⟨rfl, rfl, rfl, rfl⟩ (by decide) rfl
      (by
        intro a b
        show List.countP (isActiveEdge a b)
          [({ ID := 1, FollowerID := 1, FollowingID := 2, DeletedAt := none } : Follow)] ≤ 1
        simp only [List.countP_cons, List.countP_nil]
        split <;> omega)⟩

end DevPlaza
